import Mathlib

/-!
# Log cursor (`src/cursor/cur_log.c`)

A shallow embedding of the WiredTiger log cursor.  The cursor structure
`WT_CURSOR_LOG` becomes a record that is passed explicitly through every
method; each method returns its C return value (`.ok ()` for `0`, `.error e`
for a non-zero return `e`) together with the cursor as the call leaves it, so
that the fields a failing call has already written stay visible.

Pointers into the record buffer (`stepp`, `stepp_end`) are offsets from
`cl->logrec->data`; `none` is `NULL`, which compares below every offset.
Everything the file uses but does not define (constants of `wt_internal.h`,
the packing routines, the buffer routine, the log scanner) is a field of
`Env`.  A routine of `Env` that fails returns `.error e` and leaves the
variables it was handed as they were; `WT_RET` and `WT_ERR` then return `e`
at once, with whatever the method had written before.  The step count is a
`uint32_t` and wraps at `2 ^ 32`; LSN offsets are `off_t`, whose overflow is
undefined, and are unbounded integers here.  The statistics counters, the
diagnostic assertions and the `CURSOR_API_CALL` / `API_END_RET` session
bookkeeping do not touch the cursor and are left out.  The field `scans` is a
history variable: the LSNs handed to the log scanner so far, oldest first.

`cur_log.c` never compares the declared size of an operation with the end of
the record.  For an operation of a kind it does not unpack it copies that
many bytes from the step pointer, and when the size runs past the end of the
record the copy takes in memory that is not part of the record.  What that
memory holds is not decided by `cur_log.c` (it is what the buffer held
before, or memory outside the buffer); it is the field `outside` of `Env`, a
function of the scans made so far, and no statement about the cursor in
general assumes anything about it.  The unpack routines of the four kinds
that are unpacked are handed the same range; as fields of `Env` they see the
record only, and the statements that compare the rows of two cursors leave
out the operations whose declared size runs past the end of the record
(`reads_past_record`).
-/

namespace CurLog

/-- Byte strings; one list element per byte. -/
abbrev Bytes := List Nat

/-- A pointer into the record buffer: an offset from `logrec->data`, or `NULL`. -/
abbrev Ptr := Option Nat

/-- The structure `WT_LSN`: log file number and byte offset in it (`off_t`). -/
structure WT_LSN where
  file : Nat
  offset : Int
deriving DecidableEq, Repr

/-- The cursor key as `__wt_cursor_set_key` receives it: file, offset, step count. -/
structure Key where
  file : Nat
  offset : Int
  counter : Nat
deriving DecidableEq, Repr

/-- The cursor value as `__wt_cursor_set_value` receives it. -/
structure Value where
  txnid : Nat
  rectype : Nat
  optype : Nat
  fileid : Nat
  opkey : Bytes
  opvalue : Bytes
deriving DecidableEq, Repr

/-- The structure `WT_CURSOR_LOG`, with the key and value of its `iface`. -/
structure WT_CURSOR_LOG where
  key : Option Key
  value : Option Value
  cur_lsn : WT_LSN
  next_lsn : WT_LSN
  logrec : Bytes
  opkey : Bytes
  opvalue : Bytes
  stepp : Ptr
  stepp_end : Ptr
  txnid : Nat
  rectype : Nat
  step_count : Nat
  scans : List WT_LSN
deriving DecidableEq, Repr

/-- What `cur_log.c` takes from the rest of the engine. -/
structure Env where
  /-- The constant `offsetof(WT_LOG_RECORD, record)`. -/
  hdr_offset : Nat
  WT_LOGREC_COMMIT : Nat
  WT_LOGOP_INVALID : Nat
  WT_LOGOP_COL_PUT : Nat
  WT_LOGOP_COL_REMOVE : Nat
  WT_LOGOP_ROW_PUT : Nat
  WT_LOGOP_ROW_REMOVE : Nat
  /-- The four `case` labels of the `switch` in `__curlog_op_read` are distinct. -/
  case_labels : [WT_LOGOP_COL_PUT, WT_LOGOP_COL_REMOVE, WT_LOGOP_ROW_PUT,
    WT_LOGOP_ROW_REMOVE].Nodup
  /-- The LSN that the statement `INIT_LSN` stores. -/
  INIT_LSN : WT_LSN
  /-- The error `__wt_cursor_notsup` returns. -/
  ENOTSUP : Int
  EINVAL : Int
  /-- The error `__wt_cursor_get_key` returns when no key is set. -/
  key_not_set : Int
  /-- Byte order of the host, for the in-memory bytes of a `uint64_t`. -/
  big_endian : Bool
  /-- The log scanner asked for one record: an error, or the record it hands
  to the callback together with that record's LSN. -/
  log_scan : WT_LSN → Except Int (Bytes × WT_LSN)
  /-- The return of `__wt_buf_set` asked to store the given bytes. -/
  buf_set : Bytes → Except Int Unit
  /-- The routine `__wt_logrec_read buf pp end`: advanced `pp` and the record type. -/
  logrec_read : Bytes → Nat → Nat → Except Int (Nat × Nat)
  /-- The routine `__wt_vunpack_uint buf pp maxlen`: advanced `pp` and the integer. -/
  vunpack_uint : Bytes → Nat → Nat → Except Int (Nat × Nat)
  /-- The routine `__wt_logop_read buf pp end`: operation type and size; it
  peeks, the pointer stays where it is. -/
  logop_read : Bytes → Ptr → Ptr → Except Int (Nat × Nat)
  /-- The routine `__wt_logop_col_put_unpack`: file id, record number, value. -/
  logop_col_put_unpack : Bytes → Ptr → Ptr → Except Int (Nat × Nat × Bytes)
  /-- The routine `__wt_logop_col_remove_unpack`: file id, record number. -/
  logop_col_remove_unpack : Bytes → Ptr → Ptr → Except Int (Nat × Nat)
  /-- The routine `__wt_logop_row_put_unpack`: file id, key, value. -/
  logop_row_put_unpack : Bytes → Ptr → Ptr → Except Int (Nat × Bytes × Bytes)
  /-- The routine `__wt_logop_row_remove_unpack`: file id, key. -/
  logop_row_remove_unpack : Bytes → Ptr → Ptr → Except Int (Nat × Bytes)
  /-- The byte that memory holds at an offset from `logrec->data` that is past
  the end of the record, after the given scans. -/
  outside : List WT_LSN → Nat → Nat

/-- The `n` bytes of memory that start at `p` in the record buffer, which
holds the record `buf` after the scans `scans`, as `__wt_buf_set` copies them
from there: the bytes of the record as far as the record reaches, and past
its end what memory holds there. -/
def raw_bytes (env : Env) (scans : List WT_LSN) (buf : Bytes) (p : Ptr) (n : Nat) : Bytes :=
  (List.range n).map fun i =>
    if p.getD 0 + i < buf.length then buf.getD (p.getD 0 + i) 0
    else env.outside scans (p.getD 0 + i)

/-- The byte `*p`. -/
def deref (buf : Bytes) (p : Nat) : Nat := buf.getD p 0

/-- The macro `WT_PTRDIFF(end, begin)`: the difference as a 64-bit `size_t`. -/
def WT_PTRDIFF (e b : Nat) : Nat := (((e : Int) - (b : Int)) % (2 ^ 64 : Int)).toNat

/-- The eight bytes of a `uint64_t` in memory, least significant first. -/
def le_bytes : Nat → Nat → Bytes
  | 0, _ => []
  | n + 1, v => (v % 256) :: le_bytes n (v / 256)

/-- The object representation of the `uint64_t recno`. -/
def recno_mem (env : Env) (recno : Nat) : Bytes :=
  if env.big_endian then (le_bytes 8 (recno % 2 ^ 64)).reverse
  else le_bytes 8 (recno % 2 ^ 64)

/-- Pointer addition `p + n`. -/
def Ptr.add (p : Ptr) (n : Nat) : Ptr := p.map (· + n)

/-- Modelled from the spec: the macro `LOG_CMP` is declared in the log header,
which is not among the sources; the spec orders LSNs by file first, then
offset, with results -1, 0, 1. -/
def LOG_CMP (a b : WT_LSN) : Int :=
  if a.file ≠ b.file then (if a.file < b.file then -1 else 1)
  else if a.offset ≠ b.offset then (if a.offset < b.offset then -1 else 1)
  else 0

/-- Callback `__curlog_logrec`: take the record the scanner hands over. -/
def __curlog_logrec (env : Env) (logrec : Bytes) (lsnp : WT_LSN)
    (cl : WT_CURSOR_LOG) : Except Int Unit × WT_CURSOR_LOG :=
  let cl := { cl with
    cur_lsn := lsnp,
    next_lsn := ⟨lsnp.file, lsnp.offset + (logrec.length : Int)⟩ }
  match env.buf_set logrec with
  | .error e => (.error e, cl)
  | .ok _ =>
    let cl := { cl with
      logrec := logrec,
      stepp := some env.hdr_offset,
      stepp_end := some logrec.length }
    match env.logrec_read logrec env.hdr_offset logrec.length with
    | .error e => (.error e, cl)
    | .ok (pp, rectype) =>
      let cl := { cl with stepp := some pp, rectype := rectype, step_count := 0 }
      if rectype = env.WT_LOGREC_COMMIT then
        match env.vunpack_uint logrec pp (WT_PTRDIFF logrec.length pp) with
        | .error e => (.error e, cl)
        | .ok (pp2, txnid) => (.ok (), { cl with stepp := some pp2, txnid := txnid })
      else
        (.ok (), { cl with stepp := none, txnid := 0 })

/-- Method `__curlog_compare`: the value stored in `*cmpp`. -/
def __curlog_compare (a b : WT_CURSOR_LOG) : Except Int Unit × Int :=
  let cmp := LOG_CMP a.cur_lsn b.cur_lsn
  if cmp = 0 then
    (.ok (), if a.step_count ≠ b.step_count then
      (if a.step_count < b.step_count then -1 else 1) else 0)
  else (.ok (), cmp)

/-- Function `__curlog_op_read`: on success the file id, with `opkey` and
`opvalue` of the cursor set. -/
def __curlog_op_read (env : Env) (cl : WT_CURSOR_LOG) (optype opsize : Nat) :
    Except Int Nat × WT_CURSOR_LOG :=
  let pp := cl.stepp
  let pend := pp.add opsize
  if optype = env.WT_LOGOP_COL_PUT then
    match env.logop_col_put_unpack cl.logrec pp pend with
    | .error e => (.error e, cl)
    | .ok (fileid, recno, value) =>
      match env.buf_set (recno_mem env recno) with
      | .error e => (.error e, cl)
      | .ok _ =>
        let cl := { cl with opkey := recno_mem env recno }
        match env.buf_set value with
        | .error e => (.error e, cl)
        | .ok _ => (.ok fileid, { cl with opvalue := value })
  else if optype = env.WT_LOGOP_COL_REMOVE then
    match env.logop_col_remove_unpack cl.logrec pp pend with
    | .error e => (.error e, cl)
    | .ok (fileid, recno) =>
      match env.buf_set (recno_mem env recno) with
      | .error e => (.error e, cl)
      | .ok _ =>
        let cl := { cl with opkey := recno_mem env recno }
        match env.buf_set [] with
        | .error e => (.error e, cl)
        | .ok _ => (.ok fileid, { cl with opvalue := [] })
  else if optype = env.WT_LOGOP_ROW_PUT then
    match env.logop_row_put_unpack cl.logrec pp pend with
    | .error e => (.error e, cl)
    | .ok (fileid, key, value) =>
      match env.buf_set key with
      | .error e => (.error e, cl)
      | .ok _ =>
        let cl := { cl with opkey := key }
        match env.buf_set value with
        | .error e => (.error e, cl)
        | .ok _ => (.ok fileid, { cl with opvalue := value })
  else if optype = env.WT_LOGOP_ROW_REMOVE then
    match env.logop_row_remove_unpack cl.logrec pp pend with
    | .error e => (.error e, cl)
    | .ok (fileid, key) =>
      match env.buf_set key with
      | .error e => (.error e, cl)
      | .ok _ =>
        let cl := { cl with opkey := key }
        match env.buf_set [] with
        | .error e => (.error e, cl)
        | .ok _ => (.ok fileid, { cl with opvalue := [] })
  else
    match env.buf_set [] with
    | .error e => (.error e, cl)
    | .ok _ =>
      let cl := { cl with opkey := [] }
      match env.buf_set (raw_bytes env cl.scans cl.logrec cl.stepp opsize) with
      | .error e => (.error e, cl)
      | .ok _ => (.ok 0, { cl with opvalue := raw_bytes env cl.scans cl.logrec cl.stepp opsize })

/-- Function `__curlog_kv`: set the key and value the cursor returns.  The
step count is a `uint32_t`. -/
def __curlog_kv (env : Env) (cl : WT_CURSOR_LOG) : Except Int Unit × WT_CURSOR_LOG :=
  let key_count := cl.step_count
  let cl := { cl with step_count := (cl.step_count + 1) % 2 ^ 32 }
  if key_count > 0 then
    match env.logop_read cl.logrec cl.stepp cl.stepp_end with
    | .error e => (.error e, cl)
    | .ok (optype, opsize) =>
      match __curlog_op_read env cl optype opsize with
      | (.error e, cl) => (.error e, cl)
      | (.ok fileid, cl) =>
        let cl := { cl with stepp := cl.stepp.add opsize }
        (.ok (), { cl with
          key := some ⟨cl.cur_lsn.file, cl.cur_lsn.offset, key_count⟩,
          value := some ⟨cl.txnid, cl.rectype, optype, fileid, cl.opkey, cl.opvalue⟩ })
  else
    let cl := { cl with opkey := [], opvalue := cl.logrec }
    (.ok (), { cl with
      key := some ⟨cl.cur_lsn.file, cl.cur_lsn.offset, key_count⟩,
      value := some ⟨cl.txnid, cl.rectype, env.WT_LOGOP_INVALID, 0, cl.opkey, cl.opvalue⟩ })

/-- Modelled from the spec: `__wt_log_scan` is defined in the log subsystem,
which is not among the sources.  Asked for one record (`WT_LOGSCAN_ONE`) at
`lsn` it either fails without calling back, or calls the callback once with
the record and its LSN and returns what the callback returns. -/
def __wt_log_scan (env : Env) (lsn : WT_LSN) (cl : WT_CURSOR_LOG) :
    Except Int Unit × WT_CURSOR_LOG :=
  let cl := { cl with scans := cl.scans ++ [lsn] }
  match env.log_scan lsn with
  | .error e => (.error e, cl)
  | .ok (logrec, lsnp) => __curlog_logrec env logrec lsnp cl

/-- The test of `__curlog_next`:
`cl->stepp == NULL || cl->stepp >= cl->stepp_end || !*cl->stepp`. -/
def needs_fetch (cl : WT_CURSOR_LOG) : Bool :=
  match cl.stepp with
  | none => true
  | some p => decide (cl.stepp_end.getD 0 ≤ p) || decide (deref cl.logrec p = 0)

/-- Method `__curlog_next`. -/
def __curlog_next (env : Env) (cl : WT_CURSOR_LOG) : Except Int Unit × WT_CURSOR_LOG :=
  if needs_fetch cl then
    let cl := { cl with txnid := 0 }
    match __wt_log_scan env cl.next_lsn cl with
    | (.error e, cl) => (.error e, cl)
    | (.ok _, cl) => __curlog_kv env cl
  else
    __curlog_kv env cl

/-- Method `__curlog_search`; the key to look for is the one set in the cursor. -/
def __curlog_search (env : Env) (cl : WT_CURSOR_LOG) : Except Int Unit × WT_CURSOR_LOG :=
  match cl.key with
  | none => (.error env.key_not_set, cl)
  | some k =>
    match __wt_log_scan env ⟨k.file, k.offset⟩ cl with
    | (.error e, cl) => (.error e, cl)
    | (.ok _, cl) => __curlog_kv env cl

/-- Method `__curlog_reset`. -/
def __curlog_reset (env : Env) (cl : WT_CURSOR_LOG) : Except Int Unit × WT_CURSOR_LOG :=
  (.ok (), { cl with
    stepp := none, stepp_end := none, step_count := 0,
    cur_lsn := env.INIT_LSN, next_lsn := env.INIT_LSN })

/-- The cursor `__wt_curlog_open` hands out: zeroed by `calloc`, empty scratch
buffers, both LSNs set by `INIT_LSN`. -/
def curlog_open (env : Env) : WT_CURSOR_LOG :=
  { key := none, value := none,
    cur_lsn := env.INIT_LSN, next_lsn := env.INIT_LSN,
    logrec := [], opkey := [], opvalue := [],
    stepp := none, stepp_end := none,
    txnid := 0, rectype := 0, step_count := 0, scans := [] }

/-- Function `__wt_curlog_open`, given whether the connection logs
(`conn->logging`); the allocations and the generic cursor set-up succeed. -/
def __wt_curlog_open (env : Env) (logging : Bool) : Except Int WT_CURSOR_LOG :=
  if logging then .ok (curlog_open env) else .error env.EINVAL

/-- The position a cursor is compared by: strictly before, in the order
file, then offset, then step count. -/
def pos_lt (a b : WT_CURSOR_LOG) : Prop :=
  a.cur_lsn.file < b.cur_lsn.file ∨
  (a.cur_lsn.file = b.cur_lsn.file ∧
    (a.cur_lsn.offset < b.cur_lsn.offset ∨
      (a.cur_lsn.offset = b.cur_lsn.offset ∧ a.step_count < b.step_count)))

/-- The two cursors are at the same position: same LSN and same step count. -/
def pos_eq (a b : WT_CURSOR_LOG) : Prop :=
  a.cur_lsn.file = b.cur_lsn.file ∧ a.cur_lsn.offset = b.cur_lsn.offset ∧
    a.step_count = b.step_count

/-- The cursor after `n` calls of `next`, whatever they return. -/
def next_n (env : Env) : Nat → WT_CURSOR_LOG → WT_CURSOR_LOG
  | 0, cl => cl
  | n + 1, cl => next_n env n (__curlog_next env cl).2

/-- What a caller sees of a call: the return value and, when it is `0`, the
key and the value set in the cursor. -/
def visible (r : Except Int Unit × WT_CURSOR_LOG) :
    Except Int (Option Key × Option Value) :=
  match r.1 with
  | .error e => .error e
  | .ok _ => .ok (r.2.key, r.2.value)

/-- What the caller sees of each of the first `m` calls of `next`. -/
def next_results (env : Env) : Nat → WT_CURSOR_LOG →
    List (Except Int (Option Key × Option Value))
  | 0, _ => []
  | m + 1, cl => visible (__curlog_next env cl) :: next_results env m (__curlog_next env cl).2

/-- The Operation Reader as section 4.2 of the spec tabulates it: for the
operation of kind `optype` and declared size `opsize` that starts at offset
`p` of the record, the table-id, the key and the value; for a kind that is
not unpacked the value is the byte range of the operation, and framing that
runs past the end of the record is the decode error of section 7. -/
def spec_read_operation (env : Env) (buf : Bytes) (p optype opsize : Nat) :
    Except Int (Nat × Bytes × Bytes) :=
  if optype = env.WT_LOGOP_COL_PUT then
    match env.logop_col_put_unpack buf (some p) (some (p + opsize)) with
    | .error e => .error e
    | .ok (fileid, recno, value) => .ok (fileid, recno_mem env recno, value)
  else if optype = env.WT_LOGOP_COL_REMOVE then
    match env.logop_col_remove_unpack buf (some p) (some (p + opsize)) with
    | .error e => .error e
    | .ok (fileid, recno) => .ok (fileid, recno_mem env recno, [])
  else if optype = env.WT_LOGOP_ROW_PUT then
    match env.logop_row_put_unpack buf (some p) (some (p + opsize)) with
    | .error e => .error e
    | .ok (fileid, key, value) => .ok (fileid, key, value)
  else if optype = env.WT_LOGOP_ROW_REMOVE then
    match env.logop_row_remove_unpack buf (some p) (some (p + opsize)) with
    | .error e => .error e
    | .ok (fileid, key) => .ok (fileid, key, [])
  else if p + opsize ≤ buf.length then .ok (0, [], (buf.drop p).take opsize)
  else .error env.EINVAL

/-- One operation of a commit record, as decoded. -/
structure Operation where
  optype : Nat
  opsize : Nat
  fileid : Nat
  key : Bytes
  value : Bytes
deriving DecidableEq, Repr

/-- The operations `ops` tile record `R` from offset `p` to its end: each
starts with a non-zero byte, has the type and size its framing declares and
the contents its kind decodes to, and the next one starts where it ends. -/
def ops_at (env : Env) (R : Bytes) : Nat → List Operation → Prop
  | p, [] => p = R.length
  | p, op :: rest =>
    deref R p ≠ 0 ∧
    env.logop_read R (some p) (some R.length) = .ok (op.optype, op.opsize) ∧
    spec_read_operation env R p op.optype op.opsize = .ok (op.fileid, op.key, op.value) ∧
    ops_at env R (p + op.opsize) rest

/-- The cursor is stepping through commit record `R` fetched at `lsn`, with
transaction id `t`, its step pointer at offset `p` and `j` rows returned. -/
def stepping (env : Env) (R : Bytes) (lsn : WT_LSN) (t p j : Nat) (c : WT_CURSOR_LOG) : Prop :=
  c.logrec = R ∧ c.stepp = some p ∧ c.stepp_end = some R.length ∧ c.cur_lsn = lsn ∧
    c.next_lsn = ⟨lsn.file, lsn.offset + (R.length : Int)⟩ ∧
    c.txnid = t ∧ c.rectype = env.WT_LOGREC_COMMIT ∧ c.step_count = j % 2 ^ 32

/-- The row the cursor holds is the whole-record row: operation type
`WT_LOGOP_INVALID`, file id 0, empty key, and the record buffer as value. -/
def whole_record_row (env : Env) (c : WT_CURSOR_LOG) : Prop :=
  ∃ v, c.value = some v ∧ v.optype = env.WT_LOGOP_INVALID ∧ v.fileid = 0 ∧
    v.opkey = [] ∧ v.opvalue = c.logrec ∧ v.opvalue.length = c.logrec.length

/-- Modelled from the spec: `__wt_cursor_notsup` is defined with the generic
cursor code, which is not among the sources; by section 4.8 of the spec an
unsupported operation always fails with the not-supported error and causes
no state mutation. -/
def __wt_cursor_notsup (env : Env) (cl : WT_CURSOR_LOG) : Except Int Unit × WT_CURSOR_LOG :=
  (.error env.ENOTSUP, cl)

/-- The methods of a cursor that take the cursor alone (`compare` takes two
cursors, `close` ends the cursor; they are not in this table). -/
inductive Method where
  | next
  | prev
  | reset
  | search
  | search_near
  | insert
  | update
  | remove
deriving DecidableEq, Repr

/-- The method table `WT_CURSOR_STATIC_INIT(iface, ...)` of `__wt_curlog_open`. -/
def iface (env : Env) : Method → WT_CURSOR_LOG → Except Int Unit × WT_CURSOR_LOG
  | .next => __curlog_next env
  | .prev => __wt_cursor_notsup env
  | .reset => __curlog_reset env
  | .search => __curlog_search env
  | .search_near => __wt_cursor_notsup env
  | .insert => __wt_cursor_notsup env
  | .update => __wt_cursor_notsup env
  | .remove => __wt_cursor_notsup env

/-- The number whose bytes, least significant first, are the list. -/
def le_value : Bytes → Nat
  | [] => 0
  | b :: bs => b + 256 * le_value bs

/-- The two cursors agree on everything `next` reads: both LSNs, both step
pointers, the step count, the record buffer, transaction id and record type. -/
def core_eq (a b : WT_CURSOR_LOG) : Prop :=
  a.cur_lsn = b.cur_lsn ∧ a.next_lsn = b.next_lsn ∧ a.stepp = b.stepp ∧
    a.stepp_end = b.stepp_end ∧ a.step_count = b.step_count ∧ a.logrec = b.logrec ∧
    a.txnid = b.txnid ∧ a.rectype = b.rectype

/-- The two cursors agree on their position, and on the record (buffer,
transaction id, type) as long as the step pointer is not null. -/
def sim (a b : WT_CURSOR_LOG) : Prop :=
  a.cur_lsn = b.cur_lsn ∧ a.next_lsn = b.next_lsn ∧ a.stepp = b.stepp ∧
    a.stepp_end = b.stepp_end ∧ a.step_count = b.step_count ∧
    (a.stepp ≠ none → a.logrec = b.logrec ∧ a.txnid = b.txnid ∧ a.rectype = b.rectype)

/-- The header of the record the scanner delivers for `q`, if it delivers one
and the cursor can store it, decodes. -/
def hdr_ok_at (env : Env) (q : WT_LSN) : Prop :=
  ∀ r l, env.log_scan q = .ok (r, l) → env.buf_set r = .ok () →
    ∃ x, env.logrec_read r env.hdr_offset r.length = .ok x

/-- The header of every record the scanner delivers decodes. -/
def hdr_decodes (env : Env) : Prop :=
  ∀ q r l, env.log_scan q = .ok (r, l) →
    ∃ x, env.logrec_read r env.hdr_offset r.length = .ok x

/-- The order of LSNs: file first, then offset. -/
def lsn_lt (x y : WT_LSN) : Prop :=
  x.file < y.file ∨ (x.file = y.file ∧ x.offset < y.offset)

/-- At or after, in the order of LSNs. -/
def lsn_le (x y : WT_LSN) : Prop :=
  x.file < y.file ∨ (x.file = y.file ∧ x.offset ≤ y.offset)

/-- The scanner delivers records in strictly increasing LSN order: the
record delivered for a request is not before the LSN asked for, and no
record is empty, so the record after it starts strictly later. -/
def scan_increasing (env : Env) : Prop :=
  ∀ q r l, env.log_scan q = .ok (r, l) → lsn_le q l ∧ 0 < r.length

/-- The LSNs of a cursor run from `reset` or `open`: the next LSN is strictly
after the current one, or nothing has been fetched yet (both LSNs equal, step
count 0, step pointer null). -/
def lsn_inv (c : WT_CURSOR_LOG) : Prop :=
  lsn_lt c.cur_lsn c.next_lsn ∨
    (c.cur_lsn = c.next_lsn ∧ c.step_count = 0 ∧ c.stepp = none)

/-- The cursor states a caller can get to: from `__wt_curlog_open`, by
`next`, `search` (on the key in the cursor, which the caller may set first)
and `reset`. -/
inductive Reachable (env : Env) : WT_CURSOR_LOG → Prop where
  | opened : Reachable env (curlog_open env)
  | next {c : WT_CURSOR_LOG} : Reachable env c → Reachable env (__curlog_next env c).2
  | set_key {c : WT_CURSOR_LOG} (k : Key) : Reachable env c →
      Reachable env { c with key := some k }
  | search {c : WT_CURSOR_LOG} : Reachable env c → Reachable env (__curlog_search env c).2
  | reset {c : WT_CURSOR_LOG} : Reachable env c → Reachable env (__curlog_reset env c).2

/-- The LSN `n` bytes after `l` in the same log file. -/
def lsn_advance (l : WT_LSN) (n : Nat) : WT_LSN := ⟨l.file, l.offset + (n : Int)⟩

/-- The LSNs of the cursor are as `open` and `reset` leave them (nothing
fetched since), or they are those of a record the scanner delivers: the
current LSN its LSN, the next LSN its length further. -/
def lsn_pair (env : Env) (c : WT_CURSOR_LOG) : Prop :=
  (c.cur_lsn = env.INIT_LSN ∧ c.next_lsn = env.INIT_LSN ∧ c.stepp = none ∧
      c.step_count = 0) ∨
    ∃ q r l, env.log_scan q = .ok (r, l) ∧ c.cur_lsn = l ∧ c.next_lsn = lsn_advance l r.length

/-- A step pointer that is not null is at most the end pointer. -/
def step_in_record (c : WT_CURSOR_LOG) : Prop :=
  ∀ p, c.stepp = some p → ∃ e, c.stepp_end = some e ∧ p ≤ e

/-- The engine keeps the framing inside the record: no record it delivers is
shorter than the header offset, and the routines that read the header, the
transaction id and the framing of an operation never give back a position or
a declared size that runs past the end they were given. -/
def framing_checked (env : Env) : Prop :=
  (∀ q r l, env.log_scan q = .ok (r, l) → env.hdr_offset ≤ r.length) ∧
  (∀ r pp ty, env.logrec_read r env.hdr_offset r.length = .ok (pp, ty) → pp ≤ r.length) ∧
  (∀ r pp p2 t, pp ≤ r.length →
    env.vunpack_uint r pp (WT_PTRDIFF r.length pp) = .ok (p2, t) → p2 ≤ r.length) ∧
  (∀ buf p e ty sz, env.logop_read buf (some p) (some e) = .ok (ty, sz) → p + sz ≤ e)

/-- The call returned an operation row: it succeeded and the key it set has
a slot of at least 1. -/
def is_op_row (r : Except Int Unit × WT_CURSOR_LOG) : Bool :=
  match r.1, r.2.key with
  | .ok _, some k => decide (0 < k.counter)
  | _, _ => false

/-- The number of operation rows among the results of the first `n` calls of
`next`. -/
def op_rows (env : Env) : Nat → WT_CURSOR_LOG → Nat
  | 0, _ => 0
  | n + 1, c =>
    (if is_op_row (__curlog_next env c) then 1 else 0) + op_rows env n (__curlog_next env c).2

/-- The kind `ty` is none of the four kinds `__curlog_op_read` unpacks. -/
abbrev other_kind (env : Env) (ty : Nat) : Prop :=
  ty ≠ env.WT_LOGOP_COL_PUT ∧ ty ≠ env.WT_LOGOP_COL_REMOVE ∧
    ty ≠ env.WT_LOGOP_ROW_PUT ∧ ty ≠ env.WT_LOGOP_ROW_REMOVE

/-- The function `__curlog_kv` on `cl` reads an operation whose declared
size runs past the end of the record: the range it hands on, to the unpack
routine of the kind or to the copy of the bytes, takes in memory outside the
record. -/
def kv_reads_past_record (env : Env) (cl : WT_CURSOR_LOG) : Bool :=
  decide (0 < cl.step_count) &&
    match env.logop_read cl.logrec cl.stepp cl.stepp_end with
    | .error _ => false
    | .ok (_, sz) => decide (cl.logrec.length < cl.stepp.getD 0 + sz)

/-- The `next` call on `cl` does not fetch and reads an operation whose
declared size runs past the end of the record. -/
def reads_past_record (env : Env) (cl : WT_CURSOR_LOG) : Bool :=
  !needs_fetch cl && kv_reads_past_record env cl

/-! ## A small concrete engine

A one-byte-per-field packing and a log held in a list, to run the cursor on
concrete logs. -/

namespace Toy

def EINVAL : Int := 22

def WT_NOTFOUND : Int := -31803

/-- Record type: one byte; the byte 255 does not decode. -/
def logrec_read (buf : Bytes) (pp pend : Nat) : Except Int (Nat × Nat) :=
  if pend ≤ pp ∨ deref buf pp = 255 then .error EINVAL else .ok (pp + 1, deref buf pp)

/-- Unsigned integer: one byte; the byte 255 does not decode. -/
def vunpack_uint (buf : Bytes) (pp maxlen : Nat) : Except Int (Nat × Nat) :=
  if maxlen = 0 ∨ deref buf pp = 255 then .error EINVAL else .ok (pp + 1, deref buf pp)

/-- Operation framing: a type byte, then a size byte. -/
def logop_read (buf : Bytes) (pp pend : Ptr) : Except Int (Nat × Nat) :=
  match pp, pend with
  | some p, some e => if e < p + 2 then .error EINVAL else .ok (deref buf p, deref buf (p + 1))
  | _, _ => .error EINVAL

/-- Column put: type, size, file id, record number, value length, value.  This
routine and the three after it fail rather than read past the end they are
given or past the buffer. -/
def logop_col_put_unpack (buf : Bytes) (pp pend : Ptr) : Except Int (Nat × Nat × Bytes) :=
  match pp, pend with
  | some p, some e =>
    let vlen := deref buf (p + 4)
    if e < p + 5 + vlen ∨ buf.length < p + 5 + vlen then .error EINVAL
    else .ok (deref buf (p + 2), deref buf (p + 3), (buf.drop (p + 5)).take vlen)
  | _, _ => .error EINVAL

/-- Column remove: type, size, file id, record number. -/
def logop_col_remove_unpack (buf : Bytes) (pp pend : Ptr) : Except Int (Nat × Nat) :=
  match pp, pend with
  | some p, some e =>
    if e < p + 4 ∨ buf.length < p + 4 then .error EINVAL
    else .ok (deref buf (p + 2), deref buf (p + 3))
  | _, _ => .error EINVAL

/-- Row put: type, size, file id, key length, key, value length, value. -/
def logop_row_put_unpack (buf : Bytes) (pp pend : Ptr) : Except Int (Nat × Bytes × Bytes) :=
  match pp, pend with
  | some p, some e =>
    let klen := deref buf (p + 3)
    let vlen := deref buf (p + 4 + klen)
    if e < p + 5 + klen + vlen ∨ buf.length < p + 5 + klen + vlen then .error EINVAL
    else .ok (deref buf (p + 2), (buf.drop (p + 4)).take klen,
      (buf.drop (p + 5 + klen)).take vlen)
  | _, _ => .error EINVAL

/-- Row remove: type, size, file id, key length, key. -/
def logop_row_remove_unpack (buf : Bytes) (pp pend : Ptr) : Except Int (Nat × Bytes) :=
  match pp, pend with
  | some p, some e =>
    let klen := deref buf (p + 3)
    if e < p + 4 + klen ∨ buf.length < p + 4 + klen then .error EINVAL
    else .ok (deref buf (p + 2), (buf.drop (p + 4)).take klen)
  | _, _ => .error EINVAL

/-- Scanner over a log held as a list of records with their LSNs: the
initial LSN (0,0) stands for the start of the log, any other LSN must be the
LSN of a record. -/
def log_scan (log : List (WT_LSN × Bytes)) (lsn : WT_LSN) : Except Int (Bytes × WT_LSN) :=
  match (if lsn = ⟨0, 0⟩ then log.head? else log.find? (fun r => decide (r.1 = lsn))) with
  | none => .error WT_NOTFOUND
  | some (l, rec) => .ok (rec, l)

/-- The memory of the record buffer after the scans `scans`, in this engine:
every record delivered was written over the start of what the buffer held. -/
def buffer (log : List (WT_LSN × Bytes)) (scans : List WT_LSN) : Bytes :=
  scans.foldl (fun mem q =>
    match log_scan log q with
    | .ok (r, _) => r ++ mem.drop r.length
    | .error _ => mem) []

/-- The byte at offset `i` of that memory; in this engine the memory past
what the buffer ever held reads as 170. -/
def outside (log : List (WT_LSN × Bytes)) (scans : List WT_LSN) (i : Nat) : Nat :=
  (buffer log scans).getD i 170

/-- The engine over the log `log`. -/
def env (log : List (WT_LSN × Bytes)) : Env :=
  { hdr_offset := 2
    WT_LOGREC_COMMIT := 1
    WT_LOGOP_INVALID := 0
    WT_LOGOP_COL_PUT := 1
    WT_LOGOP_COL_REMOVE := 2
    WT_LOGOP_ROW_PUT := 4
    WT_LOGOP_ROW_REMOVE := 5
    case_labels := by decide
    INIT_LSN := ⟨0, 0⟩
    ENOTSUP := 95
    EINVAL := EINVAL
    key_not_set := EINVAL
    big_endian := false
    log_scan := log_scan log
    buf_set := fun _ => .ok ()
    logrec_read := logrec_read
    vunpack_uint := vunpack_uint
    logop_read := logop_read
    logop_col_put_unpack := logop_col_put_unpack
    logop_col_remove_unpack := logop_col_remove_unpack
    logop_row_put_unpack := logop_row_put_unpack
    logop_row_remove_unpack := logop_row_remove_unpack
    outside := outside log }

/-- Commit record of transaction 5: a row put of ("a", "1") and a row remove
of "b", both in table 3. -/
def record1 : Bytes := [0, 0, 1, 5, 4, 7, 3, 1, 97, 1, 49, 5, 5, 3, 1, 98]

/-- Checkpoint record (type 0). -/
def record2 : Bytes := [0, 0, 0, 9, 9]

/-- The log of the example scenario of the spec. -/
def log12 : List (WT_LSN × Bytes) := [(⟨1, 0⟩, record1), (⟨1, 16⟩, record2)]

/-- A log of two records: the header of the first does not decode (type byte
255), the second is a record of type 7. -/
def log_bad_header : List (WT_LSN × Bytes) := [(⟨1, 0⟩, [0, 0, 255, 2]), (⟨1, 4⟩, [0, 0, 7])]

/-- A log of one commit record whose only operation (kind 9) declares size 0. -/
def log_zero_size : List (WT_LSN × Bytes) := [(⟨1, 0⟩, [0, 0, 1, 5, 9, 0])]

/-- Operation framing that also rejects a declared size running past the end. -/
def logop_read_checked (buf : Bytes) (pp pend : Ptr) : Except Int (Nat × Nat) :=
  match pp, pend with
  | some p, some e =>
    if e < p + 2 ∨ e < p + deref buf (p + 1) then .error EINVAL
    else .ok (deref buf p, deref buf (p + 1))
  | _, _ => .error EINVAL

/-- The engine over the log `log`, with the checking operation framing. -/
def env_checked (log : List (WT_LSN × Bytes)) : Env :=
  { env log with logop_read := logop_read_checked }

/-- A log of one commit record whose only operation (kind 9) declares size 9
with two bytes left in the record. -/
def log_overrun : List (WT_LSN × Bytes) := [(⟨1, 0⟩, [0, 0, 1, 5, 9, 9])]

/-- That record, followed by the first record of the example scenario. -/
def log_overrun_then_record1 : List (WT_LSN × Bytes) :=
  [(⟨1, 0⟩, [0, 0, 1, 5, 9, 9]), (⟨1, 6⟩, record1)]

/-- A commit record whose first operation, a row put, holds a zero byte in
its value; the second is a row remove. -/
def record_zero_value : Bytes := [0, 0, 1, 5, 4, 7, 3, 1, 97, 1, 0, 5, 5, 3, 1, 98]

/-- The log of that one record. -/
def log_zero_value : List (WT_LSN × Bytes) := [(⟨1, 0⟩, record_zero_value)]

end Toy

/-! ## Bytes of the record buffer -/

theorem raw_bytes_length (env : Env) (scans : List WT_LSN) (buf : Bytes) (p : Ptr) (n : Nat) :
    (raw_bytes env scans buf p n).length = n := by
  simp [raw_bytes]

/-- A copy that stays inside the record takes bytes of the record, whatever
memory holds outside it. -/
theorem raw_bytes_in_bounds (env : Env) (scans : List WT_LSN) (buf : Bytes) (p n : Nat)
    (h : p + n ≤ buf.length) :
    raw_bytes env scans buf (some p) n = (buf.drop p).take n := by
  apply List.ext_getElem
  · simp [raw_bytes]
    omega
  · intro i h1 h2
    simp only [raw_bytes, List.length_map, List.length_range] at h1
    have : p + i < buf.length := by omega
    simp [raw_bytes, this, List.getD_eq_getElem?_getD]

/-- A copy that stays inside the record does not depend on the scans made. -/
theorem raw_bytes_inside (env : Env) (s1 s2 : List WT_LSN) (buf : Bytes) (p : Ptr) (n : Nat)
    (h : p.getD 0 + n ≤ buf.length) :
    raw_bytes env s1 buf p n = raw_bytes env s2 buf p n := by
  unfold raw_bytes
  apply List.map_congr_left
  intro i hi
  have : p.getD 0 + i < buf.length := by
    have := List.mem_range.1 hi
    omega
  simp only [this, ↓reduceIte]

/-! ## Compare -/

/-- The value `compare` stores, by cases on the fields it reads. -/
theorem compare_cases (a b : WT_CURSOR_LOG) :
    ((__curlog_compare a b).2 = -1 ∧ pos_lt a b ∧ ¬ pos_eq a b ∧ ¬ pos_lt b a) ∨
    ((__curlog_compare a b).2 = 0 ∧ ¬ pos_lt a b ∧ pos_eq a b ∧ ¬ pos_lt b a) ∨
    ((__curlog_compare a b).2 = 1 ∧ ¬ pos_lt a b ∧ ¬ pos_eq a b ∧ pos_lt b a) := by
  simp only [__curlog_compare, LOG_CMP, pos_lt, pos_eq, ne_eq]
  split_ifs <;> simp_all <;> omega

theorem pos_lt_trans {a b c : WT_CURSOR_LOG} (h1 : pos_lt a b) (h2 : pos_lt b c) :
    pos_lt a c := by
  simp only [pos_lt] at *
  omega

theorem pos_eq_lt_trans {a b c : WT_CURSOR_LOG} (h1 : pos_eq a b) (h2 : pos_lt b c) :
    pos_lt a c := by
  simp only [pos_lt, pos_eq] at *
  omega

theorem pos_lt_eq_trans {a b c : WT_CURSOR_LOG} (h1 : pos_lt a b) (h2 : pos_eq b c) :
    pos_lt a c := by
  simp only [pos_lt, pos_eq] at *
  omega

theorem pos_eq_trans {a b c : WT_CURSOR_LOG} (h1 : pos_eq a b) (h2 : pos_eq b c) :
    pos_eq a c := by
  simp only [pos_eq] at *
  omega

theorem LOG_CMP_eq_zero_iff (x y : WT_LSN) : LOG_CMP x y = 0 ↔ x = y := by
  obtain ⟨fx, ox⟩ := x
  obtain ⟨fy, oy⟩ := y
  simp only [LOG_CMP, ne_eq, WT_LSN.mk.injEq]
  split_ifs <;> simp_all

/-- C6: `compare` always succeeds and stores -1, 0 or 1 according to the
lexicographic order of (file, offset, step count): -1 exactly when `a` is
strictly before `b`, 0 exactly when the positions are equal, 1 exactly when
`b` is strictly before `a`; the step counts decide only when the LSNs are
equal; hence compare(a, b) = -compare(b, a), compare(a, a) = 0, and both
"before" and "not after" are transitive. -/
theorem curlog_compare_lexicographic (a b c : WT_CURSOR_LOG) :
    (__curlog_compare a b).1 = .ok () ∧
    ((__curlog_compare a b).2 = -1 ∨ (__curlog_compare a b).2 = 0 ∨
      (__curlog_compare a b).2 = 1) ∧
    ((__curlog_compare a b).2 = -1 ↔ pos_lt a b) ∧
    ((__curlog_compare a b).2 = 0 ↔ pos_eq a b) ∧
    ((__curlog_compare a b).2 = 1 ↔ pos_lt b a) ∧
    (a.cur_lsn ≠ b.cur_lsn →
      (__curlog_compare a b).2 = LOG_CMP a.cur_lsn b.cur_lsn) ∧
    (__curlog_compare a b).2 = -(__curlog_compare b a).2 ∧
    (__curlog_compare a a).2 = 0 ∧
    ((__curlog_compare a b).2 = -1 → (__curlog_compare b c).2 = -1 →
      (__curlog_compare a c).2 = -1) ∧
    ((__curlog_compare a b).2 ≤ 0 → (__curlog_compare b c).2 ≤ 0 →
      (__curlog_compare a c).2 ≤ 0) := by
  have hab := compare_cases a b
  have hba := compare_cases b a
  have hbc := compare_cases b c
  have hac := compare_cases a c
  have haa := compare_cases a a
  have hsym : pos_eq a b ↔ pos_eq b a := by simp only [pos_eq]; omega
  have hirr : ¬ pos_lt a a := by simp only [pos_lt]; omega
  refine ⟨?_, ?_, ?_, ?_, ?_, ?_, ?_, ?_, ?_, ?_⟩
  · simp only [__curlog_compare]; split_ifs <;> rfl
  · rcases hab with h | h | h <;> simp [h.1]
  · rcases hab with h | h | h <;> simp [h.1, h.2.1]
  · rcases hab with h | h | h <;> simp [h.1, h.2.2.1]
  · rcases hab with h | h | h <;> simp [h.1, h.2.2.2]
  · intro hne
    have : LOG_CMP a.cur_lsn b.cur_lsn ≠ 0 := fun h => hne ((LOG_CMP_eq_zero_iff _ _).1 h)
    simp [__curlog_compare, this]
  · rcases hab with h | h | h <;> rcases hba with g | g | g <;>
      simp_all
  · rcases haa with h | h | h
    · exact absurd h.2.1 hirr
    · exact h.1
    · exact absurd h.2.2.2 hirr
  · intro h1 h2
    have hl1 : pos_lt a b := by rcases hab with h | h | h <;> simp_all
    have hl2 : pos_lt b c := by rcases hbc with h | h | h <;> simp_all
    have hl3 := pos_lt_trans hl1 hl2
    rcases hac with h | h | h
    · exact h.1
    · exact absurd hl3 h.2.1
    · exact absurd hl3 h.2.1
  · intro h1 h2
    have hl1 : pos_lt a b ∨ pos_eq a b := by
      rcases hab with h | h | h
      · exact Or.inl h.2.1
      · exact Or.inr h.2.2.1
      · rw [h.1] at h1; exact absurd h1 (by decide)
    have hl2 : pos_lt b c ∨ pos_eq b c := by
      rcases hbc with h | h | h
      · exact Or.inl h.2.1
      · exact Or.inr h.2.2.1
      · rw [h.1] at h2; exact absurd h2 (by decide)
    have hl3 : pos_lt a c ∨ pos_eq a c := by
      rcases hl1 with x | x <;> rcases hl2 with y | y
      · exact Or.inl (pos_lt_trans x y)
      · exact Or.inl (pos_lt_eq_trans x y)
      · exact Or.inl (pos_eq_lt_trans x y)
      · exact Or.inr (pos_eq_trans x y)
    rcases hac with h | h | h
    · rw [h.1]; decide
    · rw [h.1]
    · rcases hl3 with x | x
      · exact absurd x h.2.1
      · exact absurd x h.2.2.1

/-! ## Stepping through a commit record -/

theorem op_read_frame (env : Env) (cl : WT_CURSOR_LOG) (ty sz : Nat) :
    ∃ k v, (__curlog_op_read env cl ty sz).2 = { cl with opkey := k, opvalue := v } := by
  unfold __curlog_op_read
  simp only []
  repeat' split
  all_goals first
    | exact ⟨cl.opkey, cl.opvalue, rfl⟩
    | exact ⟨_, cl.opvalue, rfl⟩
    | exact ⟨_, _, rfl⟩

theorem op_read_spec (env : Env) (cl : WT_CURSOR_LOG) (p ty sz fid : Nat) (k v : Bytes)
    (hp : cl.stepp = some p) (hbuf : ∀ b, env.buf_set b = .ok ())
    (hs : spec_read_operation env cl.logrec p ty sz = .ok (fid, k, v)) :
    __curlog_op_read env cl ty sz = (.ok fid, { cl with opkey := k, opvalue := v }) := by
  unfold spec_read_operation at hs
  unfold __curlog_op_read
  simp only [hp, Ptr.add, Option.map_some', hbuf]
  split_ifs at hs ⊢ with c1 c2 c3 c4 hin
  · split at hs
    · simp at hs
    · rename_i heq
      simp only [Except.ok.injEq, Prod.mk.injEq] at hs
      obtain ⟨h1, h2, h3⟩ := hs
      subst h1 h2 h3
      simp only [heq]
  · split at hs
    · simp at hs
    · rename_i heq
      simp only [Except.ok.injEq, Prod.mk.injEq] at hs
      obtain ⟨h1, h2, h3⟩ := hs
      subst h1 h2 h3
      simp only [heq]
  · split at hs
    · simp at hs
    · rename_i heq
      simp only [Except.ok.injEq, Prod.mk.injEq] at hs
      obtain ⟨h1, h2, h3⟩ := hs
      subst h1 h2 h3
      simp only [heq]
  · split at hs
    · simp at hs
    · rename_i heq
      simp only [Except.ok.injEq, Prod.mk.injEq] at hs
      obtain ⟨h1, h2, h3⟩ := hs
      subst h1 h2 h3
      simp only [heq]
  · simp only [Except.ok.injEq, Prod.mk.injEq] at hs
    obtain ⟨h1, h2, h3⟩ := hs
    subst h1 h2 h3
    rw [raw_bytes_in_bounds env cl.scans cl.logrec p sz hin]

theorem deref_ne_zero_lt {R : Bytes} {p : Nat} (h : deref R p ≠ 0) : p < R.length := by
  by_contra hc
  apply h
  unfold deref
  rw [List.getD_eq_default]
  omega

theorem needs_fetch_stepping {env : Env} {R : Bytes} {lsn : WT_LSN} {t p j : Nat}
    {c : WT_CURSOR_LOG} (hst : stepping env R lsn t p j c) (hb : deref R p ≠ 0) :
    needs_fetch c = false := by
  obtain ⟨h1, h2, h3, -⟩ := hst
  have := deref_ne_zero_lt hb
  simp [needs_fetch, h1, h2, h3, hb]
  omega

theorem needs_fetch_at_end {env : Env} {R : Bytes} {lsn : WT_LSN} {t j : Nat}
    {c : WT_CURSOR_LOG} (hst : stepping env R lsn t R.length j c) :
    needs_fetch c = true := by
  obtain ⟨h1, h2, h3, -⟩ := hst
  simp [needs_fetch, h1, h2, h3]

/-- One `next` call on a cursor that is stepping through a commit record and
stands at a well-formed operation returns that operation. -/
theorem next_stepping (env : Env) (R : Bytes) (lsn : WT_LSN) (t p j : Nat)
    (c : WT_CURSOR_LOG) (op : Operation)
    (hst : stepping env R lsn t p j c) (hj : 0 < j) (hj2 : j < 2 ^ 32)
    (hbuf : ∀ b, env.buf_set b = .ok ())
    (hb : deref R p ≠ 0)
    (hop : env.logop_read R (some p) (some R.length) = .ok (op.optype, op.opsize))
    (hs : spec_read_operation env R p op.optype op.opsize = .ok (op.fileid, op.key, op.value)) :
    (__curlog_next env c).1 = .ok () ∧
    stepping env R lsn t (p + op.opsize) (j + 1) (__curlog_next env c).2 ∧
    (__curlog_next env c).2.key = some ⟨lsn.file, lsn.offset, j⟩ ∧
    (__curlog_next env c).2.value =
      some ⟨t, env.WT_LOGREC_COMMIT, op.optype, op.fileid, op.key, op.value⟩ ∧
    (__curlog_next env c).2.scans = c.scans := by
  have hnf := needs_fetch_stepping hst hb
  have hmod : j % 2 ^ 32 = j := Nat.mod_eq_of_lt hj2
  obtain ⟨key, value, cur, nxt, logrec, opkey, opvalue, stepp, stepp_end, txnid, rectype,
    sc, scans⟩ := c
  obtain ⟨h1, h2, h3, h4, h5, h6, h7, h8⟩ := hst
  simp only at h1 h2 h3 h4 h5 h6 h7 h8
  subst h1 h2 h3 h4 h5 h6 h7 h8
  have hor := op_read_spec env
    { key := key, value := value, cur_lsn := cur,
      next_lsn := ⟨cur.file, cur.offset + (logrec.length : Int)⟩,
      logrec := logrec, opkey := opkey, opvalue := opvalue, stepp := some p,
      stepp_end := some logrec.length, txnid := txnid, rectype := env.WT_LOGREC_COMMIT,
      step_count := (j % 2 ^ 32 + 1) % 2 ^ 32, scans := scans }
    p op.optype op.opsize op.fileid op.key op.value rfl hbuf hs
  have hkc : j % 2 ^ 32 > 0 := by rw [hmod]; exact hj
  unfold __curlog_next
  simp only [hnf, Bool.false_eq_true, ↓reduceIte]
  unfold __curlog_kv
  simp only [hkc, ↓reduceIte, hop, hor, Ptr.add, Option.map_some']
  simp [stepping, hmod]
  omega

theorem next_n_succ (env : Env) (k : Nat) (c : WT_CURSOR_LOG) :
    next_n env (k + 1) c = (__curlog_next env (next_n env k c)).2 := by
  induction k generalizing c with
  | zero => rfl
  | succ k ih =>
    show next_n env (k + 1) (__curlog_next env c).2 = _
    rw [ih]
    rfl

/-- The `next` call that fetches a commit record returns its slot-0 row and
leaves the cursor stepping at the first operation. -/
theorem next_fetch_commit (env : Env) (cl : WT_CURSOR_LOG) (R : Bytes) (lsn : WT_LSN)
    (ph p0 t : Nat)
    (hfetch : needs_fetch cl = true)
    (hscan : env.log_scan cl.next_lsn = .ok (R, lsn))
    (hbuf : ∀ b, env.buf_set b = .ok ())
    (hhdr : env.logrec_read R env.hdr_offset R.length = .ok (ph, env.WT_LOGREC_COMMIT))
    (htxn : env.vunpack_uint R ph (WT_PTRDIFF R.length ph) = .ok (p0, t)) :
    (__curlog_next env cl).1 = .ok () ∧
    stepping env R lsn t p0 1 (__curlog_next env cl).2 ∧
    (__curlog_next env cl).2.key = some ⟨lsn.file, lsn.offset, 0⟩ ∧
    (__curlog_next env cl).2.value =
      some ⟨t, env.WT_LOGREC_COMMIT, env.WT_LOGOP_INVALID, 0, [], R⟩ ∧
    (__curlog_next env cl).2.scans = cl.scans ++ [cl.next_lsn] := by
  unfold __curlog_next
  simp only [hfetch, ↓reduceIte]
  unfold __wt_log_scan
  simp only [hscan]
  unfold __curlog_logrec
  simp only [hbuf, hhdr, htxn, ↓reduceIte]
  unfold __curlog_kv
  simp [stepping]

/-- Operations that tile a record have a positive declared size. -/
theorem ops_at_no_zero_size (env : Env) (R : Bytes) (p ty : Nat) (ops : List Operation)
    (hb : deref R p ≠ 0)
    (hz : env.logop_read R (some p) (some R.length) = .ok (ty, 0)) :
    ¬ ops_at env R p ops := by
  induction ops with
  | nil =>
    intro h
    have := deref_ne_zero_lt hb
    simp only [ops_at] at h
    omega
  | cons op rest ih =>
    intro h
    obtain ⟨-, h2, -, h4⟩ := h
    rw [hz] at h2
    simp only [Except.ok.injEq, Prod.mk.injEq] at h2
    rw [← h2.2] at h4
    exact ih h4

theorem ops_at_length (env : Env) (R : Bytes) (p : Nat) (ops : List Operation)
    (h : ops_at env R p ops) : p + ops.length ≤ R.length := by
  induction ops generalizing p with
  | nil => simp only [ops_at] at h; simp [h]
  | cons op rest ih =>
    have h0 := h
    obtain ⟨h1, h2, -, h4⟩ := h
    have hpos : 0 < op.opsize := by
      rcases Nat.eq_zero_or_pos op.opsize with hz | hz
      · rw [hz] at h2
        exact absurd h0 (ops_at_no_zero_size env R p op.optype (op :: rest) h1 h2)
      · exact hz
    have := ih _ h4
    simp only [List.length_cons]
    omega

/-- Stepping through the operations that tile the rest of a commit record:
one row per operation, in order, and the step pointer ends at the record end. -/
theorem next_ops (env : Env) (R : Bytes) (lsn : WT_LSN) (t : Nat)
    (hbuf : ∀ b, env.buf_set b = .ok ()) :
    ∀ (ops : List Operation) (p j : Nat) (c : WT_CURSOR_LOG),
      stepping env R lsn t p j c → ops_at env R p ops → 0 < j → j + ops.length ≤ 2 ^ 32 →
      (∀ i op, ops[i]? = some op →
        (__curlog_next env (next_n env i c)).1 = .ok () ∧
        (next_n env (i + 1) c).key = some ⟨lsn.file, lsn.offset, j + i⟩ ∧
        (next_n env (i + 1) c).value =
          some ⟨t, env.WT_LOGREC_COMMIT, op.optype, op.fileid, op.key, op.value⟩) ∧
      stepping env R lsn t R.length (j + ops.length) (next_n env ops.length c) ∧
      (next_n env ops.length c).scans = c.scans := by
  intro ops
  induction ops with
  | nil =>
    intro p j c hst hops _ _
    simp only [ops_at] at hops
    subst hops
    exact ⟨fun i op h => by simp at h, hst, rfl⟩
  | cons op rest ih =>
    intro p j c hst hops hj hlen
    obtain ⟨hb, hop, hs, hrest⟩ := hops
    simp only [List.length_cons] at hlen
    have hstep := next_stepping env R lsn t p j c op hst hj (by omega) hbuf hb hop hs
    obtain ⟨hret, hst1, hkey, hval, hsc⟩ := hstep
    have ih1 := ih (p + op.opsize) (j + 1) (__curlog_next env c).2 hst1 hrest (by omega)
      (by omega)
    obtain ⟨hrows, hfin, hscans⟩ := ih1
    refine ⟨?_, ?_, ?_⟩
    · intro i op2 hi
      cases i with
      | zero =>
        simp only [List.getElem?_cons_zero, Option.some.injEq] at hi
        subst hi
        exact ⟨hret, hkey, hval⟩
      | succ i =>
        simp only [List.getElem?_cons_succ] at hi
        have := hrows i op2 hi
        have e : j + 1 + i = j + (i + 1) := by omega
        rw [e] at this
        exact this
    · have e : j + 1 + rest.length = j + (rest.length + 1) := by omega
      rw [e] at hfin
      exact hfin
    · show (next_n env rest.length (__curlog_next env c).2).scans = c.scans
      rw [hscans, hsc]

/-- What `__curlog_kv` leaves alone, and the one step it adds to the count. -/
theorem kv_frame (env : Env) (c : WT_CURSOR_LOG) :
    (__curlog_kv env c).2.cur_lsn = c.cur_lsn ∧
    (__curlog_kv env c).2.next_lsn = c.next_lsn ∧
    (__curlog_kv env c).2.logrec = c.logrec ∧
    (__curlog_kv env c).2.stepp_end = c.stepp_end ∧
    (__curlog_kv env c).2.txnid = c.txnid ∧
    (__curlog_kv env c).2.rectype = c.rectype ∧
    (__curlog_kv env c).2.scans = c.scans ∧
    (__curlog_kv env c).2.step_count = (c.step_count + 1) % 2 ^ 32 := by
  unfold __curlog_kv
  simp only []
  split
  · split
    · simp
    · rename_i ty sz _
      obtain ⟨k, v, hf⟩ := op_read_frame env
        { c with step_count := (c.step_count + 1) % 2 ^ 32 } ty sz
      rcases hr : __curlog_op_read env
        { c with step_count := (c.step_count + 1) % 2 ^ 32 } ty sz with ⟨r, c2⟩
      rw [hr] at hf
      simp only at hf
      subst hf
      cases r <;> simp
  · simp

/-- What the fetch callback leaves alone. -/
theorem logrec_frame (env : Env) (r : Bytes) (l : WT_LSN) (c : WT_CURSOR_LOG) :
    (__curlog_logrec env r l c).2.scans = c.scans ∧
    (__curlog_logrec env r l c).2.key = c.key ∧
    (__curlog_logrec env r l c).2.value = c.value ∧
    (__curlog_logrec env r l c).2.cur_lsn = l ∧
    (__curlog_logrec env r l c).2.next_lsn = ⟨l.file, l.offset + (r.length : Int)⟩ := by
  unfold __curlog_logrec
  simp only []
  repeat' split
  all_goals simp

/-- The scanner calls of one `next`: one at the next LSN when the cursor has
to fetch, none otherwise. -/
theorem next_scans (env : Env) (c : WT_CURSOR_LOG) :
    (__curlog_next env c).2.scans =
      if needs_fetch c then c.scans ++ [c.next_lsn] else c.scans := by
  unfold __curlog_next
  split
  · simp only []
    rcases hr : __wt_log_scan env c.next_lsn { c with txnid := 0 } with ⟨r, c2⟩
    have hs : c2.scans = c.scans ++ [c.next_lsn] := by
      have : c2 = (__wt_log_scan env c.next_lsn { c with txnid := 0 }).2 := by rw [hr]
      rw [this]
      unfold __wt_log_scan
      simp only []
      split
      · rfl
      · rw [(logrec_frame env _ _ _).1]
    cases r with
    | error e => exact hs
    | ok u => simp only []; rw [(kv_frame env c2).2.2.2.2.2.2.1, hs]
  · exact (kv_frame env c).2.2.2.2.2.2.1

/-- C1: a commit record `R` (header, transaction id `t`, then operations
`ops` that each start with a non-zero byte and whose declared sizes tile the
rest of `R`) fetched by the next `next` call yields exactly `ops.length + 1`
rows: the calls all succeed, call `k` returns key (R.lsn.file, R.lsn.offset, k),
the slot-0 row carries the whole record as value, row `k + 1` carries kind,
table-id, key and value of operation `k`, the scanner is called once during
those calls, and the call after them fetches again, at the LSN following `R`. -/
theorem next_yields_record_rows (env : Env) (cl : WT_CURSOR_LOG) (R : Bytes) (lsn : WT_LSN)
    (ph p0 t : Nat) (ops : List Operation)
    (hfetch : needs_fetch cl = true)
    (hscan : env.log_scan cl.next_lsn = .ok (R, lsn))
    (hbuf : ∀ b, env.buf_set b = .ok ())
    (hlen : R.length < 2 ^ 32)
    (hhdr : env.logrec_read R env.hdr_offset R.length = .ok (ph, env.WT_LOGREC_COMMIT))
    (htxn : env.vunpack_uint R ph (WT_PTRDIFF R.length ph) = .ok (p0, t))
    (hops : ops_at env R p0 ops) :
    (∀ k, k ≤ ops.length →
      (__curlog_next env (next_n env k cl)).1 = .ok () ∧
      (next_n env (k + 1) cl).key = some ⟨lsn.file, lsn.offset, k⟩) ∧
    ((next_n env 1 cl).value =
      some ⟨t, env.WT_LOGREC_COMMIT, env.WT_LOGOP_INVALID, 0, [], R⟩) ∧
    (∀ k op, ops[k]? = some op →
      (next_n env (k + 2) cl).value =
        some ⟨t, env.WT_LOGREC_COMMIT, op.optype, op.fileid, op.key, op.value⟩) ∧
    (next_n env (ops.length + 1) cl).scans = cl.scans ++ [cl.next_lsn] ∧
    needs_fetch (next_n env (ops.length + 1) cl) = true ∧
    (next_n env (ops.length + 2) cl).scans =
      cl.scans ++ [cl.next_lsn, ⟨lsn.file, lsn.offset + (R.length : Int)⟩] := by
  obtain ⟨hret, hst, hkey, hval, hsc⟩ :=
    next_fetch_commit env cl R lsn ph p0 t hfetch hscan hbuf hhdr htxn
  have hbound := ops_at_length env R p0 ops hops
  obtain ⟨hrows, hfin, hscans⟩ :=
    next_ops env R lsn t hbuf ops p0 1 (__curlog_next env cl).2 hst hops (by omega) (by omega)
  have hend : needs_fetch (next_n env (ops.length + 1) cl) = true := needs_fetch_at_end hfin
  refine ⟨?_, hval, ?_, ?_, hend, ?_⟩
  · intro k hk
    cases k with
    | zero => exact ⟨hret, hkey⟩
    | succ k =>
      have hk2 : k < ops.length := by omega
      obtain ⟨h1, h2, -⟩ := hrows k ops[k] (List.getElem?_eq_getElem hk2)
      have e : 1 + k = k + 1 := by omega
      rw [e] at h2
      exact ⟨h1, h2⟩
  · intro k op hk
    exact (hrows k op hk).2.2
  · show (next_n env ops.length (__curlog_next env cl).2).scans = _
    rw [hscans, hsc]
  · rw [next_n_succ, next_scans, hend]
    simp only [↓reduceIte]
    have h1 : (next_n env (ops.length + 1) cl).scans = cl.scans ++ [cl.next_lsn] := by
      show (next_n env ops.length (__curlog_next env cl).2).scans = _
      rw [hscans, hsc]
    have h2 : (next_n env (ops.length + 1) cl).next_lsn =
        ⟨lsn.file, lsn.offset + (R.length : Int)⟩ := hfin.2.2.2.2.1
    rw [h1, h2]
    simp

theorem next_yields_record_rows_witness :
    needs_fetch (curlog_open (Toy.env Toy.log12)) = true ∧
    (∀ k, k ≤ 2 →
      (__curlog_next (Toy.env Toy.log12)
        (next_n (Toy.env Toy.log12) k (curlog_open (Toy.env Toy.log12)))).1 = .ok () ∧
      (next_n (Toy.env Toy.log12) (k + 1) (curlog_open (Toy.env Toy.log12))).key =
        some ⟨1, 0, k⟩) ∧
    (next_n (Toy.env Toy.log12) 1 (curlog_open (Toy.env Toy.log12))).value =
      some ⟨5, 1, 0, 0, [], Toy.record1⟩ ∧
    (next_n (Toy.env Toy.log12) 2 (curlog_open (Toy.env Toy.log12))).value =
      some ⟨5, 1, 4, 3, [97], [49]⟩ ∧
    (next_n (Toy.env Toy.log12) 3 (curlog_open (Toy.env Toy.log12))).value =
      some ⟨5, 1, 5, 3, [98], []⟩ ∧
    (next_n (Toy.env Toy.log12) 4 (curlog_open (Toy.env Toy.log12))).scans =
      [⟨0, 0⟩, ⟨1, 16⟩] := by
  have h := next_yields_record_rows (Toy.env Toy.log12) (curlog_open (Toy.env Toy.log12))
    Toy.record1 ⟨1, 0⟩ 3 4 5
    [⟨4, 7, 3, [97], [49]⟩, ⟨5, 5, 3, [98], []⟩]
    (by decide) (by rfl) (fun _ => rfl) (by decide) (by rfl) (by rfl)
    ⟨by decide, by rfl, by rfl, by decide, by rfl, by rfl, by rfl⟩
  exact ⟨by decide, h.1, h.2.1, h.2.2.1 0 _ rfl, h.2.2.1 1 _ rfl, h.2.2.2.2.2⟩

/-! ## The whole-record row -/

/-- A successful fetch callback: the fields it has set, the fields it has kept. -/
theorem logrec_ok (env : Env) (r : Bytes) (l : WT_LSN) (c : WT_CURSOR_LOG)
    (h : (__curlog_logrec env r l c).1 = .ok ()) :
    (__curlog_logrec env r l c).2.logrec = r ∧
    (__curlog_logrec env r l c).2.step_count = 0 ∧
    (__curlog_logrec env r l c).2.stepp_end = some r.length ∧
    (__curlog_logrec env r l c).2.opkey = c.opkey ∧
    (__curlog_logrec env r l c).2.opvalue = c.opvalue ∧
    env.buf_set r = .ok () ∧
    ∃ pp ty, env.logrec_read r env.hdr_offset r.length = .ok (pp, ty) ∧
      (__curlog_logrec env r l c).2.rectype = ty ∧
      ((ty = env.WT_LOGREC_COMMIT ∧
          ∃ p2 t, env.vunpack_uint r pp (WT_PTRDIFF r.length pp) = .ok (p2, t) ∧
            (__curlog_logrec env r l c).2.stepp = some p2 ∧
            (__curlog_logrec env r l c).2.txnid = t) ∨
        (ty ≠ env.WT_LOGREC_COMMIT ∧
          (__curlog_logrec env r l c).2.stepp = none ∧
          (__curlog_logrec env r l c).2.txnid = 0)) := by
  unfold __curlog_logrec at h ⊢
  simp only [] at h ⊢
  split at h
  · simp at h
  · rename_i hb
    simp only [hb]
    split at h
    · simp at h
    · rename_i pp ty hr
      simp only [hr]
      split at h
      · rename_i hty
        split at h
        · simp at h
        · rename_i p2 t hv
          subst hty
          simp only [↓reduceIte, hv]
          refine ⟨?_, ?_, ?_, ?_, ?_, ?_, pp, _, ?_, ?_,
            Or.inl ⟨rfl, p2, t, hv, ?_, ?_⟩⟩ <;> first | rfl | trivial
      · rename_i hty
        simp only [hty, ↓reduceIte]
        refine ⟨?_, ?_, ?_, ?_, ?_, ?_, pp, ty, ?_, ?_, Or.inr ⟨hty, ?_, ?_⟩⟩ <;>
          first | rfl | trivial

/-- The return of the fetch callback and the position it sets depend on the
record alone, not on the cursor it is run on. -/
theorem logrec_indep (env : Env) (r : Bytes) (l : WT_LSN) (a b : WT_CURSOR_LOG) :
    (__curlog_logrec env r l a).1 = (__curlog_logrec env r l b).1 ∧
    ((__curlog_logrec env r l a).1 = .ok () →
      (__curlog_logrec env r l a).2.stepp = (__curlog_logrec env r l b).2.stepp ∧
      (__curlog_logrec env r l a).2.txnid = (__curlog_logrec env r l b).2.txnid ∧
      (__curlog_logrec env r l a).2.rectype = (__curlog_logrec env r l b).2.rectype) := by
  unfold __curlog_logrec
  simp only []
  repeat' split
  all_goals simp_all

/-- The row `__curlog_kv` builds when the step count is 0. -/
theorem kv_slot0 (env : Env) (c : WT_CURSOR_LOG) (h : c.step_count = 0) :
    __curlog_kv env c = (.ok (), { c with
      step_count := 1, opkey := [], opvalue := c.logrec,
      key := some ⟨c.cur_lsn.file, c.cur_lsn.offset, 0⟩,
      value := some ⟨c.txnid, c.rectype, env.WT_LOGOP_INVALID, 0, [], c.logrec⟩ }) := by
  unfold __curlog_kv
  simp [h]

/-- The key a successful `__curlog_kv` sets: the current LSN and the step
count the cursor came with. -/
theorem kv_key (env : Env) (c : WT_CURSOR_LOG) (h : (__curlog_kv env c).1 = .ok ()) :
    (__curlog_kv env c).2.key = some ⟨c.cur_lsn.file, c.cur_lsn.offset, c.step_count⟩ := by
  unfold __curlog_kv at h ⊢
  simp only [] at h ⊢
  by_cases h0 : c.step_count > 0
  · simp only [h0, ↓reduceIte] at h ⊢
    rcases hr : env.logop_read c.logrec c.stepp c.stepp_end with e | ⟨ty, sz⟩
    · simp [hr] at h
    · simp only [hr] at h ⊢
      obtain ⟨k, v, hf⟩ := op_read_frame env
        { c with step_count := (c.step_count + 1) % 2 ^ 32 } ty sz
      rcases hq : __curlog_op_read env
        { c with step_count := (c.step_count + 1) % 2 ^ 32 } ty sz with ⟨q, c2⟩
      rw [hq] at hf h
      simp only at hf
      subst hf
      cases q with
      | error e => simp at h
      | ok f => simp
  · have : c.step_count = 0 := by omega
    simp [this]

/-- A successful scan has called back with the record and LSN the scanner
delivers for the LSN asked. -/
theorem log_scan_ok (env : Env) (q : WT_LSN) (c : WT_CURSOR_LOG)
    (h : (__wt_log_scan env q c).1 = .ok ()) :
    ∃ r l, env.log_scan q = .ok (r, l) ∧
      __wt_log_scan env q c = __curlog_logrec env r l { c with scans := c.scans ++ [q] } ∧
      (__curlog_logrec env r l { c with scans := c.scans ++ [q] }).1 = .ok () := by
  unfold __wt_log_scan at h ⊢
  simp only [] at h ⊢
  rcases hs : env.log_scan q with e | ⟨r, l⟩
  · simp [hs] at h
  · simp only [hs] at h ⊢
    exact ⟨r, l, rfl, rfl, h⟩

/-- After a successful scan the cursor holds the delivered record at step 0. -/
theorem log_scan_ok_fields (env : Env) (q : WT_LSN) (c : WT_CURSOR_LOG)
    (h : (__wt_log_scan env q c).1 = .ok ()) :
    ∃ r l, env.log_scan q = .ok (r, l) ∧
      (__wt_log_scan env q c).2.logrec = r ∧
      (__wt_log_scan env q c).2.cur_lsn = l ∧
      (__wt_log_scan env q c).2.next_lsn = ⟨l.file, l.offset + (r.length : Int)⟩ ∧
      (__wt_log_scan env q c).2.step_count = 0 := by
  obtain ⟨r, l, hs, he, hok⟩ := log_scan_ok env q c h
  have h1 := logrec_ok env r l _ hok
  have h2 := logrec_frame env r l { c with scans := c.scans ++ [q] }
  rw [he]
  exact ⟨r, l, hs, h1.1, h2.2.2.2.1, h2.2.2.2.2, h1.2.1⟩

/-- C2: a row with slot 0 returned by `next` or by `search` has operation
type `WT_LOGOP_INVALID`, file id 0, an empty key and the whole record buffer
as value (same bytes, same length); when the call fetched, that buffer is the
record the scanner delivered and the key is that record's LSN with slot 0.
`search` returns no other row. -/
theorem slot0_row_is_whole_record (env : Env) (cl : WT_CURSOR_LOG) :
    ((__curlog_next env cl).1 = .ok () →
      (∃ k, (__curlog_next env cl).2.key = some k ∧ k.counter = 0) →
      whole_record_row env (__curlog_next env cl).2 ∧
      (needs_fetch cl = true →
        ∃ r l, env.log_scan cl.next_lsn = .ok (r, l) ∧
          (__curlog_next env cl).2.logrec = r ∧
          (__curlog_next env cl).2.key = some ⟨l.file, l.offset, 0⟩)) ∧
    ((__curlog_search env cl).1 = .ok () →
      whole_record_row env (__curlog_search env cl).2 ∧
      ∃ k r l, cl.key = some k ∧ env.log_scan ⟨k.file, k.offset⟩ = .ok (r, l) ∧
        (__curlog_search env cl).2.logrec = r ∧
        (__curlog_search env cl).2.key = some ⟨l.file, l.offset, 0⟩) := by
  constructor
  · intro hok hkey
    unfold __curlog_next at hok hkey ⊢
    by_cases hf : needs_fetch cl = true
    · simp only [hf, ↓reduceIte] at hok hkey ⊢
      rcases hr : __wt_log_scan env cl.next_lsn { cl with txnid := 0 } with ⟨r, c2⟩
      rw [hr] at hok hkey
      cases r with
      | error e => exact absurd hok (by simp)
      | ok u =>
        simp only [] at hok hkey ⊢
        have hsok : (__wt_log_scan env cl.next_lsn { cl with txnid := 0 }).1 = .ok () := by
          rw [hr]
        obtain ⟨rec, l, hs, h1, h2, h3, h4⟩ := log_scan_ok_fields env _ _ hsok
        rw [hr] at h1 h2 h3 h4
        simp only at h1 h2 h3 h4
        rw [kv_slot0 env c2 h4]
        refine ⟨⟨_, rfl, rfl, rfl, rfl, rfl, rfl⟩, fun _ => ⟨rec, l, hs, h1, ?_⟩⟩
        simp [h2]
    · simp only [hf, Bool.false_eq_true, ↓reduceIte] at hok hkey ⊢
      obtain ⟨k, hk, hk0⟩ := hkey
      rw [kv_key env cl hok] at hk
      simp only [Option.some.injEq] at hk
      subst hk
      simp only at hk0
      rw [kv_slot0 env cl hk0]
      exact ⟨⟨_, rfl, rfl, rfl, rfl, rfl, rfl⟩, fun h => h.elim⟩
  · intro hok
    unfold __curlog_search at hok ⊢
    rcases hk : cl.key with _ | k
    · simp [hk] at hok
    · simp only [hk] at hok ⊢
      rcases hr : __wt_log_scan env ⟨k.file, k.offset⟩ cl with ⟨r, c2⟩
      rw [hr] at hok
      cases r with
      | error e => exact absurd hok (by simp)
      | ok u =>
        simp only [] at hok ⊢
        have hsok : (__wt_log_scan env ⟨k.file, k.offset⟩ cl).1 = .ok () := by rw [hr]
        obtain ⟨rec, l, hs, h1, h2, h3, h4⟩ := log_scan_ok_fields env _ _ hsok
        rw [hr] at h1 h2 h3 h4
        simp only at h1 h2 h3 h4
        rw [kv_slot0 env c2 h4]
        refine ⟨⟨_, rfl, rfl, rfl, rfl, rfl, rfl⟩, k, rec, l, rfl, hs, h1, ?_⟩
        simp [h2]

theorem slot0_row_is_whole_record_witness :
    whole_record_row (Toy.env Toy.log12)
      (__curlog_next (Toy.env Toy.log12) (curlog_open (Toy.env Toy.log12))).2 ∧
    (__curlog_next (Toy.env Toy.log12) (curlog_open (Toy.env Toy.log12))).2.logrec =
      Toy.record1 ∧
    whole_record_row (Toy.env Toy.log12)
      (__curlog_search (Toy.env Toy.log12)
        { curlog_open (Toy.env Toy.log12) with key := some ⟨1, 16, 7⟩ }).2 ∧
    (__curlog_search (Toy.env Toy.log12)
        { curlog_open (Toy.env Toy.log12) with key := some ⟨1, 16, 7⟩ }).2.logrec =
      Toy.record2 :=
  ⟨((slot0_row_is_whole_record (Toy.env Toy.log12) (curlog_open (Toy.env Toy.log12))).1
      (by rfl) ⟨⟨1, 0, 0⟩, by rfl, rfl⟩).1,
    by rfl,
    ((slot0_row_is_whole_record (Toy.env Toy.log12)
      { curlog_open (Toy.env Toy.log12) with key := some ⟨1, 16, 7⟩ }).2 (by rfl)).1,
    by rfl⟩

/-! ## Search -/

/-- A search that succeeds: the scan it made, and the row it built. -/
theorem search_ok (env : Env) (cl : WT_CURSOR_LOG) (k : Key) (hk : cl.key = some k)
    (h : (__curlog_search env cl).1 = .ok ()) :
    (__wt_log_scan env ⟨k.file, k.offset⟩ cl).1 = .ok () ∧
    __curlog_search env cl = __curlog_kv env (__wt_log_scan env ⟨k.file, k.offset⟩ cl).2 := by
  unfold __curlog_search at h ⊢
  simp only [hk] at h ⊢
  rcases hr : __wt_log_scan env ⟨k.file, k.offset⟩ cl with ⟨r, c2⟩
  rw [hr] at h
  cases r with
  | error e => exact absurd h (by simp)
  | ok u => exact ⟨rfl, rfl⟩

theorem op_read_key_congr (env : Env) (c : WT_CURSOR_LOG) (k : Option Key) (ty sz : Nat) :
    __curlog_op_read env { c with key := k } ty sz =
      ((__curlog_op_read env c ty sz).1, { (__curlog_op_read env c ty sz).2 with key := k }) := by
  unfold __curlog_op_read
  simp only []
  repeat' split
  all_goals rfl

theorem logrec_key_congr (env : Env) (r : Bytes) (l : WT_LSN) (c : WT_CURSOR_LOG)
    (k : Option Key) :
    __curlog_logrec env r l { c with key := k } =
      ((__curlog_logrec env r l c).1, { (__curlog_logrec env r l c).2 with key := k }) := by
  unfold __curlog_logrec
  simp only []
  repeat' split
  all_goals rfl

theorem log_scan_key_congr (env : Env) (q : WT_LSN) (c : WT_CURSOR_LOG) (k : Option Key) :
    __wt_log_scan env q { c with key := k } =
      ((__wt_log_scan env q c).1, { (__wt_log_scan env q c).2 with key := k }) := by
  unfold __wt_log_scan
  simp only []
  split
  · rfl
  · exact logrec_key_congr env _ _ { c with scans := c.scans ++ [q] } k

/-- The key the cursor came with does not enter `__curlog_kv`: the return is
the same, and so is the cursor left, up to that key when the call fails. -/
theorem kv_key_congr (env : Env) (c : WT_CURSOR_LOG) (k : Option Key) :
    (__curlog_kv env { c with key := k }).1 = (__curlog_kv env c).1 ∧
    ((__curlog_kv env c).1 = .ok () →
      (__curlog_kv env { c with key := k }).2 = (__curlog_kv env c).2) ∧
    (∃ k2, (__curlog_kv env { c with key := k }).2 = { (__curlog_kv env c).2 with key := k2 }) := by
  unfold __curlog_kv
  simp only []
  by_cases h0 : c.step_count > 0
  · simp only [h0, ↓reduceIte]
    rcases hr : env.logop_read c.logrec c.stepp c.stepp_end with e | ⟨ty, sz⟩
    · exact ⟨rfl, fun h => absurd h (by simp), k, rfl⟩
    · simp only []
      have hc := op_read_key_congr env { c with step_count := (c.step_count + 1) % 2 ^ 32 } k ty sz
      simp only [] at hc
      rw [hc]
      rcases hq : __curlog_op_read env
        { c with step_count := (c.step_count + 1) % 2 ^ 32 } ty sz with ⟨q, c2⟩
      cases q with
      | error e => exact ⟨rfl, fun h => absurd h (by simp), k, rfl⟩
      | ok f => exact ⟨rfl, fun _ => rfl, _, rfl⟩
  · simp only [h0, ↓reduceIte]
    exact ⟨trivial, fun _ => trivial, _, rfl⟩

/-- The method `search` on a cursor whose key is `k`, in terms of the scan on
the cursor without that key. -/
theorem search_with_key (env : Env) (cl : WT_CURSOR_LOG) (k : Key) :
    __curlog_search env { cl with key := some k } =
      match (__wt_log_scan env ⟨k.file, k.offset⟩ cl).1 with
      | .error e => (.error e, { (__wt_log_scan env ⟨k.file, k.offset⟩ cl).2 with key := some k })
      | .ok _ => __curlog_kv env
          { (__wt_log_scan env ⟨k.file, k.offset⟩ cl).2 with key := some k } := by
  unfold __curlog_search
  simp only []
  rw [log_scan_key_congr env ⟨k.file, k.offset⟩ cl (some k)]
  rcases hr : __wt_log_scan env ⟨k.file, k.offset⟩ cl with ⟨r, c2⟩
  cases r <;> rfl

/-- C3 (amended): two search keys that differ only in the counter give the
same return and leave the same cursor (up to the key field itself when the
search fails and the key stays as the caller set it); a successful search
returns the key (l.file, l.offset, 0), where l is the LSN at which the
scanner delivered the record for (file, offset), so it is (file, offset, 0)
whenever the scanner delivers at the LSN asked for, and the cursor is on the
whole-record row whatever counter was supplied. -/
theorem search_ignores_counter (env : Env) (cl : WT_CURSOR_LOG) (f : Nat) (o : Int)
    (c1 c2 : Nat) :
    (__curlog_search env { cl with key := some ⟨f, o, c1⟩ }).1 =
      (__curlog_search env { cl with key := some ⟨f, o, c2⟩ }).1 ∧
    (∃ k, (__curlog_search env { cl with key := some ⟨f, o, c1⟩ }).2 =
      { (__curlog_search env { cl with key := some ⟨f, o, c2⟩ }).2 with key := k }) ∧
    ((__curlog_search env { cl with key := some ⟨f, o, c1⟩ }).1 = .ok () →
      (__curlog_search env { cl with key := some ⟨f, o, c1⟩ }).2 =
        (__curlog_search env { cl with key := some ⟨f, o, c2⟩ }).2 ∧
      whole_record_row env (__curlog_search env { cl with key := some ⟨f, o, c1⟩ }).2 ∧
      ∃ r l, env.log_scan ⟨f, o⟩ = .ok (r, l) ∧
        (__curlog_search env { cl with key := some ⟨f, o, c1⟩ }).2.key =
          some ⟨l.file, l.offset, 0⟩ ∧
        (l = ⟨f, o⟩ →
          (__curlog_search env { cl with key := some ⟨f, o, c1⟩ }).2.key = some ⟨f, o, 0⟩)) := by
  rw [search_with_key env cl ⟨f, o, c1⟩, search_with_key env cl ⟨f, o, c2⟩]
  simp only []
  rcases hr : __wt_log_scan env ⟨f, o⟩ cl with ⟨r, c3⟩
  cases r with
  | error e =>
    simp only []
    exact ⟨trivial, ⟨_, rfl⟩, fun h => absurd h (by simp)⟩
  | ok u =>
    simp only []
    have hsok : (__wt_log_scan env ⟨f, o⟩ cl).1 = .ok () := by rw [hr]
    obtain ⟨rec, l, hs, h1, h2, h3, h4⟩ := log_scan_ok_fields env _ _ hsok
    rw [hr] at h1 h2 h3 h4
    simp only at h1 h2 h3 h4
    have e1 := kv_slot0 env { c3 with key := some ⟨f, o, c1⟩ } h4
    have e2 := kv_slot0 env { c3 with key := some ⟨f, o, c2⟩ } h4
    rw [e1, e2]
    refine ⟨rfl, ⟨_, rfl⟩, fun _ => ⟨rfl, ⟨_, rfl, rfl, rfl, rfl, rfl, rfl⟩, rec, l, hs, ?_, ?_⟩⟩
    · simp [h2]
    · intro hl
      subst hl
      simp [h2]

/-- C3 as stated fails: on the example log, whose scanner starts at the
first record when asked for the initial LSN (0,0), a successful search for
(0, 0, 3) returns the key (1, 0, 0), not (0, 0, 0). -/
theorem search_key_not_supplied_lsn :
    (__curlog_search (Toy.env Toy.log12)
      { curlog_open (Toy.env Toy.log12) with key := some ⟨0, 0, 3⟩ }).1 = .ok () ∧
    (__curlog_search (Toy.env Toy.log12)
      { curlog_open (Toy.env Toy.log12) with key := some ⟨0, 0, 3⟩ }).2.key = some ⟨1, 0, 0⟩ ∧
    (__curlog_search (Toy.env Toy.log12)
      { curlog_open (Toy.env Toy.log12) with key := some ⟨0, 0, 3⟩ }).2.key ≠ some ⟨0, 0, 0⟩ := by
  refine ⟨by rfl, by rfl, ?_⟩
  decide

/-! ## Search and next agree -/

/-- A `next` that has to fetch and succeeds: the scan it made, and the row it built. -/
theorem next_fetch_ok (env : Env) (cl : WT_CURSOR_LOG) (hf : needs_fetch cl = true)
    (h : (__curlog_next env cl).1 = .ok ()) :
    (__wt_log_scan env cl.next_lsn { cl with txnid := 0 }).1 = .ok () ∧
    __curlog_next env cl =
      __curlog_kv env (__wt_log_scan env cl.next_lsn { cl with txnid := 0 }).2 := by
  unfold __curlog_next at h ⊢
  simp only [hf, ↓reduceIte] at h ⊢
  rcases hr : __wt_log_scan env cl.next_lsn { cl with txnid := 0 } with ⟨r, c2⟩
  rw [hr] at h
  cases r with
  | error e => exact absurd h (by simp)
  | ok u => exact ⟨rfl, rfl⟩

/-- C4: when a record starts at LSN `l`, a successful search for
(l.file, l.offset, c), whatever the counter `c` and the cursor searched from,
returns the same key and value as the `next` call (on any cursor) that
fetches the record at `l`, which succeeds too; the two calls leave the same
current LSN, next LSN, step pointer, end pointer, step count, transaction id,
record type and record buffer. -/
theorem search_matches_next (env : Env) (a b : WT_CURSOR_LOG) (l : WT_LSN) (c : Nat)
    (R : Bytes)
    (hrec : env.log_scan l = .ok (R, l))
    (ha : a.key = some ⟨l.file, l.offset, c⟩)
    (hs : (__curlog_search env a).1 = .ok ())
    (hb : needs_fetch b = true)
    (hbn : env.log_scan b.next_lsn = .ok (R, l)) :
    (__curlog_next env b).1 = .ok () ∧
    (__curlog_search env a).2.key = (__curlog_next env b).2.key ∧
    (__curlog_search env a).2.key = some ⟨l.file, l.offset, 0⟩ ∧
    (__curlog_search env a).2.value = (__curlog_next env b).2.value ∧
    (__curlog_search env a).2.cur_lsn = (__curlog_next env b).2.cur_lsn ∧
    (__curlog_search env a).2.next_lsn = (__curlog_next env b).2.next_lsn ∧
    (__curlog_search env a).2.stepp = (__curlog_next env b).2.stepp ∧
    (__curlog_search env a).2.stepp_end = (__curlog_next env b).2.stepp_end ∧
    (__curlog_search env a).2.step_count = (__curlog_next env b).2.step_count ∧
    (__curlog_search env a).2.txnid = (__curlog_next env b).2.txnid ∧
    (__curlog_search env a).2.rectype = (__curlog_next env b).2.rectype ∧
    (__curlog_search env a).2.logrec = (__curlog_next env b).2.logrec := by
  obtain ⟨hsa, hea⟩ := search_ok env a _ ha hs
  have hl : (⟨l.file, l.offset⟩ : WT_LSN) = l := rfl
  simp only [hl] at hsa hea
  -- the scan of the search
  have hA : __wt_log_scan env l a = __curlog_logrec env R l { a with scans := a.scans ++ [l] } := by
    unfold __wt_log_scan
    simp only [hrec]
  have hB : __wt_log_scan env b.next_lsn { b with txnid := 0 } =
      __curlog_logrec env R l { b with txnid := 0, scans := b.scans ++ [b.next_lsn] } := by
    unfold __wt_log_scan
    simp only [hbn]
  rw [hA] at hsa hea
  obtain ⟨hi1, hi2⟩ := logrec_indep env R l { a with scans := a.scans ++ [l] }
    { b with txnid := 0, scans := b.scans ++ [b.next_lsn] }
  have hsb : (__curlog_logrec env R l
      { b with txnid := 0, scans := b.scans ++ [b.next_lsn] }).1 = .ok () := by
    rw [← hi1]; exact hsa
  obtain ⟨hi3, hi4, hi5⟩ := hi2 hsa
  have ka := logrec_ok env R l _ hsa
  have kb := logrec_ok env R l _ hsb
  have fa := logrec_frame env R l { a with scans := a.scans ++ [l] }
  have fb := logrec_frame env R l { b with txnid := 0, scans := b.scans ++ [b.next_lsn] }
  have hnext : __curlog_next env b = __curlog_kv env
      (__curlog_logrec env R l { b with txnid := 0, scans := b.scans ++ [b.next_lsn] }).2 := by
    unfold __curlog_next
    simp only [hb, ↓reduceIte]
    rw [hB]
    rcases hq : __curlog_logrec env R l
      { b with txnid := 0, scans := b.scans ++ [b.next_lsn] } with ⟨r, c2⟩
    rw [hq] at hsb
    simp only at hsb
    subst hsb
    rfl
  rw [hnext, hea, kv_slot0 env _ ka.2.1, kv_slot0 env _ kb.2.1]
  simp only [fa.2.2.2.1, fa.2.2.2.2, fb.2.2.2.1, fb.2.2.2.2, hi3, hi4, hi5, ka.1, kb.1,
    ka.2.2.1, kb.2.2.1]
  exact ⟨trivial, trivial, trivial, trivial, trivial, trivial, trivial, trivial, trivial,
    trivial, trivial, trivial⟩

theorem search_matches_next_witness :
    (__curlog_search (Toy.env Toy.log12)
      { curlog_open (Toy.env Toy.log12) with key := some ⟨1, 16, 7⟩ }).2.value =
    (__curlog_next (Toy.env Toy.log12)
      (next_n (Toy.env Toy.log12) 3 (curlog_open (Toy.env Toy.log12)))).2.value :=
  (search_matches_next (Toy.env Toy.log12)
    { curlog_open (Toy.env Toy.log12) with key := some ⟨1, 16, 7⟩ }
    (next_n (Toy.env Toy.log12) 3 (curlog_open (Toy.env Toy.log12)))
    ⟨1, 16⟩ 7 Toy.record2 (by rfl) (by rfl) (by rfl) (by rfl) (by rfl)).2.2.2.1

/-! ## Unsupported methods and operation rows -/

/-- C8: `prev`, `search-near`, `insert`, `update` and `remove` are all bound
to `__wt_cursor_notsup`: each returns the not-supported error and leaves the
cursor as it was, every field of it and the list of scanner calls included. -/
theorem unsupported_methods (env : Env) (cl : WT_CURSOR_LOG) :
    iface env .prev cl = (.error env.ENOTSUP, cl) ∧
    iface env .search_near cl = (.error env.ENOTSUP, cl) ∧
    iface env .insert cl = (.error env.ENOTSUP, cl) ∧
    iface env .update cl = (.error env.ENOTSUP, cl) ∧
    iface env .remove cl = (.error env.ENOTSUP, cl) ∧
    (∀ m, m ∈ [Method.prev, Method.search_near, Method.insert, Method.update, Method.remove] →
      (iface env m cl).2.scans = cl.scans ∧ (iface env m cl).2 = cl) :=
  ⟨rfl, rfl, rfl, rfl, rfl, by
    intro m hm
    simp only [List.mem_cons, List.mem_singleton, List.not_mem_nil, or_false] at hm
    rcases hm with h | h | h | h | h <;> subst h <;> exact ⟨rfl, rfl⟩⟩

/-- One `next` call on a cursor that does not have to fetch and has returned
a row of its record already: the operation at the step pointer is read. -/
theorem next_op (env : Env) (cl : WT_CURSOR_LOG) (ty sz : Nat)
    (hnf : needs_fetch cl = false) (hsc : 0 < cl.step_count)
    (hop : env.logop_read cl.logrec cl.stepp cl.stepp_end = .ok (ty, sz)) :
    __curlog_next env cl =
      match __curlog_op_read env { cl with step_count := (cl.step_count + 1) % 2 ^ 32 } ty sz with
      | (.error e, c) => (.error e, c)
      | (.ok fileid, c) =>
        (.ok (), { c with
          stepp := c.stepp.add sz,
          key := some ⟨c.cur_lsn.file, c.cur_lsn.offset, cl.step_count⟩,
          value := some ⟨c.txnid, c.rectype, ty, fileid, c.opkey, c.opvalue⟩ }) := by
  unfold __curlog_next
  simp only [hnf, Bool.false_eq_true, ↓reduceIte]
  unfold __curlog_kv
  have : cl.step_count > 0 := hsc
  simp only [this, ↓reduceIte, hop]

/-- When `next` reads an operation whose kind is none of column put, column
remove, row put, row remove, and the two copies succeed, the row has the slot
of the step count, that kind, an empty key, file id 0, and as value the `sz`
bytes of memory that start at the operation (`sz` its declared size): bytes
`p .. p + sz` of the record when the operation lies inside the record, and
otherwise, from the end of the record on, what memory holds past the record;
the step pointer moves on by `sz`. -/
theorem other_op_row (env : Env) (cl : WT_CURSOR_LOG) (p ty sz : Nat)
    (hp : cl.stepp = some p)
    (hnf : needs_fetch cl = false) (hsc : 0 < cl.step_count)
    (hop : env.logop_read cl.logrec cl.stepp cl.stepp_end = .ok (ty, sz))
    (h1 : ty ≠ env.WT_LOGOP_COL_PUT) (h2 : ty ≠ env.WT_LOGOP_COL_REMOVE)
    (h3 : ty ≠ env.WT_LOGOP_ROW_PUT) (h4 : ty ≠ env.WT_LOGOP_ROW_REMOVE)
    (hb1 : env.buf_set [] = .ok ())
    (hb2 : env.buf_set (raw_bytes env cl.scans cl.logrec (some p) sz) = .ok ()) :
    (__curlog_next env cl).1 = .ok () ∧
    (__curlog_next env cl).2.key =
      some ⟨cl.cur_lsn.file, cl.cur_lsn.offset, cl.step_count⟩ ∧
    (__curlog_next env cl).2.value =
      some ⟨cl.txnid, cl.rectype, ty, 0, [], raw_bytes env cl.scans cl.logrec (some p) sz⟩ ∧
    (raw_bytes env cl.scans cl.logrec (some p) sz).length = sz ∧
    (p + sz ≤ cl.logrec.length →
      raw_bytes env cl.scans cl.logrec (some p) sz = (cl.logrec.drop p).take sz) ∧
    (∀ i, i < sz → cl.logrec.length ≤ p + i →
      (raw_bytes env cl.scans cl.logrec (some p) sz).getD i 0 = env.outside cl.scans (p + i)) ∧
    (__curlog_next env cl).2.stepp = some (p + sz) := by
  rw [next_op env cl ty sz hnf hsc hop]
  unfold __curlog_op_read
  simp only [h1, h2, h3, h4, ↓reduceIte, hb1, hp, hb2]
  refine ⟨trivial, trivial, trivial, raw_bytes_length _ _ _ _ _, raw_bytes_in_bounds _ _ _ _ _,
    fun i hi hout => ?_, by simp [Ptr.add]⟩
  have : ¬ p + i < cl.logrec.length := by omega
  simp [raw_bytes, List.getD_eq_getElem?_getD, hi, this]

theorem le_bytes_length (n v : Nat) : (le_bytes n v).length = n := by
  induction n generalizing v with
  | zero => rfl
  | succ n ih => simp [le_bytes, ih]

theorem le_value_le_bytes (n v : Nat) : le_value (le_bytes n v) = v % 256 ^ n := by
  induction n generalizing v with
  | zero => simp [le_bytes, le_value, Nat.mod_one]
  | succ n ih =>
    simp only [le_bytes, le_value, ih]
    rw [pow_succ, Nat.mul_comm (256 ^ n) 256, Nat.mod_mul]

theorem case_labels_ne (env : Env) :
    env.WT_LOGOP_COL_PUT ≠ env.WT_LOGOP_COL_REMOVE ∧
    env.WT_LOGOP_COL_PUT ≠ env.WT_LOGOP_ROW_PUT ∧
    env.WT_LOGOP_COL_PUT ≠ env.WT_LOGOP_ROW_REMOVE ∧
    env.WT_LOGOP_COL_REMOVE ≠ env.WT_LOGOP_ROW_PUT ∧
    env.WT_LOGOP_COL_REMOVE ≠ env.WT_LOGOP_ROW_REMOVE ∧
    env.WT_LOGOP_ROW_PUT ≠ env.WT_LOGOP_ROW_REMOVE := by
  have h := env.case_labels
  simp only [List.nodup_cons, List.mem_cons, List.mem_singleton, List.not_mem_nil,
    not_or, List.nodup_nil, and_true, or_false, not_false_eq_true] at h
  obtain ⟨⟨a, b, c⟩, ⟨d, e⟩, f⟩ := h
  exact ⟨a, b, c, d, e, f⟩

theorem recno_mem_length (env : Env) (recno : Nat) : (recno_mem env recno).length = 8 := by
  unfold recno_mem
  split <;> simp [le_bytes_length]

theorem recno_mem_value (env : Env) (recno : Nat) :
    le_value (if env.big_endian then (recno_mem env recno).reverse else recno_mem env recno) =
      recno % 2 ^ 64 := by
  unfold recno_mem
  have h : (recno % 2 ^ 64) % 256 ^ 8 = recno % 2 ^ 64 := Nat.mod_eq_of_lt (by
    have : (256 : Nat) ^ 8 = 2 ^ 64 := by norm_num
    rw [this]
    exact Nat.mod_lt _ (by norm_num))
  split <;> simp [le_value_le_bytes, h]

/-- C10: when `next` reads a column-remove or row-remove operation that
unpacks, it succeeds and the row has an empty value; its key is the record
number as the eight bytes of a `uint64_t` for a column remove, the unpacked
key bytes for a row remove; its file id is the unpacked one. -/
theorem remove_op_row (env : Env) (cl : WT_CURSOR_LOG) (p ty sz : Nat)
    (hp : cl.stepp = some p)
    (hnf : needs_fetch cl = false) (hsc : 0 < cl.step_count)
    (hop : env.logop_read cl.logrec cl.stepp cl.stepp_end = .ok (ty, sz))
    (hbuf : ∀ b, env.buf_set b = .ok ()) :
    (ty = env.WT_LOGOP_COL_REMOVE → ∀ fid recno,
      env.logop_col_remove_unpack cl.logrec (some p) (some (p + sz)) = .ok (fid, recno) →
      (__curlog_next env cl).1 = .ok () ∧
      (__curlog_next env cl).2.key =
        some ⟨cl.cur_lsn.file, cl.cur_lsn.offset, cl.step_count⟩ ∧
      (__curlog_next env cl).2.value =
        some ⟨cl.txnid, cl.rectype, ty, fid, recno_mem env recno, []⟩ ∧
      (recno_mem env recno).length = 8 ∧
      le_value (if env.big_endian then (recno_mem env recno).reverse
        else recno_mem env recno) = recno % 2 ^ 64) ∧
    (ty = env.WT_LOGOP_ROW_REMOVE → ∀ fid key,
      env.logop_row_remove_unpack cl.logrec (some p) (some (p + sz)) = .ok (fid, key) →
      (__curlog_next env cl).1 = .ok () ∧
      (__curlog_next env cl).2.key =
        some ⟨cl.cur_lsn.file, cl.cur_lsn.offset, cl.step_count⟩ ∧
      (__curlog_next env cl).2.value = some ⟨cl.txnid, cl.rectype, ty, fid, key, []⟩) := by
  obtain ⟨n1, n2, n3, n4, n5, n6⟩ := case_labels_ne env
  rw [next_op env cl ty sz hnf hsc hop]
  unfold __curlog_op_read
  constructor
  · intro hty fid recno hu
    subst hty
    simp only [n1.symm, ↓reduceIte, hp, Ptr.add, Option.map_some', hu, hbuf]
    exact ⟨trivial, trivial, trivial, recno_mem_length env recno, recno_mem_value env recno⟩
  · intro hty fid key hu
    subst hty
    simp only [n3.symm, n5.symm, n6.symm, ↓reduceIte, hp, Ptr.add, Option.map_some', hu, hbuf]
    exact ⟨trivial, trivial, trivial⟩

theorem remove_op_row_witness :
    (__curlog_next (Toy.env [(⟨1, 0⟩, [0, 0, 1, 5, 2, 4, 3, 9, 5, 5, 3, 1, 98])])
      (next_n (Toy.env [(⟨1, 0⟩, [0, 0, 1, 5, 2, 4, 3, 9, 5, 5, 3, 1, 98])]) 1
        (curlog_open (Toy.env [(⟨1, 0⟩, [0, 0, 1, 5, 2, 4, 3, 9, 5, 5, 3, 1, 98])])))).2.value =
      some ⟨5, 1, 2, 3, [9, 0, 0, 0, 0, 0, 0, 0], []⟩ ∧
    (__curlog_next (Toy.env [(⟨1, 0⟩, [0, 0, 1, 5, 2, 4, 3, 9, 5, 5, 3, 1, 98])])
      (next_n (Toy.env [(⟨1, 0⟩, [0, 0, 1, 5, 2, 4, 3, 9, 5, 5, 3, 1, 98])]) 2
        (curlog_open (Toy.env [(⟨1, 0⟩, [0, 0, 1, 5, 2, 4, 3, 9, 5, 5, 3, 1, 98])])))).2.value =
      some ⟨5, 1, 5, 3, [98], []⟩ :=
  ⟨((remove_op_row (Toy.env [(⟨1, 0⟩, [0, 0, 1, 5, 2, 4, 3, 9, 5, 5, 3, 1, 98])])
      (next_n (Toy.env [(⟨1, 0⟩, [0, 0, 1, 5, 2, 4, 3, 9, 5, 5, 3, 1, 98])]) 1
        (curlog_open (Toy.env [(⟨1, 0⟩, [0, 0, 1, 5, 2, 4, 3, 9, 5, 5, 3, 1, 98])])))
      4 2 4 (by rfl) (by rfl) (by decide) (by rfl) (fun _ => rfl)).1 (by rfl) 3 9 (by rfl)).2.2.1,
   ((remove_op_row (Toy.env [(⟨1, 0⟩, [0, 0, 1, 5, 2, 4, 3, 9, 5, 5, 3, 1, 98])])
      (next_n (Toy.env [(⟨1, 0⟩, [0, 0, 1, 5, 2, 4, 3, 9, 5, 5, 3, 1, 98])]) 2
        (curlog_open (Toy.env [(⟨1, 0⟩, [0, 0, 1, 5, 2, 4, 3, 9, 5, 5, 3, 1, 98])])))
      8 5 5 (by rfl) (by rfl) (by decide) (by rfl) (fun _ => rfl)).2 (by rfl) 3 [98]
      (by rfl)).2.2⟩

/-! ## Reset and a fresh cursor -/

/-- The function `__curlog_op_read` reads the step pointer and the record
buffer, and for a kind it does not unpack the memory the copy takes in: same
return on cursors that agree on them, and on success the same key and value
buffers. -/
theorem op_read_core (env : Env) (a b : WT_CURSOR_LOG) (ty sz : Nat)
    (h1 : a.stepp = b.stepp) (h2 : a.logrec = b.logrec)
    (h3 : other_kind env ty →
      raw_bytes env a.scans b.logrec b.stepp sz = raw_bytes env b.scans b.logrec b.stepp sz) :
    (__curlog_op_read env a ty sz).1 = (__curlog_op_read env b ty sz).1 ∧
    (∀ f, (__curlog_op_read env a ty sz).1 = .ok f →
      (__curlog_op_read env a ty sz).2.opkey = (__curlog_op_read env b ty sz).2.opkey ∧
      (__curlog_op_read env a ty sz).2.opvalue = (__curlog_op_read env b ty sz).2.opvalue) := by
  unfold __curlog_op_read
  simp only [h1, h2]
  by_cases c1 : ty = env.WT_LOGOP_COL_PUT
  · simp only [c1, ↓reduceIte]
    repeat' split
    all_goals simp_all
  · by_cases c2 : ty = env.WT_LOGOP_COL_REMOVE
    · simp only [c1, c2, ↓reduceIte]
      repeat' split
      all_goals simp_all
    · by_cases c3 : ty = env.WT_LOGOP_ROW_PUT
      · simp only [c1, c2, c3, ↓reduceIte]
        repeat' split
        all_goals simp_all
      · by_cases c4 : ty = env.WT_LOGOP_ROW_REMOVE
        · simp only [c1, c2, c3, c4, ↓reduceIte]
          repeat' split
          all_goals simp_all
        · simp only [c1, c2, c3, c4, ↓reduceIte, h3 ⟨c1, c2, c3, c4⟩]
          repeat' split
          all_goals simp_all

/-- The function `__curlog_kv` on two cursors that agree on what `next`
reads, when the operation it reads lies inside the record: same return, same
row on success, and they still agree. -/
theorem kv_core (env : Env) (a b : WT_CURSOR_LOG) (h : core_eq a b)
    (hin : kv_reads_past_record env a = false) :
    (__curlog_kv env a).1 = (__curlog_kv env b).1 ∧
    ((__curlog_kv env a).1 = .ok () →
      (__curlog_kv env a).2.key = (__curlog_kv env b).2.key ∧
      (__curlog_kv env a).2.value = (__curlog_kv env b).2.value) ∧
    core_eq (__curlog_kv env a).2 (__curlog_kv env b).2 := by
  obtain ⟨ka, va, cura, nxta, lra, oka, ova, spa, sea, ta, rta, sca, ssa⟩ := a
  obtain ⟨kb, vb, curb, nxtb, lrb, okb, ovb, spb, seb, tb, rtb, scb, ssb⟩ := b
  simp only [core_eq] at h
  obtain ⟨rfl, rfl, rfl, rfl, rfl, rfl, rfl, rfl⟩ := h
  unfold __curlog_kv
  simp only []
  by_cases h0 : sca > 0
  · simp only [h0, ↓reduceIte]
    rcases hr : env.logop_read lra spa sea with e | ⟨ty, sz⟩
    · simp [core_eq]
    · simp only []
      have hc := op_read_core env
        { key := ka, value := va, cur_lsn := cura, next_lsn := nxta, logrec := lra,
          opkey := oka, opvalue := ova, stepp := spa, stepp_end := sea, txnid := ta,
          rectype := rta, step_count := (sca + 1) % 2 ^ 32, scans := ssa }
        { key := kb, value := vb, cur_lsn := cura, next_lsn := nxta, logrec := lra,
          opkey := okb, opvalue := ovb, stepp := spa, stepp_end := sea, txnid := ta,
          rectype := rta, step_count := (sca + 1) % 2 ^ 32, scans := ssb }
        ty sz rfl rfl (fun hty => by
          have h00 : 0 < sca := h0
          simp only [kv_reads_past_record, h00, hr, decide_True, Bool.true_and,
            decide_eq_false_iff_not, not_lt] at hin
          exact raw_bytes_inside env ssa ssb lra spa sz hin)
      obtain ⟨k1, v1, f1⟩ := op_read_frame env
        { key := ka, value := va, cur_lsn := cura, next_lsn := nxta, logrec := lra,
          opkey := oka, opvalue := ova, stepp := spa, stepp_end := sea, txnid := ta,
          rectype := rta, step_count := (sca + 1) % 2 ^ 32, scans := ssa } ty sz
      obtain ⟨k2, v2, f2⟩ := op_read_frame env
        { key := kb, value := vb, cur_lsn := cura, next_lsn := nxta, logrec := lra,
          opkey := okb, opvalue := ovb, stepp := spa, stepp_end := sea, txnid := ta,
          rectype := rta, step_count := (sca + 1) % 2 ^ 32, scans := ssb } ty sz
      rcases hq1 : __curlog_op_read env
        { key := ka, value := va, cur_lsn := cura, next_lsn := nxta, logrec := lra,
          opkey := oka, opvalue := ova, stepp := spa, stepp_end := sea, txnid := ta,
          rectype := rta, step_count := (sca + 1) % 2 ^ 32, scans := ssa } ty sz with ⟨q1, c1⟩
      rcases hq2 : __curlog_op_read env
        { key := kb, value := vb, cur_lsn := cura, next_lsn := nxta, logrec := lra,
          opkey := okb, opvalue := ovb, stepp := spa, stepp_end := sea, txnid := ta,
          rectype := rta, step_count := (sca + 1) % 2 ^ 32, scans := ssb } ty sz with ⟨q2, c2⟩
      rw [hq1] at hc f1
      rw [hq2] at hc f2
      simp only at hc f1 f2
      subst f1 f2
      obtain ⟨hc1, hc2⟩ := hc
      subst hc1
      cases q1 with
      | error e => simp [core_eq]
      | ok f =>
        obtain ⟨e1, e2⟩ := hc2 f rfl
        simp only at e1 e2
        subst e1 e2
        simp [core_eq]
  · simp [h0, core_eq]

/-- The function `__curlog_kv` on two cursors that agree on what `next`
reads, when it succeeds on both: they still agree, whatever bytes the two
calls copied. -/
theorem kv_core_ok (env : Env) (a b : WT_CURSOR_LOG) (h : core_eq a b)
    (ha : (__curlog_kv env a).1 = .ok ()) (hb : (__curlog_kv env b).1 = .ok ()) :
    core_eq (__curlog_kv env a).2 (__curlog_kv env b).2 := by
  obtain ⟨ka, va, cura, nxta, lra, oka, ova, spa, sea, ta, rta, sca, ssa⟩ := a
  obtain ⟨kb, vb, curb, nxtb, lrb, okb, ovb, spb, seb, tb, rtb, scb, ssb⟩ := b
  simp only [core_eq] at h
  obtain ⟨rfl, rfl, rfl, rfl, rfl, rfl, rfl, rfl⟩ := h
  unfold __curlog_kv at ha hb ⊢
  simp only [] at ha hb ⊢
  by_cases h0 : sca > 0
  · simp only [h0, ↓reduceIte] at ha hb ⊢
    rcases hr : env.logop_read lra spa sea with e | ⟨ty, sz⟩
    · rw [hr] at ha
      exact absurd ha (by simp)
    · rw [hr] at ha hb
      simp only [] at ha hb ⊢
      obtain ⟨k1, v1, f1⟩ := op_read_frame env
        { key := ka, value := va, cur_lsn := cura, next_lsn := nxta, logrec := lra,
          opkey := oka, opvalue := ova, stepp := spa, stepp_end := sea, txnid := ta,
          rectype := rta, step_count := (sca + 1) % 2 ^ 32, scans := ssa } ty sz
      obtain ⟨k2, v2, f2⟩ := op_read_frame env
        { key := kb, value := vb, cur_lsn := cura, next_lsn := nxta, logrec := lra,
          opkey := okb, opvalue := ovb, stepp := spa, stepp_end := sea, txnid := ta,
          rectype := rta, step_count := (sca + 1) % 2 ^ 32, scans := ssb } ty sz
      rcases hq1 : __curlog_op_read env
        { key := ka, value := va, cur_lsn := cura, next_lsn := nxta, logrec := lra,
          opkey := oka, opvalue := ova, stepp := spa, stepp_end := sea, txnid := ta,
          rectype := rta, step_count := (sca + 1) % 2 ^ 32, scans := ssa } ty sz with ⟨q1, c1⟩
      rcases hq2 : __curlog_op_read env
        { key := kb, value := vb, cur_lsn := cura, next_lsn := nxta, logrec := lra,
          opkey := okb, opvalue := ovb, stepp := spa, stepp_end := sea, txnid := ta,
          rectype := rta, step_count := (sca + 1) % 2 ^ 32, scans := ssb } ty sz with ⟨q2, c2⟩
      rw [hq1] at ha f1
      rw [hq2] at hb f2
      simp only at f1 f2
      subst f1 f2
      cases q1 with
      | error e => exact absurd ha (by simp)
      | ok f1 =>
        cases q2 with
        | error e => exact absurd hb (by simp)
        | ok f2 => simp [core_eq]
  · simp [h0, core_eq]

theorem core_eq_sim {a b : WT_CURSOR_LOG} (h : core_eq a b) : sim a b := by
  obtain ⟨h1, h2, h3, h4, h5, h6, h7, h8⟩ := h
  exact ⟨h1, h2, h3, h4, h5, fun _ => ⟨h6, h7, h8⟩⟩

theorem sim_needs_fetch {a b : WT_CURSOR_LOG} (h : sim a b) : needs_fetch a = needs_fetch b := by
  obtain ⟨-, -, h3, h4, -, h6⟩ := h
  unfold needs_fetch
  rw [← h3, ← h4]
  rcases hs : a.stepp with _ | p
  · rfl
  · have := (h6 (by rw [hs]; simp)).1
    simp only [this]

theorem sim_core_of_stepp {a b : WT_CURSOR_LOG} (h : sim a b) (hs : a.stepp ≠ none) :
    core_eq a b := by
  obtain ⟨h1, h2, h3, h4, h5, h6⟩ := h
  obtain ⟨h7, h8, h9⟩ := h6 hs
  exact ⟨h1, h2, h3, h4, h5, h7, h8, h9⟩

theorem needs_fetch_false_stepp {c : WT_CURSOR_LOG} (h : needs_fetch c = false) :
    c.stepp ≠ none := by
  intro hs
  simp [needs_fetch, hs] at h

/-- The fetch callback on two cursors that agree on their position and
carry the same transaction id, for a record whose header decodes: same
return, and the cursors agree afterwards (on everything `next` reads when
the callback succeeds). -/
theorem logrec_sim (env : Env) (r : Bytes) (l : WT_LSN) (a b : WT_CURSOR_LOG)
    (h : sim a b) (ht : a.txnid = b.txnid)
    (hd : env.buf_set r = .ok () → ∃ x, env.logrec_read r env.hdr_offset r.length = .ok x) :
    (__curlog_logrec env r l a).1 = (__curlog_logrec env r l b).1 ∧
    ((__curlog_logrec env r l a).1 = .ok () →
      core_eq (__curlog_logrec env r l a).2 (__curlog_logrec env r l b).2) ∧
    sim (__curlog_logrec env r l a).2 (__curlog_logrec env r l b).2 := by
  obtain ⟨h1, h2, h3, h4, h5, h6⟩ := h
  unfold __curlog_logrec
  simp only []
  rcases hb : env.buf_set r with e | u
  · simp only []
    refine ⟨trivial, fun hh => absurd hh (by simp), rfl, rfl, h3, h4, h5, ?_⟩
    intro hs
    obtain ⟨h7, -, h9⟩ := h6 hs
    exact ⟨h7, ht, h9⟩
  · obtain ⟨⟨pp, ty⟩, hx⟩ := hd (by rw [hb])
    simp only [hx]
    by_cases hty : ty = env.WT_LOGREC_COMMIT
    · simp only [hty, ↓reduceIte]
      rcases hv : env.vunpack_uint r pp (WT_PTRDIFF r.length pp) with e | ⟨p2, t⟩
      · simp only []
        refine ⟨trivial, fun hh => absurd hh (by simp), rfl, rfl, rfl, rfl, rfl, ?_⟩
        intro _
        exact ⟨rfl, ht, rfl⟩
      · simp only []
        exact ⟨trivial, fun _ => ⟨rfl, rfl, rfl, rfl, rfl, rfl, rfl, rfl⟩,
          core_eq_sim ⟨rfl, rfl, rfl, rfl, rfl, rfl, rfl, rfl⟩⟩
    · simp only [hty, ↓reduceIte]
      exact ⟨trivial, fun _ => ⟨rfl, rfl, rfl, rfl, rfl, rfl, rfl, rfl⟩,
        core_eq_sim ⟨rfl, rfl, rfl, rfl, rfl, rfl, rfl, rfl⟩⟩

theorem visible_congr {x y : Except Int Unit × WT_CURSOR_LOG} (hr : x.1 = y.1)
    (hk : x.1 = .ok () → x.2.key = y.2.key ∧ x.2.value = y.2.value) :
    visible x = visible y := by
  obtain ⟨r1, c1⟩ := x
  obtain ⟨r2, c2⟩ := y
  simp only at hr hk
  subst hr
  cases r1 with
  | error e => rfl
  | ok u =>
    obtain ⟨a, b⟩ := hk rfl
    simp [visible, a, b]

/-- The scan on two cursors that agree on their position and carry the same
transaction id, as `logrec_sim`. -/
theorem log_scan_sim (env : Env) (qa qb : WT_LSN) (a b : WT_CURSOR_LOG) (hq : qa = qb)
    (h : sim a b) (ht : a.txnid = b.txnid) (hd : hdr_ok_at env qa) :
    (__wt_log_scan env qa a).1 = (__wt_log_scan env qb b).1 ∧
    ((__wt_log_scan env qa a).1 = .ok () →
      core_eq (__wt_log_scan env qa a).2 (__wt_log_scan env qb b).2) ∧
    sim (__wt_log_scan env qa a).2 (__wt_log_scan env qb b).2 := by
  subst hq
  unfold __wt_log_scan
  simp only []
  rcases hs : env.log_scan qa with e | ⟨r, l⟩
  · simp only []
    exact ⟨trivial, fun hh => absurd hh (by simp), h⟩
  · simp only []
    exact logrec_sim env r l { a with scans := a.scans ++ [qa] }
      { b with scans := b.scans ++ [qa] } h ht (hd r l hs)

/-- After a successful scan the function `__curlog_kv` reads no operation. -/
theorem kv_after_scan_inside (env : Env) (q : WT_LSN) (c : WT_CURSOR_LOG)
    (h : (__wt_log_scan env q c).1 = .ok ()) :
    kv_reads_past_record env (__wt_log_scan env q c).2 = false := by
  obtain ⟨r, l, -, -, -, -, h0⟩ := log_scan_ok_fields env q c h
  simp [kv_reads_past_record, h0]

/-- One `next` call on two cursors that agree on their position: unless the
call stops at a record header that does not decode or reads an operation
that runs past the end of the record, the caller sees the same on both and
the cursors agree afterwards. -/
theorem next_sim (env : Env) (a b : WT_CURSOR_LOG) (h : sim a b)
    (hd : needs_fetch a = true → hdr_ok_at env a.next_lsn)
    (hin : reads_past_record env a = false) :
    visible (__curlog_next env a) = visible (__curlog_next env b) ∧
    sim (__curlog_next env a).2 (__curlog_next env b).2 := by
  have hnf := sim_needs_fetch h
  unfold __curlog_next
  by_cases hf : needs_fetch a = true
  · have hfb : needs_fetch b = true := by rw [← hnf]; exact hf
    simp only [hf, hfb, ↓reduceIte]
    have hsim0 : sim { a with txnid := 0 } { b with txnid := 0 } := by
      obtain ⟨h1, h2, h3, h4, h5, h6⟩ := h
      refine ⟨h1, h2, h3, h4, h5, ?_⟩
      intro hsp
      obtain ⟨h7, -, h9⟩ := h6 hsp
      exact ⟨h7, rfl, h9⟩
    obtain ⟨g1, g2, g3⟩ := log_scan_sim env a.next_lsn b.next_lsn _ _ h.2.1 hsim0 rfl (hd hf)
    rcases hq1 : __wt_log_scan env a.next_lsn { a with txnid := 0 } with ⟨q1, c1⟩
    rcases hq2 : __wt_log_scan env b.next_lsn { b with txnid := 0 } with ⟨q2, c2⟩
    rw [hq1, hq2] at g1 g2 g3
    simp only at g1 g2 g3
    subst g1
    cases q1 with
    | error e => exact ⟨rfl, g3⟩
    | ok u =>
      simp only []
      have hk := kv_after_scan_inside env a.next_lsn { a with txnid := 0 } (by rw [hq1])
      rw [hq1] at hk
      obtain ⟨k1, k2, k3⟩ := kv_core env c1 c2 (g2 rfl) hk
      exact ⟨visible_congr k1 k2, core_eq_sim k3⟩
  · have hfa : needs_fetch a = false := by simpa using hf
    have hfb : needs_fetch b = false := by rw [← hnf]; exact hfa
    simp only [hfa, hfb, Bool.false_eq_true, ↓reduceIte]
    have hk : kv_reads_past_record env a = false := by
      simpa [reads_past_record, hfa] using hin
    obtain ⟨k1, k2, k3⟩ := kv_core env a b (sim_core_of_stepp h (needs_fetch_false_stepp hfa)) hk
    exact ⟨visible_congr k1 k2, core_eq_sim k3⟩

/-- One `next` call that succeeds on two cursors that agree on their
position: the cursors agree afterwards, whatever bytes the two calls copied. -/
theorem next_sim_ok (env : Env) (a b : WT_CURSOR_LOG) (h : sim a b)
    (ha : (__curlog_next env a).1 = .ok ()) (hb : (__curlog_next env b).1 = .ok ()) :
    sim (__curlog_next env a).2 (__curlog_next env b).2 := by
  have hnf := sim_needs_fetch h
  by_cases hf : needs_fetch a = true
  · have hfb : needs_fetch b = true := by rw [← hnf]; exact hf
    obtain ⟨sa, ea⟩ := next_fetch_ok env a hf ha
    obtain ⟨sb, eb⟩ := next_fetch_ok env b hfb hb
    have hsim0 : sim { a with txnid := 0 } { b with txnid := 0 } := by
      obtain ⟨h1, h2, h3, h4, h5, h6⟩ := h
      refine ⟨h1, h2, h3, h4, h5, ?_⟩
      intro hsp
      obtain ⟨h7, -, h9⟩ := h6 hsp
      exact ⟨h7, rfl, h9⟩
    obtain ⟨r, l, hlog, -, hcb⟩ := log_scan_ok env _ _ sa
    obtain ⟨-, -, -, -, -, -, pp, ty, hx, -⟩ := logrec_ok env r l _ hcb
    have hd : hdr_ok_at env a.next_lsn := by
      intro r2 l2 h2 _
      have h3 : env.log_scan a.next_lsn = .ok (r, l) := hlog
      rw [h3] at h2
      simp only [Except.ok.injEq, Prod.mk.injEq] at h2
      obtain ⟨rfl, -⟩ := h2
      exact ⟨_, hx⟩
    obtain ⟨-, g2, -⟩ := log_scan_sim env a.next_lsn b.next_lsn _ _ h.2.1 hsim0 rfl hd
    rw [ea, eb]
    rw [ea] at ha
    rw [eb] at hb
    exact core_eq_sim (kv_core_ok env _ _ (g2 sa) ha hb)
  · have hfa : needs_fetch a = false := by simpa using hf
    have hfb : needs_fetch b = false := by rw [← hnf]; exact hfa
    unfold __curlog_next at ha hb ⊢
    simp only [hfa, hfb, Bool.false_eq_true, ↓reduceIte] at ha hb ⊢
    exact core_eq_sim (kv_core_ok env a b
      (sim_core_of_stepp h (needs_fetch_false_stepp hfa)) ha hb)

/-- Cursors that agree on their position read an operation that runs past the
end of the record on the same calls. -/
theorem sim_reads_past_record (env : Env) {a b : WT_CURSOR_LOG} (h : sim a b) :
    reads_past_record env a = reads_past_record env b := by
  have hnf := sim_needs_fetch h
  unfold reads_past_record
  rw [← hnf]
  by_cases hf : needs_fetch a = true
  · simp [hf]
  · have hfa : needs_fetch a = false := by simpa using hf
    obtain ⟨-, -, h3, h4, h5, h6, -, -⟩ := sim_core_of_stepp h (needs_fetch_false_stepp hfa)
    simp only [kv_reads_past_record, h3, h4, h5, h6]

/-- Cursors that agree on their position show the caller the same results,
call after call, over a log whose record headers decode, as long as no call
reads an operation that runs past the end of the record. -/
theorem next_results_sim (env : Env) (hd : hdr_decodes env) (m : Nat) :
    ∀ a b : WT_CURSOR_LOG, sim a b →
      (∀ i, i < m → reads_past_record env (next_n env i b) = false) →
      next_results env m a = next_results env m b := by
  induction m with
  | zero => intro a b _ _; rfl
  | succ m ih =>
    intro a b h hin
    have h0 : reads_past_record env a = false := by
      rw [sim_reads_past_record env h]
      exact hin 0 (by omega)
    obtain ⟨h1, h2⟩ := next_sim env a b h (fun _ r l hs _ => hd _ r l hs) h0
    simp only [next_results, h1, ih _ _ h2 (fun i hi => hin (i + 1) (by omega))]

/-- Cursors that agree on their position still agree after `m` calls of
`next`, over a log whose record headers decode, as long as no call reads an
operation that runs past the end of the record. -/
theorem next_run_sim_inside (env : Env) (hd : hdr_decodes env) (m : Nat) :
    ∀ a b : WT_CURSOR_LOG, sim a b →
      (∀ i, i < m → reads_past_record env (next_n env i b) = false) →
      sim (next_n env m a) (next_n env m b) := by
  induction m with
  | zero => intro a b h _; exact h
  | succ m ih =>
    intro a b h hin
    have h0 : reads_past_record env a = false := by
      rw [sim_reads_past_record env h]
      exact hin 0 (by omega)
    obtain ⟨-, h2⟩ := next_sim env a b h (fun _ r l hs _ => hd _ r l hs) h0
    exact ih _ _ h2 (fun i hi => hin (i + 1) (by omega))

/-- A reset cursor and a freshly opened one agree on their position. -/
theorem reset_sim_open (env : Env) (cl : WT_CURSOR_LOG) :
    sim (__curlog_reset env cl).2 (curlog_open env) :=
  ⟨rfl, rfl, rfl, rfl, rfl, fun h => absurd rfl h⟩

/-- C5 (amended): over a log in which the header of every record the scanner
delivers decodes, for every cursor state, `reset` succeeds and `m` calls of
`next` after it return exactly what `m` calls of `next` return on a freshly
opened cursor: the same keys, values and error codes, for every `m` such
that none of the `m` calls reads an operation whose declared size runs past
the end of its record; the two runs reach such an operation at the same
call. -/
theorem reset_then_next_as_fresh (env : Env) (cl : WT_CURSOR_LOG) (m : Nat)
    (hd : hdr_decodes env)
    (hin : ∀ i, i < m → reads_past_record env (next_n env i (curlog_open env)) = false) :
    (__curlog_reset env cl).1 = .ok () ∧
    next_results env m (__curlog_reset env cl).2 = next_results env m (curlog_open env) ∧
    reads_past_record env (next_n env m (__curlog_reset env cl).2) =
      reads_past_record env (next_n env m (curlog_open env)) :=
  ⟨rfl, next_results_sim env hd m _ _ (reset_sim_open env cl) hin,
    sim_reads_past_record env
      (next_run_sim_inside env hd m _ _ (reset_sim_open env cl) hin)⟩

theorem toy_log12_hdr_decodes : hdr_decodes (Toy.env Toy.log12) := by
  intro q r l h
  simp only [Toy.env, Toy.log_scan, Toy.log12] at h
  by_cases h0 : q = ⟨0, 0⟩
  · simp only [h0, ↓reduceIte, List.head?_cons, Except.ok.injEq, Prod.mk.injEq] at h
    obtain ⟨rfl, -⟩ := h
    exact ⟨_, rfl⟩
  · simp only [h0, ↓reduceIte, List.find?_cons] at h
    by_cases h1 : (⟨1, 0⟩ : WT_LSN) = q
    · simp only [h1, decide_True, Except.ok.injEq, Prod.mk.injEq] at h
      obtain ⟨rfl, -⟩ := h
      exact ⟨_, rfl⟩
    · by_cases h2 : (⟨1, 16⟩ : WT_LSN) = q
      · simp only [h1, h2, decide_True, decide_False, Except.ok.injEq, Prod.mk.injEq] at h
        obtain ⟨rfl, -⟩ := h
        exact ⟨_, rfl⟩
      · simp [h1, h2] at h

theorem reset_then_next_as_fresh_witness :
    next_results (Toy.env Toy.log12) 5
      (__curlog_reset (Toy.env Toy.log12)
        (next_n (Toy.env Toy.log12) 2 (curlog_open (Toy.env Toy.log12)))).2 =
    next_results (Toy.env Toy.log12) 5 (curlog_open (Toy.env Toy.log12)) :=
  (reset_then_next_as_fresh (Toy.env Toy.log12)
    (next_n (Toy.env Toy.log12) 2 (curlog_open (Toy.env Toy.log12))) 5
    toy_log12_hdr_decodes (fun i hi => by interval_cases i <;> rfl)).2.1

/-- C5 as stated fails: over a log whose first record has a header that does
not decode, a cursor that has read on to the second record (type 7) and is
then reset returns, on its second `next`, a row of the first record that
still carries record type 7; a freshly opened cursor returns that row with
record type 0. -/
theorem reset_keeps_stale_rectype :
    next_results (Toy.env Toy.log_bad_header) 2
      (__curlog_reset (Toy.env Toy.log_bad_header)
        (next_n (Toy.env Toy.log_bad_header) 4 (curlog_open (Toy.env Toy.log_bad_header)))).2 =
      [.error 22, .ok (some ⟨1, 0, 0⟩, some ⟨0, 7, 0, 0, [], [0, 0, 255, 2]⟩)] ∧
    next_results (Toy.env Toy.log_bad_header) 2 (curlog_open (Toy.env Toy.log_bad_header)) =
      [.error 22, .ok (some ⟨1, 0, 0⟩, some ⟨0, 0, 0, 0, [], [0, 0, 255, 2]⟩)] ∧
    next_results (Toy.env Toy.log_bad_header) 2
      (__curlog_reset (Toy.env Toy.log_bad_header)
        (next_n (Toy.env Toy.log_bad_header) 4 (curlog_open (Toy.env Toy.log_bad_header)))).2 ≠
    next_results (Toy.env Toy.log_bad_header) 2 (curlog_open (Toy.env Toy.log_bad_header)) := by
  have h1 : next_results (Toy.env Toy.log_bad_header) 2
      (__curlog_reset (Toy.env Toy.log_bad_header)
        (next_n (Toy.env Toy.log_bad_header) 4 (curlog_open (Toy.env Toy.log_bad_header)))).2 =
      [.error 22, .ok (some ⟨1, 0, 0⟩, some ⟨0, 7, 0, 0, [], [0, 0, 255, 2]⟩)] := by rfl
  have h2 : next_results (Toy.env Toy.log_bad_header) 2
      (curlog_open (Toy.env Toy.log_bad_header)) =
      [.error 22, .ok (some ⟨1, 0, 0⟩, some ⟨0, 0, 0, 0, [], [0, 0, 255, 2]⟩)] := by rfl
  refine ⟨h1, h2, ?_⟩
  rw [h1, h2]
  simp

/-! ## Compare and the order of next -/

/-- One successful `next` call, over a scanner that delivers in increasing
order and short of the wrap of the step count, moves the cursor strictly
forward in the order `compare` uses. -/
theorem next_pos_step (env : Env) (c : WT_CURSOR_LOG) (hinc : scan_increasing env)
    (hinv : lsn_inv c) (hok : (__curlog_next env c).1 = .ok ())
    (hsc : c.step_count + 1 < 2 ^ 32) :
    pos_lt c (__curlog_next env c).2 ∧
    lsn_inv (__curlog_next env c).2 ∧
    (__curlog_next env c).2.step_count ≤ c.step_count + 1 := by
  by_cases hf : needs_fetch c = true
  · obtain ⟨hs, he⟩ := next_fetch_ok env c hf hok
    obtain ⟨r, l, hlog, h1, h2, h3, h4⟩ := log_scan_ok_fields env _ _ hs
    obtain ⟨k1, k2, -, -, -, -, -, k8⟩ :=
      kv_frame env (__wt_log_scan env c.next_lsn { c with txnid := 0 }).2
    rw [← he] at k1 k2 k8
    rw [h2] at k1
    rw [h3] at k2
    rw [h4] at k8
    obtain ⟨hle, hlen⟩ := hinc _ r l hlog
    have hk8 : (__curlog_next env c).2.step_count = 1 := by rw [k8]; rfl
    refine ⟨?_, ?_, ?_⟩
    · simp only [pos_lt, k1, hk8]
      simp only [lsn_le] at hle
      rcases hinv with hlt | ⟨heq, h0, -⟩
      · simp only [lsn_lt] at hlt
        omega
      · rw [← heq] at hle
        omega
    · left
      rw [k1, k2]
      right
      refine ⟨rfl, ?_⟩
      show l.offset < l.offset + (r.length : Int)
      omega
    · omega
  · have hfa : needs_fetch c = false := by simpa using hf
    have he : __curlog_next env c = __curlog_kv env c := by
      unfold __curlog_next
      simp only [hfa, Bool.false_eq_true, ↓reduceIte]
    obtain ⟨k1, k2, -, -, -, -, -, k8⟩ := kv_frame env c
    rw [← he] at k1 k2 k8
    have hmod : (c.step_count + 1) % 2 ^ 32 = c.step_count + 1 := Nat.mod_eq_of_lt hsc
    rw [hmod] at k8
    have hsp := needs_fetch_false_stepp hfa
    refine ⟨?_, ?_, ?_⟩
    · simp [pos_lt, k1, k8]
    · rcases hinv with hlt | ⟨-, -, h0⟩
      · left
        rw [k1, k2]
        exact hlt
      · exact absurd h0 hsp
    · omega

/-- Along a run of successful `next` calls that starts before the first
fetch, the cursor keeps moving strictly forward, as long as fewer than 2^32
calls have been made. -/
theorem next_run_inv (env : Env) (c0 : WT_CURSOR_LOG) (hinc : scan_increasing env)
    (hinv : lsn_inv c0) (h0 : c0.step_count = 0) (n : Nat) (hn : n < 2 ^ 32)
    (hok : ∀ k, k < n → (__curlog_next env (next_n env k c0)).1 = .ok ()) :
    ∀ k, k ≤ n → lsn_inv (next_n env k c0) ∧ (next_n env k c0).step_count ≤ k ∧
      (k < n → pos_lt (next_n env k c0) (next_n env (k + 1) c0)) := by
  intro k
  induction k with
  | zero =>
    intro _
    refine ⟨hinv, by simp [next_n, h0], fun hk => ?_⟩
    have := next_pos_step env c0 hinc hinv (hok 0 hk) (by rw [h0]; norm_num)
    exact this.1
  | succ k ih =>
    intro hk
    obtain ⟨i1, i2, -⟩ := ih (by omega)
    have hstep := next_pos_step env (next_n env k c0) hinc i1 (hok k (by omega)) (by omega)
    rw [← next_n_succ] at hstep
    refine ⟨hstep.2.1, by omega, fun hk2 => ?_⟩
    have hstep2 := next_pos_step env (next_n env (k + 1) c0) hinc hstep.2.1
      (hok (k + 1) hk2) (by omega)
    rw [← next_n_succ] at hstep2
    exact hstep2.1

theorem next_run_pos_lt (env : Env) (c0 : WT_CURSOR_LOG) (hinc : scan_increasing env)
    (hinv : lsn_inv c0) (h0 : c0.step_count = 0) (n : Nat) (hn : n < 2 ^ 32)
    (hok : ∀ k, k < n → (__curlog_next env (next_n env k c0)).1 = .ok ())
    (i : Nat) (hi : i < n) :
    pos_lt (next_n env i c0) (next_n env n c0) := by
  induction n with
  | zero => omega
  | succ n ih =>
    have hrun := next_run_inv env c0 hinc hinv h0 (n + 1) hn hok
    have hlast := (hrun n (by omega)).2.2 (by omega)
    rcases Nat.lt_or_ge i n with h | h
    · exact pos_lt_trans (ih (by omega) (fun k hk => hok k (by omega)) h) hlast
    · have : i = n := by omega
      subst this
      exact hlast

/-- A `next` call that fetches and succeeds has decoded the header of the
record delivered. -/
theorem next_ok_hdr (env : Env) (a : WT_CURSOR_LOG) (hf : needs_fetch a = true)
    (hok : (__curlog_next env a).1 = .ok ()) : hdr_ok_at env a.next_lsn := by
  obtain ⟨hs, -⟩ := next_fetch_ok env a hf hok
  obtain ⟨r, l, hlog, -, hcb⟩ := log_scan_ok env _ _ hs
  obtain ⟨-, -, -, -, -, -, pp, ty, hx, -⟩ := logrec_ok env r l _ hcb
  intro r2 l2 h2 _
  have h3 : env.log_scan a.next_lsn = .ok (r, l) := hlog
  rw [h3] at h2
  simp only [Except.ok.injEq, Prod.mk.injEq] at h2
  obtain ⟨rfl, -⟩ := h2
  exact ⟨_, hx⟩

/-- Two cursors that agree on their position keep agreeing along runs of
`next` calls that succeed on both. -/
theorem next_run_sim (env : Env) (a0 b0 : WT_CURSOR_LOG) (h : sim a0 b0) (n : Nat)
    (hoka : ∀ k, k < n → (__curlog_next env (next_n env k a0)).1 = .ok ())
    (hokb : ∀ k, k < n → (__curlog_next env (next_n env k b0)).1 = .ok ()) :
    ∀ k, k ≤ n → sim (next_n env k a0) (next_n env k b0) := by
  intro k
  induction k with
  | zero => intro _; exact h
  | succ k ih =>
    intro hk
    have hs := ih (by omega)
    have := next_sim_ok env _ _ hs (hoka k (by omega)) (hokb k (by omega))
    rw [next_n_succ, next_n_succ]
    exact this

theorem sim_pos_eq {a b : WT_CURSOR_LOG} (h : sim a b) : pos_eq a b := by
  obtain ⟨h1, -, -, -, h5, -⟩ := h
  exact ⟨by rw [h1], by rw [h1], h5⟩

theorem reset_lsn_inv (env : Env) (c : WT_CURSOR_LOG) : lsn_inv (__curlog_reset env c).2 :=
  Or.inr ⟨rfl, rfl, rfl⟩

/-- A freshly opened cursor is a reset cursor. -/
theorem reset_open (env : Env) :
    (__curlog_reset env (curlog_open env)).2 = curlog_open env := rfl

theorem reset_sim_reset (env : Env) (a b : WT_CURSOR_LOG) :
    sim (__curlog_reset env a).2 (__curlog_reset env b).2 :=
  ⟨rfl, rfl, rfl, rfl, rfl, fun h => absurd rfl h⟩

theorem compare_of_pos_lt {a b : WT_CURSOR_LOG} (h : pos_lt a b) :
    (__curlog_compare a b).2 = -1 := by
  rcases compare_cases a b with g | g | g
  · exact g.1
  · exact absurd h g.2.1
  · exact absurd h g.2.1

theorem compare_of_pos_gt {a b : WT_CURSOR_LOG} (h : pos_lt b a) :
    (__curlog_compare a b).2 = 1 := by
  rcases compare_cases a b with g | g | g
  · exact absurd h g.2.2.2
  · exact absurd h g.2.2.2
  · exact g.1

theorem compare_of_pos_eq {a b : WT_CURSOR_LOG} (h : pos_eq a b) :
    (__curlog_compare a b).2 = 0 := by
  rcases compare_cases a b with g | g | g
  · exact absurd h g.2.2.1
  · exact g.1
  · exact absurd h g.2.2.1

/-- C7 (amended): over a scanner that delivers records in strictly
increasing LSN order, if cursor `a` has made `i` next calls and cursor `b`
has made `j` next calls, all successful, from reset cursors (a freshly opened
cursor is one), and `i`, `j` are below 2^32, the wrap of the 32-bit step
count, then compare(a, b) is the sign of `i - j`. -/
theorem compare_matches_next_order (env : Env) (ca cb : WT_CURSOR_LOG) (i j : Nat)
    (hinc : scan_increasing env) (hi : i < 2 ^ 32) (hj : j < 2 ^ 32)
    (hoka : ∀ k, k < i →
      (__curlog_next env (next_n env k (__curlog_reset env ca).2)).1 = .ok ())
    (hokb : ∀ k, k < j →
      (__curlog_next env (next_n env k (__curlog_reset env cb).2)).1 = .ok ()) :
    (__curlog_compare (next_n env i (__curlog_reset env ca).2)
      (next_n env j (__curlog_reset env cb).2)).2 = Int.sign ((i : Int) - (j : Int)) := by
  have hsim := reset_sim_reset env ca cb
  rcases Nat.lt_trichotomy i j with hlt | heq | hgt
  · have h1 := sim_pos_eq
      (next_run_sim env _ _ hsim i (fun k hk => hoka k hk) (fun k hk => hokb k (by omega))
        i (le_refl i))
    have h2 := next_run_pos_lt env _ hinc (reset_lsn_inv env cb) rfl j hj hokb i hlt
    rw [compare_of_pos_lt (pos_eq_lt_trans h1 h2)]
    exact (Int.sign_eq_neg_one_of_neg (by omega)).symm
  · subst heq
    have h1 := sim_pos_eq
      (next_run_sim env _ _ hsim i (fun k hk => hoka k hk) (fun k hk => hokb k (by omega))
        i (le_refl i))
    rw [compare_of_pos_eq h1]
    simp
  · have h1 := sim_pos_eq
      (next_run_sim env _ _ hsim j (fun k hk => hoka k (by omega)) (fun k hk => hokb k hk)
        j (le_refl j))
    have h2 := next_run_pos_lt env _ hinc (reset_lsn_inv env ca) rfl i hi hoka j hgt
    have h3 : pos_lt (next_n env j (__curlog_reset env cb).2)
        (next_n env i (__curlog_reset env ca).2) := by
      have h1s : pos_eq (next_n env j (__curlog_reset env cb).2)
          (next_n env j (__curlog_reset env ca).2) := by
        obtain ⟨x, y, z⟩ := h1
        exact ⟨x.symm, y.symm, z.symm⟩
      exact pos_eq_lt_trans h1s h2
    rw [compare_of_pos_gt h3]
    exact (Int.sign_eq_one_of_pos (by omega)).symm

/-- What the list scanner delivers is a record of the list, at the LSN asked
for unless the initial LSN was asked. -/
theorem toy_scan_cases (log : List (WT_LSN × Bytes)) (q l : WT_LSN) (r : Bytes)
    (h : Toy.log_scan log q = .ok (r, l)) : (l, r) ∈ log ∧ (q = ⟨0, 0⟩ ∨ l = q) := by
  unfold Toy.log_scan at h
  by_cases h0 : q = ⟨0, 0⟩
  · simp only [h0, ↓reduceIte] at h
    rcases hh : log.head? with _ | ⟨l2, r2⟩
    · simp [hh] at h
    · simp only [hh, Except.ok.injEq, Prod.mk.injEq] at h
      obtain ⟨rfl, rfl⟩ := h
      exact ⟨List.mem_of_mem_head? hh, Or.inl h0⟩
  · simp only [h0, ↓reduceIte] at h
    rcases hh : log.find? (fun x => decide (x.1 = q)) with _ | ⟨l2, r2⟩
    · simp [hh] at h
    · simp only [hh, Except.ok.injEq, Prod.mk.injEq] at h
      obtain ⟨rfl, rfl⟩ := h
      have h1 := List.find?_some hh
      have h2 := List.mem_of_find?_eq_some hh
      simp only [decide_eq_true_eq] at h1
      exact ⟨h2, Or.inr h1⟩

theorem toy_log12_increasing : scan_increasing (Toy.env Toy.log12) := by
  intro q r l h
  obtain ⟨hm, hq⟩ := toy_scan_cases Toy.log12 q l r h
  simp only [Toy.log12, List.mem_cons, Prod.mk.injEq, List.mem_singleton, List.not_mem_nil,
    or_false] at hm
  rcases hm with ⟨rfl, rfl⟩ | ⟨rfl, rfl⟩ <;> rcases hq with rfl | rfl <;>
    simp [lsn_le, Toy.record1, Toy.record2]

theorem toy_zero_size_increasing : scan_increasing (Toy.env Toy.log_zero_size) := by
  intro q r l h
  obtain ⟨hm, hq⟩ := toy_scan_cases Toy.log_zero_size q l r h
  simp only [Toy.log_zero_size, List.mem_cons, Prod.mk.injEq, List.mem_singleton,
    List.not_mem_nil, or_false] at hm
  obtain ⟨rfl, rfl⟩ := hm
  rcases hq with rfl | rfl <;> simp [lsn_le]

theorem compare_matches_next_order_witness :
    (__curlog_compare
      (next_n (Toy.env Toy.log12) 1
        (__curlog_reset (Toy.env Toy.log12) (curlog_open (Toy.env Toy.log12))).2)
      (next_n (Toy.env Toy.log12) 3
        (__curlog_reset (Toy.env Toy.log12)
          (next_n (Toy.env Toy.log12) 2 (curlog_open (Toy.env Toy.log12)))).2)).2 =
      Int.sign (((1 : Nat) : Int) - ((3 : Nat) : Int)) :=
  compare_matches_next_order (Toy.env Toy.log12) (curlog_open (Toy.env Toy.log12))
    (next_n (Toy.env Toy.log12) 2 (curlog_open (Toy.env Toy.log12))) 1 3
    toy_log12_increasing (by norm_num) (by norm_num)
    (fun k hk => by interval_cases k; rfl)
    (fun k hk => by interval_cases k <;> rfl)

/-- On the log whose operation declares size 0, the cursor stays on that
operation: after `k` calls, `1 ≤ k ≤ 2^32`, it is stepping at offset 4 with
`k` rows returned, and call `k` succeeded. -/
theorem zero_size_run (k : Nat) (hk : k < 2 ^ 32) :
    (__curlog_next (Toy.env Toy.log_zero_size)
      (next_n (Toy.env Toy.log_zero_size) k (curlog_open (Toy.env Toy.log_zero_size)))).1 =
        .ok () ∧
    stepping (Toy.env Toy.log_zero_size) [0, 0, 1, 5, 9, 0] ⟨1, 0⟩ 5 4 (k + 1)
      (next_n (Toy.env Toy.log_zero_size) (k + 1) (curlog_open (Toy.env Toy.log_zero_size))) := by
  induction k with
  | zero =>
    obtain ⟨h1, h2, -⟩ := next_fetch_commit (Toy.env Toy.log_zero_size)
      (curlog_open (Toy.env Toy.log_zero_size)) [0, 0, 1, 5, 9, 0] ⟨1, 0⟩ 3 4 5
      (by rfl) (by rfl) (fun _ => rfl) (by rfl) (by rfl)
    exact ⟨h1, h2⟩
  | succ k ih =>
    obtain ⟨-, hst⟩ := ih (by omega)
    obtain ⟨h1, h2, -⟩ := next_stepping (Toy.env Toy.log_zero_size) [0, 0, 1, 5, 9, 0] ⟨1, 0⟩
      5 4 (k + 1) _ ⟨9, 0, 0, [], []⟩ hst (by omega) hk (fun _ => rfl) (by decide)
      (by rfl) (by rfl)
    rw [← next_n_succ] at h2
    exact ⟨h1, h2⟩

/-- C7 as stated fails at the wrap of the 32-bit step count: on a log whose
commit record holds an operation of declared size 0, every `next` succeeds
and returns that operation again; after 2^32 - 1 calls the step count is
2^32 - 1, after 2^32 calls it is 0 again on the same LSN, and compare of the
two cursors is 1 while the sign of (2^32 - 1) - 2^32 is -1. -/
theorem compare_wraps_at_step_count :
    scan_increasing (Toy.env Toy.log_zero_size) ∧
    (∀ k, k < 2 ^ 32 →
      (__curlog_next (Toy.env Toy.log_zero_size)
        (next_n (Toy.env Toy.log_zero_size) k
          (curlog_open (Toy.env Toy.log_zero_size)))).1 = .ok ()) ∧
    (__curlog_compare
      (next_n (Toy.env Toy.log_zero_size) (2 ^ 32 - 1) (curlog_open (Toy.env Toy.log_zero_size)))
      (next_n (Toy.env Toy.log_zero_size) (2 ^ 32)
        (curlog_open (Toy.env Toy.log_zero_size)))).2 = 1 ∧
    Int.sign (((2 ^ 32 - 1 : Nat) : Int) - ((2 ^ 32 : Nat) : Int)) = -1 := by
  refine ⟨toy_zero_size_increasing, fun k hk => (zero_size_run k hk).1, ?_, ?_⟩
  · have ha := (zero_size_run (2 ^ 32 - 2) (by norm_num)).2
    have hb := (zero_size_run (2 ^ 32 - 1) (by norm_num)).2
    have ea : 2 ^ 32 - 2 + 1 = 2 ^ 32 - 1 := by norm_num
    have eb : 2 ^ 32 - 1 + 1 = 2 ^ 32 := by norm_num
    rw [ea] at ha
    rw [eb] at hb
    obtain ⟨-, -, -, a4, -, -, -, a8⟩ := ha
    obtain ⟨-, -, -, b4, -, -, -, b8⟩ := hb
    apply compare_of_pos_gt
    right
    refine ⟨by rw [a4, b4], Or.inr ⟨by rw [a4, b4], ?_⟩⟩
    rw [a8, b8]
    norm_num
  · exact Int.sign_eq_neg_one_of_neg (by norm_num)

/-! ## The example scenario -/

/-- C11 (amended): in the example scenario of the spec (the first record, at
LSN (1,0), is a commit with transaction id 5 and the operations row put
(table 3, "a", "1") and row remove (table 3, "b")), the first three `next`
calls on a fresh cursor succeed; the first returns key (1,0,0) and value
(5, Commit, None, 0, "", raw bytes of the record): the slot-0 row of a commit
record carries the transaction id of the record, 5, as the operation rows at
slots 1 and 2 do. -/
theorem example_scenario_rows (env : Env) (R : Bytes) (ph p0 sz1 sz2 : Nat)
    (hbuf : ∀ b, env.buf_set b = .ok ())
    (hscan : env.log_scan env.INIT_LSN = .ok (R, ⟨1, 0⟩))
    (hhdr : env.logrec_read R env.hdr_offset R.length = .ok (ph, env.WT_LOGREC_COMMIT))
    (htxn : env.vunpack_uint R ph (WT_PTRDIFF R.length ph) = .ok (p0, 5))
    (hops : ops_at env R p0
      [⟨env.WT_LOGOP_ROW_PUT, sz1, 3, [97], [49]⟩, ⟨env.WT_LOGOP_ROW_REMOVE, sz2, 3, [98], []⟩]) :
    next_results env 3 (curlog_open env) =
      [.ok (some ⟨1, 0, 0⟩, some ⟨5, env.WT_LOGREC_COMMIT, env.WT_LOGOP_INVALID, 0, [], R⟩),
       .ok (some ⟨1, 0, 1⟩, some ⟨5, env.WT_LOGREC_COMMIT, env.WT_LOGOP_ROW_PUT, 3, [97], [49]⟩),
       .ok (some ⟨1, 0, 2⟩,
         some ⟨5, env.WT_LOGREC_COMMIT, env.WT_LOGOP_ROW_REMOVE, 3, [98], []⟩)] := by
  obtain ⟨hret, hst, hkey, hval, -⟩ :=
    next_fetch_commit env (curlog_open env) R ⟨1, 0⟩ ph p0 5 (by rfl) hscan hbuf hhdr htxn
  obtain ⟨hrows, -, -⟩ :=
    next_ops env R ⟨1, 0⟩ 5 hbuf _ p0 1 (__curlog_next env (curlog_open env)).2 hst hops
      (by norm_num) (by norm_num)
  obtain ⟨a1, a2, a3⟩ := hrows 0 _ rfl
  obtain ⟨b1, b2, b3⟩ := hrows 1 _ rfl
  simp only [next_n] at a1 a2 a3 b1 b2 b3
  simp only [next_results, visible, hret, hkey, hval, a1, a2, a3, b1, b2, b3]
  rfl

theorem example_scenario_rows_witness :
    next_results (Toy.env Toy.log12) 3 (curlog_open (Toy.env Toy.log12)) =
      [.ok (some ⟨1, 0, 0⟩, some ⟨5, 1, 0, 0, [], Toy.record1⟩),
       .ok (some ⟨1, 0, 1⟩, some ⟨5, 1, 4, 3, [97], [49]⟩),
       .ok (some ⟨1, 0, 2⟩, some ⟨5, 1, 5, 3, [98], []⟩)] :=
  example_scenario_rows (Toy.env Toy.log12) Toy.record1 3 4 7 5 (fun _ => rfl) (by rfl)
    (by rfl) (by rfl) ⟨by decide, by rfl, by rfl, by decide, by rfl, by rfl, by rfl⟩

/-- C11 as stated fails: in the example scenario the first `next` on a fresh
cursor returns the slot-0 row with transaction id 5, not 0. -/
theorem slot0_row_has_txnid :
    (__curlog_next (Toy.env Toy.log12) (curlog_open (Toy.env Toy.log12))).1 = .ok () ∧
    (__curlog_next (Toy.env Toy.log12) (curlog_open (Toy.env Toy.log12))).2.key =
      some ⟨1, 0, 0⟩ ∧
    (__curlog_next (Toy.env Toy.log12) (curlog_open (Toy.env Toy.log12))).2.value =
      some ⟨5, 1, 0, 0, [], Toy.record1⟩ ∧
    (__curlog_next (Toy.env Toy.log12) (curlog_open (Toy.env Toy.log12))).2.value ≠
      some ⟨0, 1, 0, 0, [], Toy.record1⟩ := by
  refine ⟨by rfl, by rfl, by rfl, ?_⟩
  decide

/-! ## Reset, end of log, stepping by the declared size -/

/-- C12: `reset` succeeds on every cursor and leaves the step pointer and the
end pointer null, the step count 0 and both LSNs at the LSN `INIT_LSN`
stores, as in a freshly opened cursor; the next call of `next` then has to
fetch and calls the scanner at that initial LSN. -/
theorem reset_position (env : Env) (cl : WT_CURSOR_LOG) :
    (__curlog_reset env cl).1 = .ok () ∧
    (__curlog_reset env cl).2.stepp = none ∧
    (__curlog_reset env cl).2.stepp_end = none ∧
    (__curlog_reset env cl).2.step_count = 0 ∧
    (__curlog_reset env cl).2.cur_lsn = env.INIT_LSN ∧
    (__curlog_reset env cl).2.next_lsn = env.INIT_LSN ∧
    (__curlog_reset env cl).2.cur_lsn = (curlog_open env).cur_lsn ∧
    (__curlog_reset env cl).2.next_lsn = (curlog_open env).next_lsn ∧
    (__curlog_reset env cl).2.scans = cl.scans ∧
    needs_fetch (__curlog_reset env cl).2 = true ∧
    (__curlog_next env (__curlog_reset env cl).2).2.scans = cl.scans ++ [env.INIT_LSN] := by
  refine ⟨rfl, rfl, rfl, rfl, rfl, rfl, rfl, rfl, rfl, rfl, ?_⟩
  rw [next_scans]
  rfl

theorem next_no_fetch (env : Env) (c : WT_CURSOR_LOG) (h : needs_fetch c = false) :
    __curlog_next env c = __curlog_kv env c := by
  unfold __curlog_next
  simp only [h, Bool.false_eq_true, ↓reduceIte]

theorem log_scan_err (env : Env) (q : WT_LSN) (c : WT_CURSOR_LOG) (e : Int)
    (h : env.log_scan q = .error e) :
    __wt_log_scan env q c = (.error e, { c with scans := c.scans ++ [q] }) := by
  unfold __wt_log_scan
  simp only [h]

theorem log_scan_deliver (env : Env) (q : WT_LSN) (c : WT_CURSOR_LOG) (r : Bytes) (l : WT_LSN)
    (h : env.log_scan q = .ok (r, l)) :
    __wt_log_scan env q c = __curlog_logrec env r l { c with scans := c.scans ++ [q] } := by
  unfold __wt_log_scan
  simp only [h]

/-- A `next` that has to fetch a record the scanner delivers: the callback
runs, and on its success the row is built. -/
theorem next_fetch_deliver (env : Env) (c : WT_CURSOR_LOG) (r : Bytes) (l : WT_LSN)
    (hf : needs_fetch c = true) (h : env.log_scan c.next_lsn = .ok (r, l)) :
    __curlog_next env c =
      match __curlog_logrec env r l { c with txnid := 0, scans := c.scans ++ [c.next_lsn] } with
      | (.error e, c2) => (.error e, c2)
      | (.ok _, c2) => __curlog_kv env c2 := by
  unfold __curlog_next
  simp only [hf, ↓reduceIte]
  rw [log_scan_deliver env c.next_lsn _ r l h]

/-- The row built after a successful callback. -/
theorem kv_after_logrec (env : Env) (r : Bytes) (l : WT_LSN) (c : WT_CURSOR_LOG)
    (h : (__curlog_logrec env r l c).1 = .ok ()) :
    (__curlog_kv env (__curlog_logrec env r l c).2).1 = .ok () ∧
    (__curlog_kv env (__curlog_logrec env r l c).2).2.key = some ⟨l.file, l.offset, 0⟩ ∧
    (__curlog_kv env (__curlog_logrec env r l c).2).2.logrec = r ∧
    (__curlog_kv env (__curlog_logrec env r l c).2).2.step_count = 1 ∧
    (__curlog_kv env (__curlog_logrec env r l c).2).2.stepp =
      (__curlog_logrec env r l c).2.stepp ∧
    (__curlog_kv env (__curlog_logrec env r l c).2).2.value =
      some ⟨(__curlog_logrec env r l c).2.txnid, (__curlog_logrec env r l c).2.rectype,
        env.WT_LOGOP_INVALID, 0, [], r⟩ := by
  have h1 := logrec_ok env r l c h
  have h2 := logrec_frame env r l c
  rw [kv_slot0 env _ h1.2.1]
  simp only [h1.1, h2.2.2.2.1]
  exact ⟨trivial, trivial, trivial, trivial, trivial, trivial⟩

/-- C13: when `next` has to fetch and the scanner reports an error without
delivering a record, `next` returns that error and leaves both LSNs, both
step pointers and the step count as they were (it has zeroed the transaction
id and called the scanner once); a later `next`, over the log as it is then,
has to fetch again and calls the scanner at the same next LSN, and when the
scanner then delivers a record the callback accepts, it returns the slot-0
row of that record. -/
theorem next_end_of_log (env env2 : Env) (cl : WT_CURSOR_LOG) (e : Int)
    (hf : needs_fetch cl = true) (hs : env.log_scan cl.next_lsn = .error e) :
    __curlog_next env cl =
      (.error e, { cl with txnid := 0, scans := cl.scans ++ [cl.next_lsn] }) ∧
    (__curlog_next env cl).2.cur_lsn = cl.cur_lsn ∧
    (__curlog_next env cl).2.next_lsn = cl.next_lsn ∧
    (__curlog_next env cl).2.stepp = cl.stepp ∧
    (__curlog_next env cl).2.stepp_end = cl.stepp_end ∧
    (__curlog_next env cl).2.step_count = cl.step_count ∧
    needs_fetch (__curlog_next env cl).2 = true ∧
    (__curlog_next env2 (__curlog_next env cl).2).2.scans =
      cl.scans ++ [cl.next_lsn] ++ [cl.next_lsn] ∧
    (∀ r l, env2.log_scan cl.next_lsn = .ok (r, l) →
      (∀ c, (__curlog_logrec env2 r l c).1 = .ok ()) →
      (__curlog_next env2 (__curlog_next env cl).2).1 = .ok () ∧
      (__curlog_next env2 (__curlog_next env cl).2).2.key = some ⟨l.file, l.offset, 0⟩ ∧
      whole_record_row env2 (__curlog_next env2 (__curlog_next env cl).2).2 ∧
      (__curlog_next env2 (__curlog_next env cl).2).2.logrec = r) := by
  have h1 : __curlog_next env cl =
      (.error e, { cl with txnid := 0, scans := cl.scans ++ [cl.next_lsn] }) := by
    unfold __curlog_next
    simp only [hf, ↓reduceIte]
    rw [log_scan_err env cl.next_lsn _ e hs]
  have hf2 : needs_fetch
      ({ cl with txnid := 0, scans := cl.scans ++ [cl.next_lsn] } : WT_CURSOR_LOG) = true := hf
  rw [h1]
  refine ⟨rfl, rfl, rfl, rfl, rfl, rfl, hf2, ?_, ?_⟩
  · rw [next_scans]
    simp only [hf2, ↓reduceIte]
  · intro r l hd hcb
    simp only []
    rw [next_fetch_deliver env2 _ r l hf2 hd]
    rcases hq : __curlog_logrec env2 r l
      { cl with txnid := 0, scans := cl.scans ++ [cl.next_lsn] ++ [cl.next_lsn] } with ⟨q, c2⟩
    have hc := hcb { cl with txnid := 0, scans := cl.scans ++ [cl.next_lsn] ++ [cl.next_lsn] }
    have hk := kv_after_logrec env2 r l _ hc
    rw [hq] at hc hk
    simp only at hc hk
    subst hc
    simp only []
    obtain ⟨k1, k2, k3, -, -, k6⟩ := hk
    exact ⟨k1, k2, ⟨_, k6, rfl, rfl, rfl, k3.symm, by rw [k3]⟩, k3⟩

theorem next_end_of_log_witness :
    (__curlog_next (Toy.env [(⟨1, 0⟩, Toy.record1)])
      (next_n (Toy.env [(⟨1, 0⟩, Toy.record1)]) 3
        (curlog_open (Toy.env [(⟨1, 0⟩, Toy.record1)])))).1 = .error Toy.WT_NOTFOUND ∧
    (__curlog_next (Toy.env Toy.log12)
      (__curlog_next (Toy.env [(⟨1, 0⟩, Toy.record1)])
        (next_n (Toy.env [(⟨1, 0⟩, Toy.record1)]) 3
          (curlog_open (Toy.env [(⟨1, 0⟩, Toy.record1)])))).2).2.key = some ⟨1, 16, 0⟩ := by
  have h := next_end_of_log (Toy.env [(⟨1, 0⟩, Toy.record1)]) (Toy.env Toy.log12)
    (next_n (Toy.env [(⟨1, 0⟩, Toy.record1)]) 3
      (curlog_open (Toy.env [(⟨1, 0⟩, Toy.record1)])))
    Toy.WT_NOTFOUND (by rfl) (by rfl)
  refine ⟨by rw [h.1], ?_⟩
  exact (h.2.2.2.2.2.2.2.2 Toy.record2 ⟨1, 16⟩ (by rfl) (fun c => by rfl)).2.1

/-- A successful `next` that had to fetch returns slot 0. -/
theorem next_fetch_slot0 (env : Env) (c : WT_CURSOR_LOG) (hf : needs_fetch c = true)
    (hok : (__curlog_next env c).1 = .ok ()) :
    ∃ r l, env.log_scan c.next_lsn = .ok (r, l) ∧
      (__curlog_next env c).2.key = some ⟨l.file, l.offset, 0⟩ ∧
      (__curlog_next env c).2.step_count = 1 ∧
      (__curlog_next env c).2.logrec = r := by
  obtain ⟨hs, he⟩ := next_fetch_ok env c hf hok
  obtain ⟨r, l, hlog, h1, h2, -, h4⟩ := log_scan_ok_fields env _ _ hs
  rw [he, kv_slot0 env _ h4]
  exact ⟨r, l, hlog, by simp [h2], rfl, h1⟩

/-- C14: a successful `next` that returns an operation row (slot at least 1)
did not fetch; it read the type `ty` and the declared size `sz` of the
operation at the step pointer `p`, returned a row of that type with the step
count as slot, and left the step pointer at `p + sz`, whatever the kind and
whatever the routine that unpacked the operation read. -/
theorem op_row_advances_by_size (env : Env) (cl : WT_CURSOR_LOG) (k : Key)
    (hok : (__curlog_next env cl).1 = .ok ())
    (hk : (__curlog_next env cl).2.key = some k) (hslot : 1 ≤ k.counter) :
    ∃ p ty sz, cl.stepp = some p ∧ needs_fetch cl = false ∧
      env.logop_read cl.logrec cl.stepp cl.stepp_end = .ok (ty, sz) ∧
      (__curlog_next env cl).2.stepp = some (p + sz) ∧
      k.counter = cl.step_count ∧
      (__curlog_next env cl).2.scans = cl.scans ∧
      ∃ v, (__curlog_next env cl).2.value = some v ∧ v.optype = ty := by
  by_cases hf : needs_fetch cl = true
  · obtain ⟨r, l, -, h2, -⟩ := next_fetch_slot0 env cl hf hok
    rw [h2] at hk
    simp only [Option.some.injEq] at hk
    subst hk
    simp at hslot
  · have hfa : needs_fetch cl = false := by simpa using hf
    have hkv := next_no_fetch env cl hfa
    have hkey := kv_key env cl (by rw [← hkv]; exact hok)
    rw [← hkv, hk] at hkey
    simp only [Option.some.injEq] at hkey
    subst hkey
    simp only at hslot
    have hsc : 0 < cl.step_count := hslot
    rcases hp : cl.stepp with _ | p
    · exact absurd hp (needs_fetch_false_stepp hfa)
    · rcases hop : env.logop_read cl.logrec cl.stepp cl.stepp_end with e | ⟨ty, sz⟩
      · rw [hkv] at hok
        unfold __curlog_kv at hok
        simp [hsc, hop] at hok
      · have hn := next_op env cl ty sz hfa hsc hop
        obtain ⟨k1, v1, hfr⟩ := op_read_frame env
          { cl with step_count := (cl.step_count + 1) % 2 ^ 32 } ty sz
        rcases hq : __curlog_op_read env
          { cl with step_count := (cl.step_count + 1) % 2 ^ 32 } ty sz with ⟨q, c2⟩
        rw [hq] at hn hfr
        simp only at hfr
        subst hfr
        cases q with
        | error e => rw [hn] at hok; exact absurd hok (by simp)
        | ok f =>
          rw [hn]
          rw [← hp]
          refine ⟨p, ty, sz, hp, hfa, hop, ?_, rfl, rfl, _, rfl, rfl⟩
          simp [Ptr.add, hp]

theorem op_row_advances_by_size_witness :
    ∃ p ty sz,
      (next_n (Toy.env Toy.log12) 1 (curlog_open (Toy.env Toy.log12))).stepp = some p ∧
      needs_fetch (next_n (Toy.env Toy.log12) 1 (curlog_open (Toy.env Toy.log12))) = false ∧
      (Toy.env Toy.log12).logop_read
        (next_n (Toy.env Toy.log12) 1 (curlog_open (Toy.env Toy.log12))).logrec
        (next_n (Toy.env Toy.log12) 1 (curlog_open (Toy.env Toy.log12))).stepp
        (next_n (Toy.env Toy.log12) 1 (curlog_open (Toy.env Toy.log12))).stepp_end =
          .ok (ty, sz) ∧
      (__curlog_next (Toy.env Toy.log12)
        (next_n (Toy.env Toy.log12) 1 (curlog_open (Toy.env Toy.log12)))).2.stepp =
          some (p + sz) ∧
      (1 : Nat) = (next_n (Toy.env Toy.log12) 1 (curlog_open (Toy.env Toy.log12))).step_count ∧
      (__curlog_next (Toy.env Toy.log12)
        (next_n (Toy.env Toy.log12) 1 (curlog_open (Toy.env Toy.log12)))).2.scans =
          (next_n (Toy.env Toy.log12) 1 (curlog_open (Toy.env Toy.log12))).scans ∧
      ∃ v, (__curlog_next (Toy.env Toy.log12)
        (next_n (Toy.env Toy.log12) 1 (curlog_open (Toy.env Toy.log12)))).2.value = some v ∧
        v.optype = ty :=
  op_row_advances_by_size (Toy.env Toy.log12)
    (next_n (Toy.env Toy.log12) 1 (curlog_open (Toy.env Toy.log12))) ⟨1, 0, 1⟩
    (by rfl) (by rfl) (by decide)

/-! ## Records that are not commits -/

/-- The fetch callback on a record whose header decodes to a type other than
commit. -/
theorem logrec_non_commit (env : Env) (r : Bytes) (l : WT_LSN) (c : WT_CURSOR_LOG)
    (pp ty : Nat) (hb : env.buf_set r = .ok ())
    (hh : env.logrec_read r env.hdr_offset r.length = .ok (pp, ty))
    (hty : ty ≠ env.WT_LOGREC_COMMIT) :
    __curlog_logrec env r l c = (.ok (), { c with
      cur_lsn := l, next_lsn := ⟨l.file, l.offset + (r.length : Int)⟩, logrec := r,
      stepp := none, stepp_end := some r.length, rectype := ty, step_count := 0,
      txnid := 0 }) := by
  unfold __curlog_logrec
  simp only [hb, hh, hty, ↓reduceIte]

/-- C17: a fetch, by `next` or by `search`, of a record whose header decodes
to a type other than commit succeeds, leaves the step pointer null and the
transaction id 0 and returns the slot-0 row of the record; the cursor then
has to fetch, so the following `next` calls the scanner, at the LSN after
the record, whatever bytes follow the header. -/
theorem non_commit_record_single_row (env : Env) (cl : WT_CURSOR_LOG) (q : WT_LSN)
    (r : Bytes) (l : WT_LSN) (pp ty : Nat)
    (hs : env.log_scan q = .ok (r, l)) (hb : env.buf_set r = .ok ())
    (hh : env.logrec_read r env.hdr_offset r.length = .ok (pp, ty))
    (hty : ty ≠ env.WT_LOGREC_COMMIT) :
    (needs_fetch cl = true → cl.next_lsn = q →
      (__curlog_next env cl).1 = .ok () ∧
      (__curlog_next env cl).2.stepp = none ∧
      (__curlog_next env cl).2.txnid = 0 ∧
      (__curlog_next env cl).2.key = some ⟨l.file, l.offset, 0⟩ ∧
      (__curlog_next env cl).2.value = some ⟨0, ty, env.WT_LOGOP_INVALID, 0, [], r⟩ ∧
      needs_fetch (__curlog_next env cl).2 = true ∧
      (__curlog_next env (__curlog_next env cl).2).2.scans =
        cl.scans ++ [q] ++ [⟨l.file, l.offset + (r.length : Int)⟩]) ∧
    (∀ k, cl.key = some k → (⟨k.file, k.offset⟩ : WT_LSN) = q →
      (__curlog_search env cl).1 = .ok () ∧
      (__curlog_search env cl).2.stepp = none ∧
      (__curlog_search env cl).2.txnid = 0 ∧
      (__curlog_search env cl).2.key = some ⟨l.file, l.offset, 0⟩ ∧
      (__curlog_search env cl).2.value = some ⟨0, ty, env.WT_LOGOP_INVALID, 0, [], r⟩ ∧
      needs_fetch (__curlog_search env cl).2 = true ∧
      (__curlog_next env (__curlog_search env cl).2).2.scans =
        cl.scans ++ [q] ++ [⟨l.file, l.offset + (r.length : Int)⟩]) := by
  constructor
  · intro hf hq
    subst hq
    have hn : __curlog_next env cl = (.ok (), { cl with
        cur_lsn := l, next_lsn := ⟨l.file, l.offset + (r.length : Int)⟩, logrec := r,
        stepp := none, stepp_end := some r.length, rectype := ty, step_count := 1,
        txnid := 0, scans := cl.scans ++ [cl.next_lsn], opkey := [], opvalue := r,
        key := some ⟨l.file, l.offset, 0⟩,
        value := some ⟨0, ty, env.WT_LOGOP_INVALID, 0, [], r⟩ }) := by
      rw [next_fetch_deliver env cl r l hf hs, logrec_non_commit env r l _ pp ty hb hh hty]
      simp only []
      rw [kv_slot0 env _ rfl]
    rw [hn]
    refine ⟨rfl, rfl, rfl, rfl, rfl, rfl, ?_⟩
    rw [next_scans]
    rfl
  · intro k hk hq
    subst hq
    have hn : __curlog_search env cl = (.ok (), { cl with
        cur_lsn := l, next_lsn := ⟨l.file, l.offset + (r.length : Int)⟩, logrec := r,
        stepp := none, stepp_end := some r.length, rectype := ty, step_count := 1,
        txnid := 0, scans := cl.scans ++ [⟨k.file, k.offset⟩], opkey := [], opvalue := r,
        key := some ⟨l.file, l.offset, 0⟩,
        value := some ⟨0, ty, env.WT_LOGOP_INVALID, 0, [], r⟩ }) := by
      unfold __curlog_search
      simp only [hk]
      rw [log_scan_deliver env _ _ r l hs, logrec_non_commit env r l _ pp ty hb hh hty]
      simp only []
      rw [kv_slot0 env _ rfl]
    rw [hn]
    refine ⟨rfl, rfl, rfl, rfl, rfl, rfl, ?_⟩
    rw [next_scans]
    rfl

theorem non_commit_record_single_row_witness :
    (__curlog_next (Toy.env Toy.log12)
      (next_n (Toy.env Toy.log12) 3 (curlog_open (Toy.env Toy.log12)))).2.value =
      some ⟨0, 0, 0, 0, [], Toy.record2⟩ ∧
    needs_fetch (__curlog_next (Toy.env Toy.log12)
      (next_n (Toy.env Toy.log12) 3 (curlog_open (Toy.env Toy.log12)))).2 = true :=
  ⟨((non_commit_record_single_row (Toy.env Toy.log12)
      (next_n (Toy.env Toy.log12) 3 (curlog_open (Toy.env Toy.log12))) ⟨1, 16⟩
      Toy.record2 ⟨1, 16⟩ 3 0 (by rfl) (by rfl) (by rfl) (by decide)).1 (by rfl) (by rfl)).2.2.2.2.1,
   ((non_commit_record_single_row (Toy.env Toy.log12)
      (next_n (Toy.env Toy.log12) 3 (curlog_open (Toy.env Toy.log12))) ⟨1, 16⟩
      Toy.record2 ⟨1, 16⟩ 3 0 (by rfl) (by rfl) (by rfl) (by decide)).1 (by rfl)
      (by rfl)).2.2.2.2.2.1⟩

/-! ## The step count -/

/-- The step count after the fetch callback: 0 once the header has decoded,
as before otherwise. -/
theorem logrec_step_count (env : Env) (r : Bytes) (l : WT_LSN) (c : WT_CURSOR_LOG) :
    ((__curlog_logrec env r l c).1 = .ok () → (__curlog_logrec env r l c).2.step_count = 0) ∧
    ((__curlog_logrec env r l c).2.step_count = c.step_count ∨
      ((∃ x, env.logrec_read r env.hdr_offset r.length = .ok x) ∧
        (__curlog_logrec env r l c).2.step_count = 0)) := by
  unfold __curlog_logrec
  simp only []
  rcases hb : env.buf_set r with e | u
  · exact ⟨fun h => absurd h (by simp), Or.inl rfl⟩
  · simp only []
    rcases hh : env.logrec_read r env.hdr_offset r.length with e | ⟨pp, ty⟩
    · exact ⟨fun h => absurd h (by simp), Or.inl rfl⟩
    · simp only []
      split
      · split
        · exact ⟨fun h => absurd h (by simp), Or.inr ⟨⟨_, rfl⟩, rfl⟩⟩
        · exact ⟨fun _ => rfl, Or.inr ⟨⟨_, rfl⟩, rfl⟩⟩
      · exact ⟨fun _ => rfl, Or.inr ⟨⟨_, rfl⟩, rfl⟩⟩

/-- The step count after a scan. -/
theorem log_scan_step_count (env : Env) (q : WT_LSN) (c : WT_CURSOR_LOG) :
    (__wt_log_scan env q c).2.step_count = c.step_count ∨
      (__wt_log_scan env q c).2.step_count = 0 := by
  unfold __wt_log_scan
  simp only []
  split
  · exact Or.inl rfl
  · rename_i r l _
    rcases (logrec_step_count env r l { c with scans := c.scans ++ [q] }).2 with h | h
    · exact Or.inl h
    · exact Or.inr h.2

/-- A `next` that has to fetch and fails has failed in the scan. -/
theorem next_fetch_fail (env : Env) (c : WT_CURSOR_LOG) (hf : needs_fetch c = true)
    (h : (__curlog_next env c).1 ≠ .ok ()) :
    (__curlog_next env c).2 = (__wt_log_scan env c.next_lsn { c with txnid := 0 }).2 ∧
    (__wt_log_scan env c.next_lsn { c with txnid := 0 }).1 ≠ .ok () := by
  unfold __curlog_next at h ⊢
  simp only [hf, ↓reduceIte] at h ⊢
  rcases hr : __wt_log_scan env c.next_lsn { c with txnid := 0 } with ⟨r, c2⟩
  rw [hr] at h
  cases r with
  | error e => exact ⟨rfl, by simp⟩
  | ok u =>
    exfalso
    apply h
    simp only []
    have hs : (__wt_log_scan env c.next_lsn { c with txnid := 0 }).1 = .ok () := by rw [hr]
    obtain ⟨_, _, _, _, _, _, h4⟩ := log_scan_ok_fields env _ _ hs
    rw [hr] at h4
    rw [kv_slot0 env c2 h4]

/-- A `search` that fails has failed for want of a key or in the scan. -/
theorem search_fail (env : Env) (c : WT_CURSOR_LOG) (h : (__curlog_search env c).1 ≠ .ok ()) :
    (__curlog_search env c).2 = c ∨
    ∃ k, c.key = some k ∧
      (__curlog_search env c).2 = (__wt_log_scan env ⟨k.file, k.offset⟩ c).2 := by
  unfold __curlog_search at h ⊢
  rcases hk : c.key with _ | k
  · exact Or.inl rfl
  · right
    simp only [hk] at h ⊢
    refine ⟨k, rfl, ?_⟩
    rcases hr : __wt_log_scan env ⟨k.file, k.offset⟩ c with ⟨r, c2⟩
    cases r with
    | error e => rfl
    | ok u =>
      exfalso
      rw [hr] at h
      apply h
      simp only []
      have hs : (__wt_log_scan env ⟨k.file, k.offset⟩ c).1 = .ok () := by rw [hr]
      obtain ⟨_, _, _, _, _, _, h4⟩ := log_scan_ok_fields env _ _ hs
      rw [hr] at h4
      rw [kv_slot0 env c2 h4]

/-- C18 (amended): the step count is set to 0 by a fetch whose record header
decodes, before the row is assembled (so that a successful fetching `next` or
`search` returns slot 0 and leaves the count at 1), and by `reset`, which
fetches nothing; a `next` that does not fetch adds 1 modulo 2^32; the
unsupported methods leave it as it is (compare changes no cursor); a `next`
or `search` that fails in its fetch leaves it as it was or at 0. -/
theorem step_count_changes (env : Env) (cl : WT_CURSOR_LOG) :
    ((__curlog_reset env cl).2.step_count = 0 ∧ (__curlog_reset env cl).2.scans = cl.scans) ∧
    (∀ m, m ∈ [Method.prev, Method.search_near, Method.insert, Method.update, Method.remove] →
      (iface env m cl).2.step_count = cl.step_count) ∧
    (needs_fetch cl = false →
      (__curlog_next env cl).2.step_count = (cl.step_count + 1) % 2 ^ 32 ∧
      (__curlog_next env cl).2.scans = cl.scans) ∧
    (needs_fetch cl = true → (__curlog_next env cl).1 = .ok () →
      (__wt_log_scan env cl.next_lsn { cl with txnid := 0 }).2.step_count = 0 ∧
      __curlog_next env cl =
        __curlog_kv env (__wt_log_scan env cl.next_lsn { cl with txnid := 0 }).2 ∧
      (__curlog_next env cl).2.step_count = 1 ∧
      ∃ k, (__curlog_next env cl).2.key = some k ∧ k.counter = 0) ∧
    (needs_fetch cl = true → (__curlog_next env cl).1 ≠ .ok () →
      (__curlog_next env cl).2.step_count = cl.step_count ∨
      (__curlog_next env cl).2.step_count = 0) ∧
    ((__curlog_search env cl).1 = .ok () →
      (__curlog_search env cl).2.step_count = 1 ∧
      ∃ k, (__curlog_search env cl).2.key = some k ∧ k.counter = 0) ∧
    ((__curlog_search env cl).1 ≠ .ok () →
      (__curlog_search env cl).2.step_count = cl.step_count ∨
      (__curlog_search env cl).2.step_count = 0) := by
  refine ⟨⟨rfl, rfl⟩, ?_, ?_, ?_, ?_, ?_, ?_⟩
  · intro m hm
    simp only [List.mem_cons, List.mem_singleton, List.not_mem_nil, or_false] at hm
    rcases hm with h | h | h | h | h <;> subst h <;> rfl
  · intro hf
    rw [next_no_fetch env cl hf]
    exact ⟨(kv_frame env cl).2.2.2.2.2.2.2, (kv_frame env cl).2.2.2.2.2.2.1⟩
  · intro hf hok
    obtain ⟨hs, he⟩ := next_fetch_ok env cl hf hok
    obtain ⟨r, l, -, -, h2, -, h4⟩ := log_scan_ok_fields env _ _ hs
    refine ⟨h4, he, ?_, ?_⟩
    · rw [he, kv_slot0 env _ h4]
    · rw [he, kv_slot0 env _ h4]
      exact ⟨_, rfl, rfl⟩
  · intro hf hfail
    obtain ⟨he, -⟩ := next_fetch_fail env cl hf hfail
    rw [he]
    exact log_scan_step_count env cl.next_lsn { cl with txnid := 0 }
  · intro hok
    rcases hk : cl.key with _ | k
    · unfold __curlog_search at hok
      simp [hk] at hok
    · obtain ⟨hs, he⟩ := search_ok env cl k hk hok
      obtain ⟨r, l, -, -, h2, -, h4⟩ := log_scan_ok_fields env _ _ hs
      rw [he, kv_slot0 env _ h4]
      exact ⟨rfl, _, rfl, rfl⟩
  · intro hfail
    rcases search_fail env cl hfail with h | ⟨k, -, h⟩
    · rw [h]; exact Or.inl rfl
    · rw [h]; exact log_scan_step_count env _ cl

/-- C18 as stated fails: `reset` on the cursor that has returned the three
rows of the first record of the example log calls no scanner, so fetches no
record, and takes the step count from 3 to 0: neither unchanged nor one more. -/
theorem reset_zeroes_step_count :
    (next_n (Toy.env Toy.log12) 3 (curlog_open (Toy.env Toy.log12))).step_count = 3 ∧
    (__curlog_reset (Toy.env Toy.log12)
      (next_n (Toy.env Toy.log12) 3 (curlog_open (Toy.env Toy.log12)))).2.step_count = 0 ∧
    (__curlog_reset (Toy.env Toy.log12)
      (next_n (Toy.env Toy.log12) 3 (curlog_open (Toy.env Toy.log12)))).2.scans =
      (next_n (Toy.env Toy.log12) 3 (curlog_open (Toy.env Toy.log12))).scans ∧
    (__curlog_reset (Toy.env Toy.log12)
      (next_n (Toy.env Toy.log12) 3 (curlog_open (Toy.env Toy.log12)))).2.step_count ≠
      (next_n (Toy.env Toy.log12) 3 (curlog_open (Toy.env Toy.log12))).step_count ∧
    (__curlog_reset (Toy.env Toy.log12)
      (next_n (Toy.env Toy.log12) 3 (curlog_open (Toy.env Toy.log12)))).2.step_count ≠
      (next_n (Toy.env Toy.log12) 3 (curlog_open (Toy.env Toy.log12))).step_count + 1 := by
  refine ⟨by rfl, by rfl, by rfl, ?_, ?_⟩ <;> decide

/-! ## When next fetches -/

theorem needs_fetch_iff (c : WT_CURSOR_LOG) :
    needs_fetch c = true ↔
      (c.stepp = none ∨
        ∃ p, c.stepp = some p ∧ (c.stepp_end.getD 0 ≤ p ∨ deref c.logrec p = 0)) := by
  unfold needs_fetch
  rcases hs : c.stepp with _ | p
  · simp
  · simp

/-- C19 (amended): `next` calls the scanner, once and at the cursor's next
LSN, exactly when the step pointer is null, or at or past the end pointer (a
null end pointer is below every step pointer), or the byte at the step
pointer is zero; in every other state `next` makes no scanner call and
builds its row from the record in the buffer: with a step count above 0 it
reads the operation at the step pointer (returning the error of
`__wt_logop_read` if that fails), with step count 0 it returns the
whole-record row and leaves the step pointer where it is.  An operation
whose first byte is zero is never returned: `next` fetches instead. -/
theorem next_fetches_iff (env : Env) (cl : WT_CURSOR_LOG) :
    ((__curlog_next env cl).2.scans = cl.scans ++ [cl.next_lsn] ↔
      (cl.stepp = none ∨
        ∃ p, cl.stepp = some p ∧ (cl.stepp_end.getD 0 ≤ p ∨ deref cl.logrec p = 0))) ∧
    ((__curlog_next env cl).2.scans = cl.scans ∨
      (__curlog_next env cl).2.scans = cl.scans ++ [cl.next_lsn]) ∧
    (¬ (cl.stepp = none ∨
        ∃ p, cl.stepp = some p ∧ (cl.stepp_end.getD 0 ≤ p ∨ deref cl.logrec p = 0)) →
      (__curlog_next env cl).2.scans = cl.scans ∧
      __curlog_next env cl = __curlog_kv env cl ∧
      (0 < cl.step_count →
        (∀ e, env.logop_read cl.logrec cl.stepp cl.stepp_end = .error e →
          (__curlog_next env cl).1 = .error e) ∧
        (∀ ty sz, env.logop_read cl.logrec cl.stepp cl.stepp_end = .ok (ty, sz) →
          __curlog_next env cl =
            match __curlog_op_read env
              { cl with step_count := (cl.step_count + 1) % 2 ^ 32 } ty sz with
            | (.error e, c) => (.error e, c)
            | (.ok fileid, c) =>
              (.ok (), { c with
                stepp := c.stepp.add sz,
                key := some ⟨c.cur_lsn.file, c.cur_lsn.offset, cl.step_count⟩,
                value := some ⟨c.txnid, c.rectype, ty, fileid, c.opkey, c.opvalue⟩ }))) ∧
      (cl.step_count = 0 →
        (__curlog_next env cl).1 = .ok () ∧
        whole_record_row env (__curlog_next env cl).2 ∧
        (__curlog_next env cl).2.stepp = cl.stepp)) ∧
    (∀ p, cl.stepp = some p → deref cl.logrec p = 0 →
      (__curlog_next env cl).2.scans = cl.scans ++ [cl.next_lsn]) := by
  have hiff := needs_fetch_iff cl
  have hsc := next_scans env cl
  refine ⟨?_, ?_, ?_, ?_⟩
  · rw [← hiff, hsc]
    by_cases hf : needs_fetch cl = true
    · simp [hf]
    · simp [hf]
  · rw [hsc]
    by_cases hf : needs_fetch cl = true
    · right; simp [hf]
    · left; simp [hf]
  · intro hn
    rw [← hiff] at hn
    have hf : needs_fetch cl = false := by simpa using hn
    have hkv := next_no_fetch env cl hf
    refine ⟨by rw [hsc]; simp [hf], hkv, ?_, ?_⟩
    · intro hpos
      refine ⟨?_, fun ty sz hop => next_op env cl ty sz hf hpos hop⟩
      intro e he
      rw [hkv]
      unfold __curlog_kv
      have : cl.step_count > 0 := hpos
      simp only [this, ↓reduceIte, he]
    · intro h0
      rw [hkv, kv_slot0 env cl h0]
      exact ⟨rfl, ⟨_, rfl, rfl, rfl, rfl, rfl, rfl⟩, rfl⟩
  · intro p hp hz
    rw [hsc]
    have hf : needs_fetch cl = true := hiff.2 (Or.inr ⟨p, hp, Or.inr hz⟩)
    simp [hf]

/-- C19 as stated fails: after the fetch of a record whose header does not
decode, the step pointer stands inside the record on a non-zero byte with
step count 0; `next` then calls no scanner and does not read the operation at
the step pointer (type 255, size 2): it returns the whole-record row and
leaves the step pointer where it was. -/
theorem next_step_count_zero_no_decode :
    needs_fetch (next_n (Toy.env Toy.log_bad_header) 1
      (curlog_open (Toy.env Toy.log_bad_header))) = false ∧
    (next_n (Toy.env Toy.log_bad_header) 1
      (curlog_open (Toy.env Toy.log_bad_header))).stepp = some 2 ∧
    (Toy.env Toy.log_bad_header).logop_read [0, 0, 255, 2] (some 2) (some 4) = .ok (255, 2) ∧
    (__curlog_next (Toy.env Toy.log_bad_header) (next_n (Toy.env Toy.log_bad_header) 1
      (curlog_open (Toy.env Toy.log_bad_header)))).1 = .ok () ∧
    (__curlog_next (Toy.env Toy.log_bad_header) (next_n (Toy.env Toy.log_bad_header) 1
      (curlog_open (Toy.env Toy.log_bad_header)))).2.scans =
      (next_n (Toy.env Toy.log_bad_header) 1 (curlog_open (Toy.env Toy.log_bad_header))).scans ∧
    (__curlog_next (Toy.env Toy.log_bad_header) (next_n (Toy.env Toy.log_bad_header) 1
      (curlog_open (Toy.env Toy.log_bad_header)))).2.key = some ⟨1, 0, 0⟩ ∧
    (__curlog_next (Toy.env Toy.log_bad_header) (next_n (Toy.env Toy.log_bad_header) 1
      (curlog_open (Toy.env Toy.log_bad_header)))).2.value =
      some ⟨0, 0, 0, 0, [], [0, 0, 255, 2]⟩ ∧
    (__curlog_next (Toy.env Toy.log_bad_header) (next_n (Toy.env Toy.log_bad_header) 1
      (curlog_open (Toy.env Toy.log_bad_header)))).2.stepp = some 2 := by
  refine ⟨by rfl, by rfl, by rfl, by rfl, by rfl, by rfl, by rfl, by rfl⟩

/-! ## The two LSNs -/

/-- The LSNs after a scan: those of the record delivered, or unchanged when
none is delivered. -/
theorem log_scan_lsns (env : Env) (q : WT_LSN) (c : WT_CURSOR_LOG) :
    (∀ r l, env.log_scan q = .ok (r, l) →
      (__wt_log_scan env q c).2.cur_lsn = l ∧
      (__wt_log_scan env q c).2.next_lsn = lsn_advance l r.length) ∧
    (∀ e, env.log_scan q = .error e →
      __wt_log_scan env q c = (.error e, { c with scans := c.scans ++ [q] })) := by
  constructor
  · intro r l h
    rw [log_scan_deliver env q c r l h]
    obtain ⟨-, -, -, h4, h5⟩ := logrec_frame env r l { c with scans := c.scans ++ [q] }
    exact ⟨h4, h5⟩
  · intro e h
    exact log_scan_err env q c e h

/-- The result of `next` when it has to fetch, in terms of the scan. -/
theorem next_fetch_cases (env : Env) (c : WT_CURSOR_LOG) (hf : needs_fetch c = true) :
    (__curlog_next env c).2 = (__wt_log_scan env c.next_lsn { c with txnid := 0 }).2 ∨
    (__curlog_next env c).2 =
      (__curlog_kv env (__wt_log_scan env c.next_lsn { c with txnid := 0 }).2).2 := by
  unfold __curlog_next
  simp only [hf, ↓reduceIte]
  rcases hr : __wt_log_scan env c.next_lsn { c with txnid := 0 } with ⟨r, c2⟩
  cases r with
  | error e => exact Or.inl rfl
  | ok u => exact Or.inr rfl

/-- The result of `search` on a cursor with key `k`, in terms of the scan. -/
theorem search_cases (env : Env) (c : WT_CURSOR_LOG) (k : Key) (hk : c.key = some k) :
    (__curlog_search env c).2 = (__wt_log_scan env ⟨k.file, k.offset⟩ c).2 ∨
    (__curlog_search env c).2 =
      (__curlog_kv env (__wt_log_scan env ⟨k.file, k.offset⟩ c).2).2 := by
  unfold __curlog_search
  simp only [hk]
  rcases hr : __wt_log_scan env ⟨k.file, k.offset⟩ c with ⟨r, c2⟩
  cases r with
  | error e => exact Or.inl rfl
  | ok u => exact Or.inr rfl

/-- After a call that scanned at `q`, where the scanner delivers `r` at `l`:
the current LSN is `l`, the next LSN is `r.length` further. -/
theorem scan_then_kv_lsns (env : Env) (q : WT_LSN) (c c2 : WT_CURSOR_LOG) (r : Bytes)
    (l : WT_LSN) (h : env.log_scan q = .ok (r, l))
    (hc : c2 = (__wt_log_scan env q c).2 ∨ c2 = (__curlog_kv env (__wt_log_scan env q c).2).2) :
    c2.cur_lsn = l ∧ c2.next_lsn = lsn_advance l r.length := by
  obtain ⟨h1, h2⟩ := (log_scan_lsns env q c).1 r l h
  rcases hc with hc | hc
  · rw [hc]; exact ⟨h1, h2⟩
  · obtain ⟨k1, k2, -⟩ := kv_frame env (__wt_log_scan env q c).2
    rw [hc, k1, k2]; exact ⟨h1, h2⟩

theorem lsn_pair_next (env : Env) (c : WT_CURSOR_LOG) (h : lsn_pair env c) :
    lsn_pair env (__curlog_next env c).2 := by
  by_cases hf : needs_fetch c = true
  · rcases hs : env.log_scan c.next_lsn with e | ⟨r, l⟩
    · have hn : __curlog_next env c =
          (.error e, { c with txnid := 0, scans := c.scans ++ [c.next_lsn] }) := by
        unfold __curlog_next
        simp only [hf, ↓reduceIte]
        rw [log_scan_err env c.next_lsn _ e hs]
      rw [hn]
      exact h
    · right
      obtain ⟨h1, h2⟩ := scan_then_kv_lsns env c.next_lsn { c with txnid := 0 } _ r l hs
        (next_fetch_cases env c hf)
      exact ⟨_, r, l, hs, h1, h2⟩
  · have hfa : needs_fetch c = false := by simpa using hf
    rw [next_no_fetch env c hfa]
    obtain ⟨k1, k2, -⟩ := kv_frame env c
    rcases h with ⟨-, -, h3, -⟩ | ⟨q, r, l, hs, h1, h2⟩
    · exact absurd h3 (needs_fetch_false_stepp hfa)
    · right
      exact ⟨q, r, l, hs, by rw [k1, h1], by rw [k2, h2]⟩

theorem lsn_pair_search (env : Env) (c : WT_CURSOR_LOG) (h : lsn_pair env c) :
    lsn_pair env (__curlog_search env c).2 := by
  rcases hk : c.key with _ | k
  · have : __curlog_search env c = (.error env.key_not_set, c) := by
      unfold __curlog_search
      simp only [hk]
    rw [this]
    exact h
  · rcases hs : env.log_scan ⟨k.file, k.offset⟩ with e | ⟨r, l⟩
    · have hn : __curlog_search env c =
          (.error e, { c with scans := c.scans ++ [⟨k.file, k.offset⟩] }) := by
        unfold __curlog_search
        simp only [hk]
        rw [log_scan_err env _ _ e hs]
        simp only [hk]
      rw [hn]
      exact h
    · right
      obtain ⟨h1, h2⟩ := scan_then_kv_lsns env ⟨k.file, k.offset⟩ c _ r l hs
        (search_cases env c k hk)
      exact ⟨_, r, l, hs, h1, h2⟩

/-- In every reachable state the LSNs are as opened or reset, or those of a
delivered record. -/
theorem reachable_lsn_pair (env : Env) (c : WT_CURSOR_LOG) (h : Reachable env c) :
    lsn_pair env c := by
  induction h with
  | opened => exact Or.inl ⟨rfl, rfl, rfl, rfl⟩
  | next _ ih => exact lsn_pair_next env _ ih
  | set_key k _ ih => exact ih
  | search _ ih => exact lsn_pair_search env _ ih
  | reset _ _ => exact Or.inl ⟨rfl, rfl, rfl, rfl⟩

/-- C16 (amended): after every fetch, that is a `next` or `search` call in
which the scanner delivers a record `r` at LSN `l`, the current LSN is `l`
and the next LSN is (l.file, l.offset + length of r); and in every state
reachable from open, either the LSNs are as `open` and `reset` leave them
(both the initial LSN, nothing fetched since), or the current LSN is the LSN
of a record the scanner delivers and the next LSN is that record's byte
length further. -/
theorem lsns_after_fetch (env : Env) (c : WT_CURSOR_LOG) (hr : Reachable env c) :
    (∀ cl q r l, env.log_scan q = .ok (r, l) →
      (needs_fetch cl = true → cl.next_lsn = q →
        (__curlog_next env cl).2.cur_lsn = l ∧
        (__curlog_next env cl).2.next_lsn = lsn_advance l r.length) ∧
      (∀ k, cl.key = some k → (⟨k.file, k.offset⟩ : WT_LSN) = q →
        (__curlog_search env cl).2.cur_lsn = l ∧
        (__curlog_search env cl).2.next_lsn = lsn_advance l r.length)) ∧
    lsn_pair env c := by
  refine ⟨?_, reachable_lsn_pair env c hr⟩
  intro cl q r l hs
  constructor
  · intro hf hq
    subst hq
    exact scan_then_kv_lsns env cl.next_lsn { cl with txnid := 0 } _ r l hs
      (next_fetch_cases env cl hf)
  · intro k hk hq
    subst hq
    exact scan_then_kv_lsns env ⟨k.file, k.offset⟩ cl _ r l hs (search_cases env cl k hk)

theorem lsns_after_fetch_witness :
    lsn_pair (Toy.env Toy.log12)
      (next_n (Toy.env Toy.log12) 2 (curlog_open (Toy.env Toy.log12))) ∧
    (next_n (Toy.env Toy.log12) 2 (curlog_open (Toy.env Toy.log12))).cur_lsn = ⟨1, 0⟩ ∧
    (next_n (Toy.env Toy.log12) 2 (curlog_open (Toy.env Toy.log12))).next_lsn = ⟨1, 16⟩ :=
  ⟨(lsns_after_fetch (Toy.env Toy.log12)
      (next_n (Toy.env Toy.log12) 2 (curlog_open (Toy.env Toy.log12)))
      (Reachable.next (Reachable.next Reachable.opened))).2, by rfl, by rfl⟩

/-- C16 as stated fails after `reset`: the cursor that has fetched the first
record of the example log (16 bytes, still in its buffer) and is then reset
has both LSNs at the initial LSN, so its next LSN is not its current LSN
advanced by the length of the record last fetched. -/
theorem reset_lsns_not_record_apart :
    Reachable (Toy.env Toy.log12)
      (__curlog_reset (Toy.env Toy.log12)
        (__curlog_next (Toy.env Toy.log12) (curlog_open (Toy.env Toy.log12))).2).2 ∧
    (__curlog_reset (Toy.env Toy.log12)
      (__curlog_next (Toy.env Toy.log12) (curlog_open (Toy.env Toy.log12))).2).2.scans =
      [⟨0, 0⟩] ∧
    (Toy.env Toy.log12).log_scan ⟨0, 0⟩ = .ok (Toy.record1, ⟨1, 0⟩) ∧
    (__curlog_reset (Toy.env Toy.log12)
      (__curlog_next (Toy.env Toy.log12) (curlog_open (Toy.env Toy.log12))).2).2.logrec =
      Toy.record1 ∧
    Toy.record1.length = 16 ∧
    (__curlog_reset (Toy.env Toy.log12)
      (__curlog_next (Toy.env Toy.log12) (curlog_open (Toy.env Toy.log12))).2).2.cur_lsn =
      ⟨0, 0⟩ ∧
    (__curlog_reset (Toy.env Toy.log12)
      (__curlog_next (Toy.env Toy.log12) (curlog_open (Toy.env Toy.log12))).2).2.next_lsn =
      ⟨0, 0⟩ ∧
    (__curlog_reset (Toy.env Toy.log12)
      (__curlog_next (Toy.env Toy.log12) (curlog_open (Toy.env Toy.log12))).2).2.next_lsn ≠
      lsn_advance (__curlog_reset (Toy.env Toy.log12)
        (__curlog_next (Toy.env Toy.log12) (curlog_open (Toy.env Toy.log12))).2).2.cur_lsn
        Toy.record1.length := by
  refine ⟨Reachable.reset (Reachable.next Reachable.opened), by rfl, by rfl, by rfl, by rfl,
    by rfl, by rfl, ?_⟩
  decide

/-! ## The step pointer and the record end -/

/-- The step pointers after `__curlog_kv`: as before, or, after an operation
row, the step pointer moved on by the declared size. -/
theorem kv_stepp (env : Env) (c : WT_CURSOR_LOG) :
    (__curlog_kv env c).2.stepp_end = c.stepp_end ∧
    ((__curlog_kv env c).2.stepp = c.stepp ∨
      ∃ ty sz, env.logop_read c.logrec c.stepp c.stepp_end = .ok (ty, sz) ∧
        (__curlog_kv env c).2.stepp = c.stepp.add sz) := by
  refine ⟨(kv_frame env c).2.2.2.1, ?_⟩
  unfold __curlog_kv
  simp only []
  by_cases h0 : c.step_count > 0
  · simp only [h0, ↓reduceIte]
    rcases hr : env.logop_read c.logrec c.stepp c.stepp_end with e | ⟨ty, sz⟩
    · exact Or.inl rfl
    · simp only []
      obtain ⟨k, v, hf⟩ := op_read_frame env
        { c with step_count := (c.step_count + 1) % 2 ^ 32 } ty sz
      rcases hq : __curlog_op_read env
        { c with step_count := (c.step_count + 1) % 2 ^ 32 } ty sz with ⟨q, c2⟩
      rw [hq] at hf
      simp only at hf
      subst hf
      cases q with
      | error e => exact Or.inl rfl
      | ok f => exact Or.inr ⟨ty, sz, rfl, rfl⟩
  · simp only [h0, ↓reduceIte]
    exact Or.inl trivial

theorem kv_step_in_record (env : Env) (c : WT_CURSOR_LOG) (hfc : framing_checked env)
    (h : step_in_record c) : step_in_record (__curlog_kv env c).2 := by
  obtain ⟨he, hs⟩ := kv_stepp env c
  intro p hp
  rcases hs with hs | ⟨ty, sz, hop, hs⟩
  · rw [hs] at hp
    rw [he]
    exact h p hp
  · rw [hs] at hp
    rcases hc : c.stepp with _ | p0
    · rw [hc] at hp
      simp [Ptr.add] at hp
    · obtain ⟨e, h1, h2⟩ := h p0 hc
      rw [hc, h1] at hop
      have := hfc.2.2.2 _ _ _ _ _ hop
      rw [hc] at hp
      simp only [Ptr.add, Option.map_some', Option.some.injEq] at hp
      rw [he]
      exact ⟨e, h1, by omega⟩

theorem logrec_step_in_record (env : Env) (r : Bytes) (l : WT_LSN) (c : WT_CURSOR_LOG)
    (hfc : framing_checked env) (h0 : env.hdr_offset ≤ r.length) (h : step_in_record c) :
    step_in_record (__curlog_logrec env r l c).2 := by
  obtain ⟨-, h1, h2, -⟩ := hfc
  unfold __curlog_logrec
  simp only []
  rcases hb : env.buf_set r with e | u
  · exact h
  · simp only []
    rcases hh : env.logrec_read r env.hdr_offset r.length with e | ⟨pp, ty⟩
    · simp only []
      intro p hp
      simp only [Option.some.injEq] at hp
      exact ⟨_, rfl, by omega⟩
    · simp only []
      have hpp := h1 r pp ty hh
      split
      · rcases hv : env.vunpack_uint r pp (WT_PTRDIFF r.length pp) with e | ⟨p2, t⟩
        · simp only []
          intro p hp
          simp only [Option.some.injEq] at hp
          exact ⟨_, rfl, by omega⟩
        · simp only []
          have hp2 := h2 r pp p2 t hpp hv
          intro p hp
          simp only [Option.some.injEq] at hp
          exact ⟨_, rfl, by omega⟩
      · intro p hp
        simp at hp

theorem log_scan_step_in_record (env : Env) (q : WT_LSN) (c : WT_CURSOR_LOG)
    (hfc : framing_checked env) (h : step_in_record c) :
    step_in_record (__wt_log_scan env q c).2 := by
  rcases hs : env.log_scan q with e | ⟨r, l⟩
  · rw [log_scan_err env q c e hs]
    exact h
  · rw [log_scan_deliver env q c r l hs]
    exact logrec_step_in_record env r l _ hfc (hfc.1 q r l hs) h

theorem next_step_in_record (env : Env) (c : WT_CURSOR_LOG) (hfc : framing_checked env)
    (h : step_in_record c) : step_in_record (__curlog_next env c).2 := by
  by_cases hf : needs_fetch c = true
  · have hs := log_scan_step_in_record env c.next_lsn { c with txnid := 0 } hfc h
    rcases next_fetch_cases env c hf with he | he
    · rw [he]; exact hs
    · rw [he]; exact kv_step_in_record env _ hfc hs
  · have hfa : needs_fetch c = false := by simpa using hf
    rw [next_no_fetch env c hfa]
    exact kv_step_in_record env c hfc h

theorem search_step_in_record (env : Env) (c : WT_CURSOR_LOG) (hfc : framing_checked env)
    (h : step_in_record c) : step_in_record (__curlog_search env c).2 := by
  rcases hk : c.key with _ | k
  · have : __curlog_search env c = (.error env.key_not_set, c) := by
      unfold __curlog_search
      simp only [hk]
    rw [this]
    exact h
  · have hs := log_scan_step_in_record env ⟨k.file, k.offset⟩ c hfc h
    rcases search_cases env c k hk with he | he
    · rw [he]; exact hs
    · rw [he]; exact kv_step_in_record env _ hfc hs

theorem reachable_step_in_record (env : Env) (c : WT_CURSOR_LOG) (hfc : framing_checked env)
    (h : Reachable env c) : step_in_record c := by
  induction h with
  | opened => intro p hp; exact absurd hp (by simp [curlog_open])
  | next _ ih => exact next_step_in_record env _ hfc ih
  | set_key k _ ih => exact ih
  | search _ ih => exact search_step_in_record env _ hfc ih
  | reset _ _ => intro p hp; exact absurd hp (by simp [__curlog_reset])

/-- What an operation whose declared size runs past the end does to a cursor
that reads it: the row is returned, the step pointer ends past the end
pointer, and the cursor has to fetch next. -/
theorem next_overrun (env : Env) (cl : WT_CURSOR_LOG) (p e ty sz fid : Nat)
    (hp : cl.stepp = some p) (he : cl.stepp_end = some e)
    (hnf : needs_fetch cl = false) (hsc : 0 < cl.step_count)
    (hop : env.logop_read cl.logrec cl.stepp cl.stepp_end = .ok (ty, sz))
    (hrd : (__curlog_op_read env cl ty sz).1 = .ok fid) (hover : e < p + sz) :
    (__curlog_next env cl).1 = .ok () ∧
    (__curlog_next env cl).2.key =
      some ⟨cl.cur_lsn.file, cl.cur_lsn.offset, cl.step_count⟩ ∧
    (__curlog_next env cl).2.stepp = some (p + sz) ∧
    (__curlog_next env cl).2.stepp_end = some e ∧
    ¬ step_in_record (__curlog_next env cl).2 ∧
    needs_fetch (__curlog_next env cl).2 = true := by
  have hn := next_op env cl ty sz hnf hsc hop
  have hc := (op_read_core env { cl with step_count := (cl.step_count + 1) % 2 ^ 32 } cl
    ty sz rfl rfl (fun _ => rfl)).1
  obtain ⟨k1, v1, hfr⟩ := op_read_frame env
    { cl with step_count := (cl.step_count + 1) % 2 ^ 32 } ty sz
  rcases hq : __curlog_op_read env
    { cl with step_count := (cl.step_count + 1) % 2 ^ 32 } ty sz with ⟨q, c2⟩
  rw [hq] at hn hfr hc
  simp only at hfr hc
  subst hfr
  rw [hrd] at hc
  subst hc
  rw [hn]
  have hst : (cl.stepp.add sz) = some (p + sz) := by simp [Ptr.add, hp]
  refine ⟨rfl, rfl, hst, he, ?_, ?_⟩
  · intro h
    obtain ⟨e2, h1, h2⟩ := h (p + sz) hst
    have : e2 = e := by
      have h3 : cl.stepp_end = some e2 := h1
      rw [he] at h3
      exact (Option.some.inj h3).symm
    omega
  · simp only [needs_fetch, hst, he, Option.getD_some, Bool.or_eq_true, decide_eq_true_eq]
    left
    omega

/-- Over an engine that keeps the framing inside the record (no record
shorter than the header offset; the header, transaction-id and
operation-framing routines never give a position or a declared size past the
end they are given), in every cursor state reachable by next, search and
reset a step pointer that is not null is at most the end pointer.  The
cursor itself checks nothing: when `__wt_logop_read` accepts an operation
whose declared size runs past the record end and the operation unpacks,
`next` returns the row and leaves the step pointer past the end pointer, and
the call after it fetches a new record. -/
theorem step_pointer_in_record (env : Env) :
    (∀ c, framing_checked env → Reachable env c → step_in_record c) ∧
    (∀ cl p e ty sz fid, cl.stepp = some p → cl.stepp_end = some e →
      needs_fetch cl = false → 0 < cl.step_count →
      env.logop_read cl.logrec cl.stepp cl.stepp_end = .ok (ty, sz) →
      (__curlog_op_read env cl ty sz).1 = .ok fid → e < p + sz →
      (__curlog_next env cl).1 = .ok () ∧
      (__curlog_next env cl).2.key =
        some ⟨cl.cur_lsn.file, cl.cur_lsn.offset, cl.step_count⟩ ∧
      (__curlog_next env cl).2.stepp = some (p + sz) ∧
      (__curlog_next env cl).2.stepp_end = some e ∧
      ¬ step_in_record (__curlog_next env cl).2 ∧
      needs_fetch (__curlog_next env cl).2 = true) :=
  ⟨fun c hfc hr => reachable_step_in_record env c hfc hr,
   fun cl p e ty sz fid hp he hnf hsc hop hrd hover =>
     next_overrun env cl p e ty sz fid hp he hnf hsc hop hrd hover⟩

theorem WT_PTRDIFF_self (n : Nat) : WT_PTRDIFF n n = 0 := by
  simp [WT_PTRDIFF]

theorem toy_checked_log12_framing : framing_checked (Toy.env_checked Toy.log12) := by
  refine ⟨?_, ?_, ?_, ?_⟩
  · intro q r l h
    obtain ⟨hm, -⟩ := toy_scan_cases Toy.log12 q l r h
    simp only [Toy.log12, List.mem_cons, Prod.mk.injEq, List.mem_singleton, List.not_mem_nil,
      or_false] at hm
    rcases hm with ⟨-, rfl⟩ | ⟨-, rfl⟩ <;> decide
  · intro r pp ty h
    simp only [Toy.env_checked, Toy.env, Toy.logrec_read] at h
    split at h
    · simp at h
    · rename_i hc
      simp only [Except.ok.injEq, Prod.mk.injEq] at h
      omega
  · intro r pp p2 t hle h
    simp only [Toy.env_checked, Toy.env, Toy.vunpack_uint] at h
    split at h
    · simp at h
    · rename_i hc
      simp only [Except.ok.injEq, Prod.mk.injEq] at h
      have hne : pp ≠ r.length := by
        intro heq
        apply hc
        left
        rw [heq]
        exact WT_PTRDIFF_self _
      omega
  · intro buf p e ty sz h
    simp only [Toy.env_checked, Toy.logop_read_checked] at h
    split at h
    · simp at h
    · rename_i hc
      simp only [Except.ok.injEq, Prod.mk.injEq] at h
      omega

theorem step_pointer_in_record_witness :
    step_in_record (next_n (Toy.env_checked Toy.log12) 2
      (curlog_open (Toy.env_checked Toy.log12))) ∧
    ¬ step_in_record (__curlog_next (Toy.env Toy.log_overrun)
      (next_n (Toy.env Toy.log_overrun) 1 (curlog_open (Toy.env Toy.log_overrun)))).2 :=
  ⟨(step_pointer_in_record (Toy.env_checked Toy.log12)).1 _ toy_checked_log12_framing
      (Reachable.next (Reachable.next Reachable.opened)),
   ((step_pointer_in_record (Toy.env Toy.log_overrun)).2
      (next_n (Toy.env Toy.log_overrun) 1 (curlog_open (Toy.env Toy.log_overrun)))
      4 6 9 9 0 (by rfl) (by rfl) (by rfl) (by decide) (by rfl) (by rfl) (by decide)).2.2.2.2.1⟩

/-- C15, at a record the cursor does not handle as the claim says: on a log
whose commit record holds an operation of kind 9 that declares 9 bytes with 2
left in the record, the second `next` of a fresh cursor does not fail.  It
returns that operation at slot 1, with a value of 9 bytes of which the first
2 are bytes of the record, and leaves the step pointer at offset 13 with the
end pointer at 6. -/
theorem step_pointer_past_end :
    Reachable (Toy.env Toy.log_overrun)
      (next_n (Toy.env Toy.log_overrun) 2 (curlog_open (Toy.env Toy.log_overrun))) ∧
    (next_n (Toy.env Toy.log_overrun) 1 (curlog_open (Toy.env Toy.log_overrun))).logrec =
      [0, 0, 1, 5, 9, 9] ∧
    (__curlog_next (Toy.env Toy.log_overrun)
      (next_n (Toy.env Toy.log_overrun) 1 (curlog_open (Toy.env Toy.log_overrun)))).1 =
      .ok () ∧
    (next_n (Toy.env Toy.log_overrun) 2 (curlog_open (Toy.env Toy.log_overrun))).key =
      some ⟨1, 0, 1⟩ ∧
    (next_n (Toy.env Toy.log_overrun) 2 (curlog_open (Toy.env Toy.log_overrun))).value.map
      (fun v => (v.optype, v.opvalue.length, v.opvalue.take 2)) = some (9, 9, [9, 9]) ∧
    (next_n (Toy.env Toy.log_overrun) 2 (curlog_open (Toy.env Toy.log_overrun))).stepp =
      some 13 ∧
    (next_n (Toy.env Toy.log_overrun) 2 (curlog_open (Toy.env Toy.log_overrun))).stepp_end =
      some 6 ∧
    ¬ step_in_record
      (next_n (Toy.env Toy.log_overrun) 2 (curlog_open (Toy.env Toy.log_overrun))) := by
  refine ⟨Reachable.next (Reachable.next Reachable.opened), by rfl, by rfl, by rfl, by rfl,
    by rfl, by rfl, ?_⟩
  intro h
  obtain ⟨e, h1, h2⟩ := h 13 (by rfl)
  have h3 : (some 6 : Option Nat) = some e := h1
  have : e = 6 := (Option.some.inj h3).symm
  omega

/-- C9, at an operation the cursor does not handle as the claim says: the
record at LSN (1,0) holds an operation of kind 9 that declares 9 bytes with 2
left in the record.  A cursor that has searched the 16-byte record at (1,6),
was reset and has fetched the record at (1,0) returns that operation at slot
1 with a value of 9 bytes; only the first 2 are bytes of the record, the
other 7 are what the buffer memory holds past the record, in this engine
bytes 6 to 12 of the record read before. -/
theorem other_op_value_outside_record :
    Reachable (Toy.env Toy.log_overrun_then_record1)
      (next_n (Toy.env Toy.log_overrun_then_record1) 1
        (__curlog_reset (Toy.env Toy.log_overrun_then_record1)
          (__curlog_search (Toy.env Toy.log_overrun_then_record1)
            { curlog_open (Toy.env Toy.log_overrun_then_record1) with
              key := some ⟨1, 6, 0⟩ }).2).2) ∧
    (__curlog_search (Toy.env Toy.log_overrun_then_record1)
      { curlog_open (Toy.env Toy.log_overrun_then_record1) with
        key := some ⟨1, 6, 0⟩ }).2.logrec = Toy.record1 ∧
    (next_n (Toy.env Toy.log_overrun_then_record1) 1
      (__curlog_reset (Toy.env Toy.log_overrun_then_record1)
        (__curlog_search (Toy.env Toy.log_overrun_then_record1)
          { curlog_open (Toy.env Toy.log_overrun_then_record1) with
            key := some ⟨1, 6, 0⟩ }).2).2).logrec = [0, 0, 1, 5, 9, 9] ∧
    (next_n (Toy.env Toy.log_overrun_then_record1) 1
      (__curlog_reset (Toy.env Toy.log_overrun_then_record1)
        (__curlog_search (Toy.env Toy.log_overrun_then_record1)
          { curlog_open (Toy.env Toy.log_overrun_then_record1) with
            key := some ⟨1, 6, 0⟩ }).2).2).stepp = some 4 ∧
    (Toy.env Toy.log_overrun_then_record1).logop_read [0, 0, 1, 5, 9, 9] (some 4) (some 6) =
      .ok (9, 9) ∧
    (__curlog_next (Toy.env Toy.log_overrun_then_record1)
      (next_n (Toy.env Toy.log_overrun_then_record1) 1
        (__curlog_reset (Toy.env Toy.log_overrun_then_record1)
          (__curlog_search (Toy.env Toy.log_overrun_then_record1)
            { curlog_open (Toy.env Toy.log_overrun_then_record1) with
              key := some ⟨1, 6, 0⟩ }).2).2)).1 = .ok () ∧
    (__curlog_next (Toy.env Toy.log_overrun_then_record1)
      (next_n (Toy.env Toy.log_overrun_then_record1) 1
        (__curlog_reset (Toy.env Toy.log_overrun_then_record1)
          (__curlog_search (Toy.env Toy.log_overrun_then_record1)
            { curlog_open (Toy.env Toy.log_overrun_then_record1) with
              key := some ⟨1, 6, 0⟩ }).2).2)).2.key = some ⟨1, 0, 1⟩ ∧
    (__curlog_next (Toy.env Toy.log_overrun_then_record1)
      (next_n (Toy.env Toy.log_overrun_then_record1) 1
        (__curlog_reset (Toy.env Toy.log_overrun_then_record1)
          (__curlog_search (Toy.env Toy.log_overrun_then_record1)
            { curlog_open (Toy.env Toy.log_overrun_then_record1) with
              key := some ⟨1, 6, 0⟩ }).2).2)).2.value =
      some ⟨5, 1, 9, 0, [], [9, 9, 3, 1, 97, 1, 49, 5, 5]⟩ ∧
    (([0, 0, 1, 5, 9, 9] : Bytes).drop 4).take 9 = [9, 9] ∧
    (Toy.record1.drop 6).take 7 = [3, 1, 97, 1, 49, 5, 5] :=
  ⟨Reachable.next (Reachable.reset (Reachable.search
      (Reachable.set_key ⟨1, 6, 0⟩ Reachable.opened))),
    by rfl, by rfl, by rfl, by rfl, by rfl, by rfl, by rfl, by rfl, by rfl⟩

/-! ## Operation rows and the step pointer -/

theorem needs_fetch_false_iff (c : WT_CURSOR_LOG) :
    needs_fetch c = false ↔
      ∃ p, c.stepp = some p ∧ p < c.stepp_end.getD 0 ∧ deref c.logrec p ≠ 0 := by
  unfold needs_fetch
  rcases hs : c.stepp with _ | p
  · simp
  · simp

/-- A `next` call that returns an operation row has read the operation at the
step pointer and moved the step pointer on by its declared size. -/
theorem op_row_step (env : Env) (c : WT_CURSOR_LOG) (h : is_op_row (__curlog_next env c) = true) :
    ∃ p ty sz, c.stepp = some p ∧ needs_fetch c = false ∧
      env.logop_read c.logrec c.stepp c.stepp_end = .ok (ty, sz) ∧
      (__curlog_next env c).2.stepp = some (p + sz) := by
  unfold is_op_row at h
  rcases hr : (__curlog_next env c).1 with e | u
  · simp [hr] at h
  · rcases hk : (__curlog_next env c).2.key with _ | k
    · simp [hr, hk] at h
    · simp only [hr, hk, decide_eq_true_eq] at h
      have hok : (__curlog_next env c).1 = .ok () := hr
      by_cases hf : needs_fetch c = true
      · obtain ⟨r, l, -, h2, -⟩ := next_fetch_slot0 env c hf hok
        rw [h2] at hk
        simp only [Option.some.injEq] at hk
        subst hk
        simp at h
      · have hfa : needs_fetch c = false := by simpa using hf
        have hkv := next_no_fetch env c hfa
        have hkey := kv_key env c (by rw [← hkv]; exact hok)
        rw [← hkv, hk] at hkey
        simp only [Option.some.injEq] at hkey
        subst hkey
        simp only at h
        obtain ⟨p, hp, -, -⟩ := (needs_fetch_false_iff c).1 hfa
        obtain ⟨-, hs⟩ := kv_stepp env c
        rw [← hkv] at hs
        rcases hop : env.logop_read c.logrec c.stepp c.stepp_end with e | ⟨ty, sz⟩
        · rw [hkv] at hok
          unfold __curlog_kv at hok
          have : c.step_count > 0 := h
          simp [this, hop] at hok
        · have hn := next_op env c ty sz hfa h hop
          obtain ⟨k1, v1, hfr⟩ := op_read_frame env
            { c with step_count := (c.step_count + 1) % 2 ^ 32 } ty sz
          rcases hq : __curlog_op_read env
            { c with step_count := (c.step_count + 1) % 2 ^ 32 } ty sz with ⟨q, c2⟩
          rw [hq] at hn hfr
          simp only at hfr
          subst hfr
          cases q with
          | error e => rw [hn] at hok; exact absurd hok (by simp)
          | ok f =>
            refine ⟨p, ty, sz, hp, hfa, rfl, ?_⟩
            rw [hn]
            simp [Ptr.add, hp]

/-- The step pointer after a `next` that does not fetch: not null and not
before where it was. -/
theorem next_no_fetch_stepp (env : Env) (c : WT_CURSOR_LOG) (p : Nat) (hp : c.stepp = some p)
    (hf : needs_fetch c = false) :
    (∃ p2, (__curlog_next env c).2.stepp = some p2 ∧ p ≤ p2) ∧
    (__curlog_next env c).2.stepp_end = c.stepp_end ∧
    (__curlog_next env c).2.logrec = c.logrec := by
  rw [next_no_fetch env c hf]
  obtain ⟨he, hs⟩ := kv_stepp env c
  refine ⟨?_, he, (kv_frame env c).2.2.1⟩
  rcases hs with hs | ⟨ty, sz, -, hs⟩
  · exact ⟨p, by rw [hs, hp], le_refl p⟩
  · exact ⟨p + sz, by rw [hs, hp]; rfl, by omega⟩

/-- While `next` does not fetch, it returns at most as many operation rows as
there are bytes from the step pointer to the end of the record, when every
operation it returns declares at least one byte. -/
theorem op_rows_bound (env : Env) (L : Nat) :
    ∀ (n : Nat) (c : WT_CURSOR_LOG) (p : Nat), c.stepp = some p → c.stepp_end = some L →
      (∀ i, i < n → needs_fetch (next_n env i c) = false) →
      (∀ i, i < n → is_op_row (__curlog_next env (next_n env i c)) = true →
        ∀ ty sz, env.logop_read (next_n env i c).logrec (next_n env i c).stepp
          (next_n env i c).stepp_end = .ok (ty, sz) → 1 ≤ sz) →
      op_rows env n c ≤ L - p := by
  intro n
  induction n with
  | zero => intro c p _ _ _ _; simp [op_rows]
  | succ n ih =>
    intro c p hp he hnf hsz
    have hf0 : needs_fetch c = false := hnf 0 (by omega)
    obtain ⟨p0, hp0, hlt, -⟩ := (needs_fetch_false_iff c).1 hf0
    rw [hp] at hp0
    simp only [Option.some.injEq] at hp0
    subst hp0
    rw [he] at hlt
    simp only [Option.getD_some] at hlt
    obtain ⟨⟨p2, hp2, hle⟩, he2, -⟩ := next_no_fetch_stepp env c p hp hf0
    have hnf2 : ∀ i, i < n → needs_fetch (next_n env i (__curlog_next env c).2) = false :=
      fun i hi => hnf (i + 1) (by omega)
    have hsz2 : ∀ i, i < n →
        is_op_row (__curlog_next env (next_n env i (__curlog_next env c).2)) = true →
        ∀ ty sz, env.logop_read (next_n env i (__curlog_next env c).2).logrec
          (next_n env i (__curlog_next env c).2).stepp
          (next_n env i (__curlog_next env c).2).stepp_end = .ok (ty, sz) → 1 ≤ sz :=
      fun i hi => hsz (i + 1) (by omega)
    simp only [op_rows]
    by_cases hrow : is_op_row (__curlog_next env c) = true
    · obtain ⟨p', ty, sz, hp', -, hop, hst⟩ := op_row_step env c hrow
      rw [hp] at hp'
      simp only [Option.some.injEq] at hp'
      subst hp'
      have h1 := hsz 0 (by omega) hrow ty sz hop
      have := ih (__curlog_next env c).2 (p + sz) hst (by rw [he2, he]) hnf2 hsz2
      simp only [hrow, ↓reduceIte]
      omega
    · have := ih (__curlog_next env c).2 p2 hp2 (by rw [he2, he]) hnf2 hsz2
      simp only [hrow, Bool.false_eq_true, ↓reduceIte]
      omega

/-- A `next` on an operation of declared size 0 that unpacks: the call succeeds
and leaves the step pointer where it was; with a step count above 0 the row is
that operation, with step count 0 it is the whole-record row. -/
theorem zero_size_step (env : Env) (c : WT_CURSOR_LOG) (p ty fid : Nat)
    (hp : c.stepp = some p) (hf : needs_fetch c = false)
    (hop : env.logop_read c.logrec c.stepp c.stepp_end = .ok (ty, 0))
    (hrd : (__curlog_op_read env c ty 0).1 = .ok fid) :
    (__curlog_next env c).1 = .ok () ∧
    (__curlog_next env c).2.stepp = some p ∧
    (__curlog_next env c).2.key = some ⟨c.cur_lsn.file, c.cur_lsn.offset, c.step_count⟩ ∧
    (0 < c.step_count → (__curlog_next env c).2.value =
      some ⟨c.txnid, c.rectype, ty, fid, (__curlog_op_read env c ty 0).2.opkey,
        (__curlog_op_read env c ty 0).2.opvalue⟩) ∧
    (c.step_count = 0 → (__curlog_next env c).2.value =
      some ⟨c.txnid, c.rectype, env.WT_LOGOP_INVALID, 0, [], c.logrec⟩) := by
  by_cases h0 : c.step_count = 0
  · rw [next_no_fetch env c hf, kv_slot0 env c h0]
    exact ⟨rfl, hp, by rw [h0], fun h => by omega, fun _ => rfl⟩
  · have hpos : 0 < c.step_count := by omega
    have hn := next_op env c ty 0 hf hpos hop
    obtain ⟨hc1, hc2⟩ := op_read_core env
      { c with step_count := (c.step_count + 1) % 2 ^ 32 } c ty 0 rfl rfl (fun _ => rfl)
    obtain ⟨k1, v1, hfr⟩ := op_read_frame env
      { c with step_count := (c.step_count + 1) % 2 ^ 32 } ty 0
    rcases hq : __curlog_op_read env
      { c with step_count := (c.step_count + 1) % 2 ^ 32 } ty 0 with ⟨q, c2⟩
    rw [hq] at hn hfr hc1 hc2
    simp only at hfr hc1 hc2
    subst hfr
    rw [hrd] at hc1
    subst hc1
    obtain ⟨e1, e2⟩ := hc2 fid rfl
    simp only at e1 e2
    rw [hn]
    refine ⟨rfl, ?_, rfl, fun _ => ?_, fun h => absurd h h0⟩
    · simp [Ptr.add, hp]
    · simp only [e1, e2]

theorem needs_fetch_congr (a b : WT_CURSOR_LOG) (h1 : a.stepp = b.stepp)
    (h2 : a.stepp_end = b.stepp_end) (h3 : a.logrec = b.logrec) :
    needs_fetch a = needs_fetch b := by
  unfold needs_fetch
  rw [h1, h2, h3]

/-- On an operation of declared size 0 that unpacks, the cursor stays: after
any number of `next` calls the step pointer, the record and the scans are
unchanged, and the step count has gone up by 1 modulo 2^32 per call. -/
theorem zero_size_repeat (env : Env) (c : WT_CURSOR_LOG) (p ty fid : Nat)
    (hp : c.stepp = some p) (hf : needs_fetch c = false)
    (hop : env.logop_read c.logrec c.stepp c.stepp_end = .ok (ty, 0))
    (hrd : (__curlog_op_read env c ty 0).1 = .ok fid) (hsc : c.step_count < 2 ^ 32) (n : Nat) :
    (next_n env n c).stepp = c.stepp ∧ (next_n env n c).stepp_end = c.stepp_end ∧
    (next_n env n c).logrec = c.logrec ∧ (next_n env n c).cur_lsn = c.cur_lsn ∧
    (next_n env n c).txnid = c.txnid ∧ (next_n env n c).rectype = c.rectype ∧
    (next_n env n c).scans = c.scans ∧
    (next_n env n c).step_count = (c.step_count + n) % 2 ^ 32 := by
  induction n with
  | zero => exact ⟨rfl, rfl, rfl, rfl, rfl, rfl, rfl, (Nat.mod_eq_of_lt hsc).symm⟩
  | succ n ih =>
    obtain ⟨i1, i2, i3, i4, i5, i6, i7, i8⟩ := ih
    rw [next_n_succ]
    have hf2 : needs_fetch (next_n env n c) = false := by
      rw [needs_fetch_congr _ c i1 i2 i3]; exact hf
    have hrd2 : (__curlog_op_read env (next_n env n c) ty 0).1 = .ok fid := by
      rw [(op_read_core env (next_n env n c) c ty 0 i1 i3 (fun _ => by rw [i7])).1]; exact hrd
    obtain ⟨-, s2, -⟩ := zero_size_step env (next_n env n c) p ty fid (by rw [i1, hp]) hf2
      (by rw [i1, i2, i3]; exact hop) hrd2
    have hfr := kv_frame env (next_n env n c)
    rw [← next_no_fetch env _ hf2] at hfr
    obtain ⟨f1, -, f3, f4, f5, f6, f7, f8⟩ := hfr
    refine ⟨by rw [s2, hp], by rw [f4, i2], by rw [f3, i3], by rw [f1, i4], by rw [f5, i5],
      by rw [f6, i6], by rw [f7, i7], ?_⟩
    rw [f8, i8]
    omega

/-! ## Rows returned from one record -/

/-- C20 (amended): a `next` call that returns an operation row whose
operation declares a size of at least 1 strictly increases the step pointer,
and while `next` does not fetch and every operation it returns declares a
size of at least 1, it returns at most L - p operation rows, where p is the
step pointer and L the end of the record; on an operation that declares size
0 and unpacks every `next` succeeds, fetches nothing and leaves the step
pointer in place, the slot number goes up by 1 modulo 2^32 from call to call,
the row is that same operation whenever the slot is not 0, and the
whole-record row at slot 0 when the count has wrapped. -/
theorem rows_from_one_record (env : Env) :
    (∀ c p L, c.stepp = some p → c.stepp_end = some L →
      (is_op_row (__curlog_next env c) = true →
        (∀ ty sz, env.logop_read c.logrec c.stepp c.stepp_end = .ok (ty, sz) → 1 ≤ sz) →
        ∃ p2, (__curlog_next env c).2.stepp = some p2 ∧ p < p2) ∧
      (∀ n, (∀ i, i < n → needs_fetch (next_n env i c) = false) →
        (∀ i, i < n → is_op_row (__curlog_next env (next_n env i c)) = true →
          ∀ ty sz, env.logop_read (next_n env i c).logrec (next_n env i c).stepp
            (next_n env i c).stepp_end = .ok (ty, sz) → 1 ≤ sz) →
        op_rows env n c ≤ L - p ∧ op_rows env n c ≤ L)) ∧
    (∀ c p ty fid, c.stepp = some p → needs_fetch c = false →
      env.logop_read c.logrec c.stepp c.stepp_end = .ok (ty, 0) →
      (__curlog_op_read env c ty 0).1 = .ok fid → c.step_count < 2 ^ 32 →
      ∀ n,
        (__curlog_next env (next_n env n c)).1 = .ok () ∧
        (__curlog_next env (next_n env n c)).2.stepp = some p ∧
        (__curlog_next env (next_n env n c)).2.scans = c.scans ∧
        needs_fetch (__curlog_next env (next_n env n c)).2 = false ∧
        (__curlog_next env (next_n env n c)).2.key =
          some ⟨c.cur_lsn.file, c.cur_lsn.offset, (c.step_count + n) % 2 ^ 32⟩ ∧
        ((c.step_count + n) % 2 ^ 32 ≠ 0 →
          (__curlog_next env (next_n env n c)).2.value =
            some ⟨c.txnid, c.rectype, ty, fid, (__curlog_op_read env c ty 0).2.opkey,
              (__curlog_op_read env c ty 0).2.opvalue⟩) ∧
        ((c.step_count + n) % 2 ^ 32 = 0 →
          (__curlog_next env (next_n env n c)).2.value =
            some ⟨c.txnid, c.rectype, env.WT_LOGOP_INVALID, 0, [], c.logrec⟩)) := by
  refine ⟨fun c p L hp he => ⟨fun hrow hsz => ?_, fun n hnf hsz => ?_⟩,
    fun c p ty fid hp hf hop hrd hsc n => ?_⟩
  · obtain ⟨p1, ty, sz, hp1, hf, hop, hst⟩ := op_row_step env c hrow
    rw [hp] at hp1
    simp only [Option.some.injEq] at hp1
    subst hp1
    have := hsz ty sz hop
    exact ⟨p + sz, hst, by omega⟩
  · have := op_rows_bound env L n c p hp he hnf hsz
    exact ⟨this, by omega⟩
  · obtain ⟨i1, i2, i3, i4, i5, i6, i7, i8⟩ := zero_size_repeat env c p ty fid hp hf hop hrd hsc n
    have hf2 : needs_fetch (next_n env n c) = false := by
      rw [needs_fetch_congr _ c i1 i2 i3]; exact hf
    have hcore := op_read_core env (next_n env n c) c ty 0 i1 i3 (fun _ => by rw [i7])
    have hrd2 : (__curlog_op_read env (next_n env n c) ty 0).1 = .ok fid := by
      rw [hcore.1]; exact hrd
    obtain ⟨s1, s2, s3, s4, s5⟩ := zero_size_step env (next_n env n c) p ty fid
      (by rw [i1, hp]) hf2 (by rw [i1, i2, i3]; exact hop) hrd2
    obtain ⟨e1, e2⟩ := hcore.2 fid hrd2
    have hfr := kv_frame env (next_n env n c)
    rw [← next_no_fetch env _ hf2] at hfr
    obtain ⟨-, -, f3, f4, -, -, f7, -⟩ := hfr
    refine ⟨s1, s2, by rw [f7, i7], ?_, by rw [s3, i4, i8], fun h => ?_, fun h => ?_⟩
    · rw [needs_fetch_congr _ c (by rw [s2, hp]) (by rw [f4, i2]) (by rw [f3, i3])]; exact hf
    · rw [s4 (by rw [i8]; omega), i5, i6, e1, e2]
    · rw [s5 (by rw [i8]; exact h), i5, i6, i3]

theorem next_n_succ_left (env : Env) (k : Nat) (c : WT_CURSOR_LOG) :
    next_n env (k + 1) c = next_n env k (__curlog_next env c).2 := rfl

/-- Witness of C20: after the first `next` on the record whose row put holds
a zero byte in its value, two more calls return operation rows without
fetching, 2 ≤ 16 - 4; on the log whose operation declares size 0 the fifth
`next` returns slot 4. -/
theorem rows_from_one_record_witness :
    op_rows (Toy.env Toy.log_zero_value) 2
      (next_n (Toy.env Toy.log_zero_value) 1 (curlog_open (Toy.env Toy.log_zero_value))) ≤
      16 - 4 ∧
    (__curlog_next (Toy.env Toy.log_zero_size)
      (next_n (Toy.env Toy.log_zero_size) 3
        (next_n (Toy.env Toy.log_zero_size) 1
          (curlog_open (Toy.env Toy.log_zero_size))))).2.key = some ⟨1, 0, 4⟩ :=
  ⟨((((rows_from_one_record (Toy.env Toy.log_zero_value)).1
      (next_n (Toy.env Toy.log_zero_value) 1 (curlog_open (Toy.env Toy.log_zero_value))) 4 16
      (by rfl) (by rfl)).2 2 (fun i hi => by interval_cases i <;> rfl)
      (fun i hi _ ty sz hop => by
        interval_cases i
        · have h : (Except.ok (4, 7) : Except Int (Nat × Nat)) = .ok (ty, sz) := hop
          simp only [Except.ok.injEq, Prod.mk.injEq] at h
          omega
        · have h : (Except.ok (5, 5) : Except Int (Nat × Nat)) = .ok (ty, sz) := hop
          simp only [Except.ok.injEq, Prod.mk.injEq] at h
          omega))).1,
   ((rows_from_one_record (Toy.env Toy.log_zero_size)).2
      (next_n (Toy.env Toy.log_zero_size) 1 (curlog_open (Toy.env Toy.log_zero_size)))
      4 9 0 (by rfl) (by rfl) (by rfl) (by rfl) (by decide) 3).2.2.2.2.1⟩

/-- C20 as stated fails at the wrap of the 32-bit step count: on the log whose
commit record holds an operation of kind 9 with declared size 0, call number
2^32 of a fresh cursor returns that operation at slot 2^32 - 1, and the call
after it succeeds without fetching and returns slot 0 with the whole-record
row (operation type 0, the record bytes as value), not the operation at slot
2^32. -/
theorem slot_wraps_to_whole_record_row :
    (__curlog_next (Toy.env Toy.log_zero_size)
      (next_n (Toy.env Toy.log_zero_size) (2 ^ 32 - 1)
        (curlog_open (Toy.env Toy.log_zero_size)))).2.key = some ⟨1, 0, 2 ^ 32 - 1⟩ ∧
    (__curlog_next (Toy.env Toy.log_zero_size)
      (next_n (Toy.env Toy.log_zero_size) (2 ^ 32 - 1)
        (curlog_open (Toy.env Toy.log_zero_size)))).2.value = some ⟨5, 1, 9, 0, [], []⟩ ∧
    (__curlog_next (Toy.env Toy.log_zero_size)
      (next_n (Toy.env Toy.log_zero_size) (2 ^ 32)
        (curlog_open (Toy.env Toy.log_zero_size)))).1 = .ok () ∧
    (__curlog_next (Toy.env Toy.log_zero_size)
      (next_n (Toy.env Toy.log_zero_size) (2 ^ 32)
        (curlog_open (Toy.env Toy.log_zero_size)))).2.scans = [⟨0, 0⟩] ∧
    (__curlog_next (Toy.env Toy.log_zero_size)
      (next_n (Toy.env Toy.log_zero_size) (2 ^ 32)
        (curlog_open (Toy.env Toy.log_zero_size)))).2.key = some ⟨1, 0, 0⟩ ∧
    (__curlog_next (Toy.env Toy.log_zero_size)
      (next_n (Toy.env Toy.log_zero_size) (2 ^ 32)
        (curlog_open (Toy.env Toy.log_zero_size)))).2.value =
      some ⟨5, 1, 0, 0, [], [0, 0, 1, 5, 9, 0]⟩ := by
  have key : ∀ n,
      (next_n (Toy.env Toy.log_zero_size) n (__curlog_next (Toy.env Toy.log_zero_size)
        (curlog_open (Toy.env Toy.log_zero_size))).2).step_count = (1 + n) % 2 ^ 32 ∧
      (__curlog_next (Toy.env Toy.log_zero_size)
        (next_n (Toy.env Toy.log_zero_size) (n + 1)
          (curlog_open (Toy.env Toy.log_zero_size)))).1 = .ok () ∧
      (__curlog_next (Toy.env Toy.log_zero_size)
        (next_n (Toy.env Toy.log_zero_size) (n + 1)
          (curlog_open (Toy.env Toy.log_zero_size)))).2.scans = [⟨0, 0⟩] ∧
      (__curlog_next (Toy.env Toy.log_zero_size)
        (next_n (Toy.env Toy.log_zero_size) (n + 1)
          (curlog_open (Toy.env Toy.log_zero_size)))).2.key = some ⟨1, 0, (1 + n) % 2 ^ 32⟩ ∧
      (0 < (1 + n) % 2 ^ 32 → (__curlog_next (Toy.env Toy.log_zero_size)
        (next_n (Toy.env Toy.log_zero_size) (n + 1)
          (curlog_open (Toy.env Toy.log_zero_size)))).2.value = some ⟨5, 1, 9, 0, [], []⟩) ∧
      ((1 + n) % 2 ^ 32 = 0 → (__curlog_next (Toy.env Toy.log_zero_size)
        (next_n (Toy.env Toy.log_zero_size) (n + 1)
          (curlog_open (Toy.env Toy.log_zero_size)))).2.value =
            some ⟨5, 1, 0, 0, [], [0, 0, 1, 5, 9, 0]⟩) := by
    intro n
    rw [next_n_succ_left]
    obtain ⟨i1, i2, i3, i4, i5, i6, i7, i8⟩ := zero_size_repeat (Toy.env Toy.log_zero_size)
      (__curlog_next (Toy.env Toy.log_zero_size) (curlog_open (Toy.env Toy.log_zero_size))).2
      4 9 0 (by rfl) (by rfl) (by rfl) (by rfl) (by decide) n
    have hf2 := needs_fetch_congr _ _ i1 i2 i3
    have hcore := op_read_core (Toy.env Toy.log_zero_size) _ _ 9 0 i1 i3 (fun _ => by rw [i7])
    obtain ⟨s1, s2, s3, s4, s5⟩ := zero_size_step (Toy.env Toy.log_zero_size) _ 4 9 0
      i1 hf2 (by rw [i1, i2, i3]; rfl) hcore.1
    obtain ⟨e1, e2⟩ := hcore.2 0 hcore.1
    have hfr := kv_frame (Toy.env Toy.log_zero_size) (next_n (Toy.env Toy.log_zero_size) n
      (__curlog_next (Toy.env Toy.log_zero_size) (curlog_open (Toy.env Toy.log_zero_size))).2)
    rw [← next_no_fetch _ _ hf2] at hfr
    refine ⟨i8, s1, by rw [hfr.2.2.2.2.2.2.1, i7]; rfl, ?_, fun h => ?_, fun h => ?_⟩
    · rw [s3, i4, i8]; rfl
    · rw [s4 (by rw [i8]; exact h), i5, i6, e1, e2]; rfl
    · rw [s5 (by rw [i8]; exact h), i5, i6, i3]; rfl
  have ka := key (2 ^ 32 - 2)
  have kb := key (2 ^ 32 - 1)
  have ea : 2 ^ 32 - 2 + 1 = 2 ^ 32 - 1 := by norm_num
  have eb : 2 ^ 32 - 1 + 1 = 2 ^ 32 := by norm_num
  have ma : (1 + (2 ^ 32 - 2)) % 2 ^ 32 = 2 ^ 32 - 1 := by norm_num
  have mb : (1 + (2 ^ 32 - 1)) % 2 ^ 32 = 0 := by norm_num
  rw [ea, ma] at ka
  rw [eb, mb] at kb
  exact ⟨ka.2.2.2.1, ka.2.2.2.2.1 (by norm_num), kb.2.1, kb.2.2.1, kb.2.2.2.1,
    kb.2.2.2.2.2 rfl⟩

end CurLog
